import Mathlib

/-!
# general.h, array.h, pool.h : a growable array and an arena over a pluggable allocator

A shallow embedding of `src/general.h` (allocator interface, `assert`,
`heap_allocator`), `src/array.h` (`Array<T>` and its operations) and `src/pool.h`
(`Pool` and its operations), followed by the properties proved of them.

Conventions of the embedding

* An `s64` is an `Int`.  Signed overflow is undefined in C++, so the embedding
  describes the executions in which no `s64` computation leaves its range.
* A pointer (`void *`, `T *`, `u8 *`) is a `Nat`, the byte address; `null` is 0.
* Memory is a flat byte store.  An access to an address that is not mapped, an
  access through a null base pointer, a call through a null procedure pointer
  and an overlapping `memcpy` are undefined behaviour: `Outcome.undefined`.
* Stateful code is explicit state passing: `Exec α` takes the `World` before
  the call and yields an `Outcome`.  An `Array<T> *` argument is the header
  value passed in and the updated header passed out; an out-parameter
  (`T *value_return`) is passed in and handed back the same way.  A `Pool *` is
  the address of a `Pool` object kept in the `World`.
* A call through an `Allocator_Proc *` is resolved by a table of procedures
  (`Procs`), so that array.h is described for whatever code is linked behind
  the pointers it is given; `linked_procs` is the table of the repository.
* `assert` is the macro of general.h: what a failed assertion does depends on
  the answer to its message box, see `Assert_Mode`.
* `HeapAlloc`, `HeapFree`, `memcpy`, `MessageBoxA` are operating-system or
  C-library primitives; they are described by their documented behaviour.
-/

namespace General

/-! ## Basic types (general.h) -/

/-- An unsigned byte, `u8`. -/
abbrev u8 := Fin 256

/-- The null pointer, `#define null 0`. -/
def null : Nat := 0

/-- The enum `Allocator_Mode` of general.h. -/
inductive Allocator_Mode where
  | ALLOCATOR_ALLOCATE
  | ALLOCATOR_RESIZE
  | ALLOCATOR_FREE
  | ALLOCATOR_FREE_ALL
  deriving DecidableEq, Repr

/-- A non-null value of type `Allocator_Proc *`: the procedures with the
`ALLOCATOR_PROC` signature that the repository declares. -/
inductive Proc_Ptr where
  | heap_allocator
  | pool_allocator_proc
  deriving DecidableEq, Repr

/-- The struct `Allocator` of general.h; `proc = none` is the null procedure pointer. -/
structure Allocator where
  proc : Option Proc_Ptr
  data : Nat
  deriving DecidableEq, Repr

/-- One call made through an `Allocator_Proc *`, with the five arguments of
`ALLOCATOR_PROC`. -/
structure Request where
  proc : Proc_Ptr
  mode : Allocator_Mode
  size : Int
  old_size : Int
  old_memory : Nat
  allocator_data : Nat
  deriving DecidableEq, Repr

/-- What a failed `assert` does.  general.h defines `ENABLE_ASSERTS` at line 14, so the
macro of lines 276-284 is the one in force: it writes the diagnostic and puts up a message
box.  `terminate`: the box is answered Abort (`ExitProcess`) or Retry (`debug_break`).
`dismiss`: the box is answered Ignore (its default button), `tinyrt_abort_error_message`
returns false and execution goes on after the diagnostic.  `compiled_out` is the other
branch of the macro (lines 286-289, expanding to nothing), which applies only to a copy of
general.h without the `#define ENABLE_ASSERTS`. -/
inductive Assert_Mode where
  | compiled_out
  | terminate
  | dismiss
  deriving DecidableEq, Repr

/-- The struct `Array<T>` of array.h.  `T` only fixes the element layout. -/
structure Array (T : Type) where
  allocated : Int := 0
  count : Int := 0
  data : Nat := null
  allocator : Allocator := ⟨some Proc_Ptr.heap_allocator, null⟩
  deriving DecidableEq, Repr

/-- A `u8 *` held as an array element: a 64-bit address. -/
abbrev u8_ptr := Fin 18446744073709551616

/-- The struct `Pool` of pool.h, lines 22-34. -/
structure Pool where
  memblock_size : Int := 4096
  alignment : Int := 8
  current_memblock : Nat := null
  current_pos : Nat := null
  bytes_left : Int := 0
  used_memblocks : Array u8_ptr := {}
  unused_memblocks : Array u8_ptr := {}
  block_allocator : Allocator := ⟨some Proc_Ptr.heap_allocator, null⟩
  deriving DecidableEq, Repr

/-- The state a call runs in. -/
structure World where
  /-- The byte store: the content of every mapped address. -/
  mem : Nat → Option u8
  /-- The live blocks of the process heap: base address to size in bytes. -/
  heap_size : Nat → Option Nat
  /-- The highest address the process heap has handed out so far. -/
  heap_next : Nat
  /-- The bytes the process heap can still supply; `none` is a heap that is never exhausted. -/
  heap_avail : Option Nat
  /-- How a failed assertion is treated. -/
  asserts : Assert_Mode
  /-- What `write_string` has written, in order: the text and `to_standard_error`. -/
  output : List (String × Bool)
  /-- The calls made through allocator procedure pointers, in order. -/
  requests : List Request
  /-- The `Pool` objects, by address. -/
  pools : Nat → Option Pool

/-- The result of running a piece of code. -/
inductive Outcome (α : Type) where
  /-- Normal completion with a value, in a new state. -/
  | ok (val : α) (w : World)
  /-- The process was ended by a failed assertion; `w` is the state at that point. -/
  | fatal (w : World)
  /-- The behaviour is undefined. -/
  | undefined

/-- Code with a result of type `α`. -/
abbrev Exec (α : Type) := World → Outcome α

/-- Sequencing: the second part runs only if the first completes normally. -/
def Exec.bind {α β : Type} (m : Exec α) (f : α → Exec β) : Exec β := fun w =>
  match m w with
  | Outcome.ok a w1 => f a w1
  | Outcome.fatal w1 => Outcome.fatal w1
  | Outcome.undefined => Outcome.undefined

instance : Monad Exec where
  pure a := fun w => Outcome.ok a w
  bind := Exec.bind

/-- The value of a normal completion. -/
def Outcome.val? {α : Type} : Outcome α → Option α
  | Outcome.ok a _ => some a
  | _ => none

/-! ## Memory -/

/-- The `n` bytes from address `p` on are all mapped. -/
def World.mapped (w : World) (p : Nat) (n : Nat) : Prop :=
  ∀ i, i < n → (w.mem (p + i)).isSome = true

instance (w : World) (p : Nat) (n : Nat) : Decidable (w.mapped p n) := by
  unfold World.mapped; exact inferInstance

/-- The `n` bytes stored from address `p` on (an unmapped byte reads as 0 here;
`load` refuses such a range). -/
def World.bytes (w : World) (p : Nat) (n : Nat) : List u8 :=
  (List.range n).map (fun i => (w.mem (p + i)).getD 0)

/-- The store with the bytes `bs` written from address `p` on. -/
def World.write (w : World) (p : Nat) (bs : List u8) : World :=
  { w with mem := fun a => if p ≤ a ∧ a < p + bs.length then some (bs.getD (a - p) 0) else w.mem a }

/-- Read `n` bytes at `p`. -/
def load (p : Nat) (n : Nat) : Exec (List u8) := fun w =>
  if w.mapped p n then Outcome.ok (w.bytes p n) w else Outcome.undefined

/-- Write the bytes `bs` at `p`. -/
def store (p : Nat) (bs : List u8) : Exec Unit := fun w =>
  if w.mapped p bs.length then Outcome.ok () (w.write p bs) else Outcome.undefined

/-- The C library `memcpy(dst, src, n)`; `n` arrives as a `size_t`, so a
negative `s64` is a count no object can have. -/
def memcpy (dst src : Nat) (n : Int) : Exec Unit :=
  if n < 0 then fun _ => Outcome.undefined
  else if n = 0 then pure ()
  else if dst = null ∨ src = null then fun _ => Outcome.undefined
  else if dst < src + n.toNat ∧ src < dst + n.toNat then fun _ => Outcome.undefined
  else do
    let bs ← load src n.toNat
    store dst bs

/-! ## Diagnostics and assert (general.h) -/

/-- The state after one more `write_string`. -/
def World.put (w : World) (s : String) (to_standard_error : Bool) : World :=
  { w with output := w.output ++ [(s, to_standard_error)] }

/-- The procedure `write_string(s, to_standard_error)`. -/
def write_string (s : String) (to_standard_error : Bool) : Exec Unit := fun w =>
  Outcome.ok () (w.put s to_standard_error)

/-- The line a failed `assert` writes (to standard output, the default of `write_string`). -/
def assert_text (expression site : String) : String :=
  "Assertion Failure: " ++ expression ++ " at " ++ site ++ "\n"

/-- The macro `assert(expression)` of general.h, lines 272-290.  `expression` is the
stringified condition and `site` the `file:line` of the use.  The text is made by
`STRINGIFY(expression)`, which expands the macros in its argument first: a `null` in the
condition is written as `0` (`#define null 0`, line 180). -/
def assert (cond : Bool) (expression site : String) : Exec Unit := fun w =>
  match w.asserts with
  | Assert_Mode.compiled_out => Outcome.ok () w
  | Assert_Mode.terminate =>
    if cond then Outcome.ok () w
    else Outcome.fatal (w.put (assert_text expression site) false)
  | Assert_Mode.dismiss =>
    if cond then Outcome.ok () w
    else Outcome.ok () (w.put (assert_text expression site) false)

/-! ## The process heap and `heap_allocator` (general.h) -/

/-- The process heap cannot supply `n` more bytes. -/
def World.heap_exhausted (w : World) (n : Nat) : Bool :=
  match w.heap_avail with
  | none => false
  | some avail => decide (avail < n)

/-- The state after the process heap has handed out a zeroed block of `n` bytes at `p`. -/
def World.heap_add (w : World) (p : Nat) (n : Nat) : World :=
  { w with
    mem := fun a => if p ≤ a ∧ a < p + n then some 0 else w.mem a
    heap_size := fun b => if b = p then some n else w.heap_size b
    heap_next := p + n
    heap_avail := w.heap_avail.map (fun avail => avail - n) }

/-- The state after the process heap has taken back the block of `n` bytes at `p`. -/
def World.heap_remove (w : World) (p : Nat) (n : Nat) : World :=
  { w with
    mem := fun a => if p ≤ a ∧ a < p + n then none else w.mem a
    heap_size := fun b => if b = p then none else w.heap_size b
    heap_avail := w.heap_avail.map (fun avail => avail + n) }

/-- The call `HeapAlloc(GetProcessHeap(), HEAP_ZERO_MEMORY, size)`: a fresh zeroed block
above everything handed out before, or null when the heap cannot supply it.  The
byte count is a `SIZE_T`; a negative `s64` converts to a count no heap supplies. -/
def HeapAlloc (size : Int) : Exec Nat := fun w =>
  if size < 0 ∨ w.heap_exhausted size.toNat = true then Outcome.ok null w
  else Outcome.ok (w.heap_next + 1) (w.heap_add (w.heap_next + 1) size.toNat)

/-- The call `HeapFree(GetProcessHeap(), 0, p)`: null is accepted and ignored; any other
pointer has to be the base of a live block of the heap. -/
def HeapFree (p : Nat) : Exec Unit := fun w =>
  if p = null then Outcome.ok () w
  else
    match w.heap_size p with
    | none => Outcome.undefined
    | some n => Outcome.ok () (w.heap_remove p n)

/-- The signature `ALLOCATOR_PROC(name)`:
`void *name(Allocator_Mode mode, s64 size, s64 old_size, void *old_memory, void *allocator_data)`. -/
abbrev Allocator_Proc := Allocator_Mode → Int → Int → Nat → Nat → Exec Nat

/-- The code behind each allocator procedure pointer. -/
abbrev Procs := Proc_Ptr → Allocator_Proc

/-- The procedure `heap_allocator` of general.h, lines 937-974. -/
def heap_allocator : Allocator_Proc := fun mode size old_size old_memory _allocator_data =>
  match mode with
  | Allocator_Mode.ALLOCATOR_ALLOCATE => HeapAlloc size
  | Allocator_Mode.ALLOCATOR_RESIZE => do
    let result ← HeapAlloc size
    if result = null then pure null
    else if old_memory ≠ null ∧ old_size > 0 then do
      memcpy result old_memory old_size
      HeapFree old_memory
      pure result
    else pure result
  | Allocator_Mode.ALLOCATOR_FREE => do
    HeapFree old_memory
    pure null
  | Allocator_Mode.ALLOCATOR_FREE_ALL => do
    assert false "!\x22Not supported\x22" "general.h:965"
    pure null

/-- The state with one more recorded call through a procedure pointer. -/
def World.request (w : World) (r : Request) : World :=
  { w with requests := w.requests ++ [r] }

/-- A call `a.proc(mode, size, old_size, old_memory, a.data)` through the procedure
pointer of `a`.  The call is recorded in `requests` before the procedure runs. -/
def Allocator.call (procs : Procs) (a : Allocator) (mode : Allocator_Mode)
    (size old_size : Int) (old_memory : Nat) : Exec Nat := fun w =>
  match a.proc with
  | none => Outcome.undefined
  | some p =>
    procs p mode size old_size old_memory a.data
      (w.request ⟨p, mode, size, old_size, old_memory, a.data⟩)

/-- The default every operation of array.h falls back to when the procedure pointer
is null: `a.proc = heap_allocator; a.data = null;`. -/
def Allocator.or_heap (a : Allocator) : Allocator :=
  if a.proc = none then ⟨some Proc_Ptr.heap_allocator, null⟩ else a

/-! ## Element layout -/

/-- How a value of the element type `T` lies in memory: `size_of(T)` bytes. -/
class Layout (T : Type) where
  /-- The number of bytes of one element, `size_of(T)`. -/
  size_of : Nat
  /-- The object representation of a value. -/
  encode : T → List u8
  /-- The value with a given object representation. -/
  decode : List u8 → T
  size_of_pos : 0 < size_of
  encode_length : ∀ t, (encode t).length = size_of
  decode_encode : ∀ t, decode (encode t) = t

/-- The layout of `u8`: one byte. -/
instance : Layout u8 where
  size_of := 1
  encode := fun b => [b]
  decode := fun bs => bs.getD 0 0
  size_of_pos := by decide
  encode_length := fun _ => rfl
  decode_encode := fun _ => rfl

/-- The layout of a `u8 *`: eight bytes, least significant first. -/
instance : Layout u8_ptr where
  size_of := 8
  encode := fun x =>
    [Fin.ofNat x.val, Fin.ofNat (x.val / 256), Fin.ofNat (x.val / 65536),
      Fin.ofNat (x.val / 16777216), Fin.ofNat (x.val / 4294967296),
      Fin.ofNat (x.val / 1099511627776), Fin.ofNat (x.val / 281474976710656),
      Fin.ofNat (x.val / 72057594037927936)]
  decode := fun bs =>
    Fin.ofNat ((bs.getD 0 0).val + 256 * (bs.getD 1 0).val + 65536 * (bs.getD 2 0).val +
      16777216 * (bs.getD 3 0).val + 4294967296 * (bs.getD 4 0).val +
      1099511627776 * (bs.getD 5 0).val + 281474976710656 * (bs.getD 6 0).val +
      72057594037927936 * (bs.getD 7 0).val)
  size_of_pos := by decide
  encode_length := fun _ => rfl
  decode_encode := fun x => by
    apply Fin.ext
    have hx := x.isLt
    simp only [Fin.ofNat, List.getD_cons_zero, List.getD_cons_succ, Fin.val_mk]
    omega

/-- The address of `data[index]` for a `T *data`; there is none below address 0. -/
def elem_ptr (T : Type) [Layout T] (data : Nat) (index : Int) : Option Nat :=
  if 0 ≤ (data : Int) + index * (Layout.size_of T : Int)
  then some ((data : Int) + index * (Layout.size_of T : Int)).toNat
  else none

/-- The read `data[index]`. -/
def load_elem {T : Type} [Layout T] (data : Nat) (index : Int) : Exec T :=
  if data = null then fun _ => Outcome.undefined
  else
    match elem_ptr T data index with
    | none => fun _ => Outcome.undefined
    | some p => do
      let bs ← load p (Layout.size_of T)
      pure (Layout.decode bs)

/-- The write `data[index] = item`. -/
def store_elem {T : Type} [Layout T] (data : Nat) (index : Int) (item : T) : Exec Unit :=
  if data = null then fun _ => Outcome.undefined
  else
    match elem_ptr T data index with
    | none => fun _ => Outcome.undefined
    | some p => store p (Layout.encode item)

/-! ## array.h -/

/-- The procedure `array_new(n, a)`, array.h lines 22-39. -/
def array_new (T : Type) [Layout T] (procs : Procs) (n : Int) (a : Allocator) : Exec (Array T) := do
  let a := a.or_heap
  let data ← a.call procs Allocator_Mode.ALLOCATOR_ALLOCATE (n * (Layout.size_of T : Int)) 0 null
  pure { allocator := a, allocated := n, count := n, data := data }

/-- The procedure `array_free(arr)`, array.h lines 41-57.  The rebound copy `a` is
local: the stored allocator is not written. -/
def array_free {T : Type} (procs : Procs) (arr : Array T) : Exec (Array T) :=
  if arr.data ≠ null then do
    let a := arr.allocator.or_heap
    let _ ← a.call procs Allocator_Mode.ALLOCATOR_FREE 0 0 arr.data
    pure { arr with data := null, count := 0, allocated := 0 }
  else
    pure { arr with count := 0, allocated := 0 }

/-- The procedure `array_reset(arr)`, array.h lines 59-62. -/
def array_reset {T : Type} (arr : Array T) : Array T :=
  { arr with count := 0 }

/-- Lines 79-82 of `array_copy`, with `a` the allocator of `dest` after the fallback to the
heap: the old storage, if there is one, is released and the new storage is requested. -/
def array_copy_storage {T : Type} [Layout T] (procs : Procs) (dest src : Array T) : Exec Nat := do
  let a := dest.allocator.or_heap
  if dest.data ≠ null then do
    let _ ← a.call procs Allocator_Mode.ALLOCATOR_FREE 0 0 dest.data
    a.call procs Allocator_Mode.ALLOCATOR_ALLOCATE (src.count * (Layout.size_of T : Int)) 0 null
  else
    a.call procs Allocator_Mode.ALLOCATOR_ALLOCATE (src.count * (Layout.size_of T : Int)) 0 null

/-- The procedure `array_copy(dest, src)`, array.h lines 64-87; `src` is only read. -/
def array_copy {T : Type} [Layout T] (procs : Procs) (dest src : Array T) : Exec (Array T) := do
  let dest ←
    if dest.allocated < src.count then do
      let data ← array_copy_storage procs dest src
      pure ({ dest with allocated := src.count, allocator := dest.allocator.or_heap,
                        data := data } : Array T)
    else pure dest
  memcpy dest.data src.data (src.count * (Layout.size_of T : Int))
  pure { dest with count := src.count }

/-- The procedure `array_reserve(arr, reserve)`, array.h lines 89-111. -/
def array_reserve {T : Type} [Layout T] (procs : Procs) (arr : Array T) (reserve : Int) :
    Exec (Array T) :=
  if reserve ≤ arr.allocated then pure arr
  else do
    let size : Int := (Layout.size_of T : Int)
    let num_bytes := reserve * size
    let arr : Array T := { arr with allocator := arr.allocator.or_heap }
    let a := arr.allocator
    let new_memory ← a.call procs Allocator_Mode.ALLOCATOR_RESIZE num_bytes (arr.count * size) arr.data
    assert (decide (new_memory ≠ null)) "new_memory != 0" "array.h:105"
    if new_memory = null then pure arr
    else pure { arr with data := new_memory, allocated := reserve }

/-- The growth target of `array_add`: `2 * allocated`, raised to 8 when smaller. -/
def reserve_count (allocated : Int) : Int :=
  if 2 * allocated < 8 then 8 else 2 * allocated

/-- The procedure `array_add(arr, item)`, array.h lines 113-124. -/
def array_add {T : Type} [Layout T] (procs : Procs) (arr : Array T) (item : T) : Exec (Array T) := do
  let arr ←
    if arr.count ≥ arr.allocated then array_reserve procs arr (reserve_count arr.allocated)
    else pure arr
  store_elem arr.data arr.count item
  pure { arr with count := arr.count + 1 }

/-- The overload `T *array_add(arr)`, array.h lines 126-139: the new slot is returned,
nothing is written to it. -/
def array_add_slot {T : Type} [Layout T] (procs : Procs) (arr : Array T) : Exec (Nat × Array T) := do
  let arr ←
    if arr.count ≥ arr.allocated then array_reserve procs arr (reserve_count arr.allocated)
    else pure arr
  match elem_ptr T arr.data arr.count with
  | none => fun _ => Outcome.undefined
  | some result => pure (result, { arr with count := arr.count + 1 })

/-- The loop of `array_find` from `index` on, with `n` iterations left. -/
def array_find_loop {T : Type} [Layout T] [DecidableEq T] (array : Array T) (item : T) :
    Nat → Int → Exec Int
  | 0, _ => pure (-1)
  | n + 1, index => do
    let it ← load_elem array.data index
    if it = item then pure index
    else array_find_loop array item n (index + 1)

/-- The procedure `array_find(array, item)`, array.h lines 141-149: `index` runs from 0
while `index < array->count`. -/
def array_find {T : Type} [Layout T] [DecidableEq T] (array : Array T) (item : T) : Exec Int :=
  array_find_loop array item array.count.toNat 0

/-- The procedure `array_resize(array, size)`, array.h lines 151-173. -/
def array_resize {T : Type} [Layout T] (procs : Procs) (array : Array T) (size : Int) :
    Exec (Array T) := do
  let array : Array T := { array with allocator := array.allocator.or_heap }
  let a := array.allocator
  let stride : Int := (Layout.size_of T : Int)
  let bytes := size * stride
  let new_memory ← a.call procs Allocator_Mode.ALLOCATOR_RESIZE bytes (array.allocated * stride) array.data
  assert (decide (new_memory ≠ null)) "new_memory != 0" "array.h:167"
  pure { array with data := new_memory, allocated := size }

/-- The procedure `array_pop(array, value_return)`, array.h lines 175-186.  The result is
the returned `bool`, the content of `*value_return` afterwards and the array. -/
def array_pop {T : Type} [Layout T] (array : Array T) (value_return : T) :
    Exec (Bool × T × Array T) :=
  if array.count = 0 then do
    write_string "Panic: Attempt to pop an empty array.\n" true
    assert false "0" "array.h:179"
    pure (false, value_return, array)
  else do
    let v ← load_elem array.data (array.count - 1)
    pure (true, v, { array with count := array.count - 1 })

/-- The member `T &Array::operator[](s64 index)`, array.h lines 14-19: the three
assertions, then the reference to `data[index]` (its address). -/
def Array.operator_index {T : Type} [Layout T] (arr : Array T) (index : Int) : Exec Nat := do
  assert (decide (index ≥ 0)) "index >= 0" "array.h:15"
  assert (decide (index < arr.count)) "index < this->count" "array.h:16"
  assert (decide (arr.data ≠ null)) "this->data != 0" "array.h:17"
  match elem_ptr T arr.data index with
  | none => fun _ => Outcome.undefined
  | some p => pure p

/-- A read through a `T &`. -/
def load_ref {T : Type} [Layout T] (p : Nat) : Exec T :=
  if p = null then fun _ => Outcome.undefined
  else do
    let bs ← load p (Layout.size_of T)
    pure (Layout.decode bs)

/-! ## pool.h -/

/-- The constant `POOL_BUCKET_SIZE_DEFAULT = KB(4)`. -/
def POOL_BUCKET_SIZE_DEFAULT : Int := 4096

/-- The constant `POOL_ALIGNMENT_DEFAULT`. -/
def POOL_ALIGNMENT_DEFAULT : Int := 8

/-- The `Pool` object a `Pool *` points to. -/
def Pool.deref (pool : Nat) : Exec Pool := fun w =>
  match w.pools pool with
  | some p => Outcome.ok p w
  | none => Outcome.undefined

/-- An update of the `Pool` object a `Pool *` points to. -/
def Pool.modify (pool : Nat) (f : Pool → Pool) : Exec Unit := fun w =>
  match w.pools pool with
  | some p => Outcome.ok () { w with pools := fun a => if a = pool then some (f p) else w.pools a }
  | none => Outcome.undefined

/-- The procedure `set_allocators(pool, block_allocator, array_allocator)`, pool.h lines 85-100. -/
def set_allocators (pool : Nat) (block_allocator array_allocator : Allocator) : Exec Unit :=
  Pool.modify pool fun p =>
    { p with
      block_allocator := block_allocator.or_heap
      used_memblocks := { p.used_memblocks with allocator := array_allocator.or_heap }
      unused_memblocks := { p.unused_memblocks with allocator := array_allocator.or_heap } }

/-- The procedure `pool_init(pool, block_size, alignment)`, pool.h lines 40-51. -/
def pool_init (pool : Nat) (block_size alignment : Int) : Exec Unit := do
  Pool.modify pool fun p =>
    { p with memblock_size := block_size, alignment := alignment,
             current_memblock := null, current_pos := null, bytes_left := 0 }
  set_allocators pool ⟨some Proc_Ptr.heap_allocator, null⟩ ⟨some Proc_Ptr.heap_allocator, null⟩

/-- The procedure `pool_cycle_new_block(pool)`, pool.h lines 64-83. -/
def pool_cycle_new_block (procs : Procs) (pool : Nat) : Exec Unit := do
  let p ← Pool.deref pool
  if p.block_allocator.proc = none then do
    write_string "You must call set_allocators or pool_init before using it!\n" true
    assert false "false" "pool.h:67"
  let a := p.block_allocator
  let new_block ←
    if p.unused_memblocks.count ≠ 0 then do
      let popped ← array_pop p.unused_memblocks 0
      Pool.modify pool fun q => { q with unused_memblocks := popped.2.2 }
      pure popped.2.1.val
    else do
      assert (decide (a.proc ≠ none)) "a.proc != 0" "pool.h:76"
      a.call procs Allocator_Mode.ALLOCATOR_ALLOCATE p.memblock_size 0 null
  Pool.modify pool fun q =>
    { q with bytes_left := q.memblock_size, current_memblock := new_block, current_pos := new_block }

/-- Lines 115-118 of `pool_get`: the bump of `current_pos` by the rounded `nbytes`. -/
def pool_get_bump (pool : Nat) (nbytes : Int) : Exec Nat := do
  let p ← Pool.deref pool
  let result := p.current_pos
  if (p.current_pos : Int) + nbytes < 0 then fun _ => Outcome.undefined
  else do
    Pool.modify pool fun q =>
      { q with current_pos := ((q.current_pos : Int) + nbytes).toNat, bytes_left := q.bytes_left - nbytes }
    pure result

/-- The procedure `pool_get(pool, nbytes)`, pool.h lines 102-119.  The operator `%` of C++
truncates towards zero and is undefined for a zero divisor. -/
def pool_get (procs : Procs) (pool : Nat) (nbytes : Int) : Exec Nat := do
  assert (decide (pool ≠ null)) "pool != 0" "pool.h:103"
  let p ← Pool.deref pool
  if p.alignment = 0 then fun _ => Outcome.undefined
  else do
    let extra := (p.alignment - nbytes.tmod p.alignment).tmod p.alignment
    let nbytes := nbytes + extra
    if p.bytes_left < nbytes then do
      pool_cycle_new_block procs pool
      let q ← Pool.deref pool
      if q.current_memblock = null then pure null
      else pool_get_bump pool nbytes
    else pool_get_bump pool nbytes

/-- The loop of `pool_reset` from `index` on, with at most `n` iterations left. -/
def pool_reset_loop (procs : Procs) (pool : Nat) : Nat → Int → Exec Unit
  | 0, _ => pure ()
  | n + 1, index => do
    let p ← Pool.deref pool
    if index < p.used_memblocks.count then do
      let ref ← p.used_memblocks.operator_index index
      let it : u8_ptr ← load_ref ref
      let q ← Pool.deref pool
      let unused ← array_add procs q.unused_memblocks it
      Pool.modify pool fun q => { q with unused_memblocks := unused }
      pool_reset_loop procs pool n (index + 1)
    else pure ()

/-- The procedure `pool_reset(pool)`, pool.h lines 132-142. -/
def pool_reset (procs : Procs) (pool : Nat) : Exec Unit := do
  let p ← Pool.deref pool
  if p.current_memblock ≠ null then do
    let unused ← array_add procs p.unused_memblocks (Fin.ofNat p.current_memblock : u8_ptr)
    Pool.modify pool fun q => { q with unused_memblocks := unused, current_memblock := null }
  let p ← Pool.deref pool
  pool_reset_loop procs pool p.used_memblocks.count.toNat 0
  Pool.modify pool fun q => { q with used_memblocks := { q.used_memblocks with count := 0 } }

/-- The loop of `pool_release` from `index` on, with at most `n` iterations left. -/
def pool_release_loop (procs : Procs) (pool : Nat) : Nat → Int → Exec Unit
  | 0, _ => pure ()
  | n + 1, index => do
    let p ← Pool.deref pool
    if index < p.unused_memblocks.count then do
      let ref ← p.unused_memblocks.operator_index index
      let it : u8_ptr ← load_ref ref
      let _ ← p.block_allocator.call procs Allocator_Mode.ALLOCATOR_FREE 0 0 it.val
      pool_release_loop procs pool n (index + 1)
    else pure ()

/-- The procedure `pool_release(pool)`, pool.h lines 121-130. -/
def pool_release (procs : Procs) (pool : Nat) : Exec Unit := do
  pool_reset procs pool
  let p ← Pool.deref pool
  assert (decide (p.block_allocator.proc ≠ none)) "pool->block_allocator.proc != 0" "pool.h:124"
  pool_release_loop procs pool p.unused_memblocks.count.toNat 0
  Pool.modify pool fun q => { q with unused_memblocks := { q.unused_memblocks with count := 0 } }

/-- The procedure `pool_allocator_proc`, pool.h lines 144-174; `procs` is the code behind
the procedure pointers the pool itself calls through. -/
def pool_allocator_proc (procs : Procs) : Allocator_Proc :=
  fun mode size _old_size _old_memory allocator_data => do
    let pool := allocator_data
    assert (decide (pool ≠ null)) "pool != 0" "pool.h:149"
    match mode with
    | Allocator_Mode.ALLOCATOR_ALLOCATE => pool_get procs pool size
    | Allocator_Mode.ALLOCATOR_RESIZE => do
      assert false "false" "pool.h:157"
      pure null
    | Allocator_Mode.ALLOCATOR_FREE => do
      assert false "false" "pool.h:162"
      pure null
    | Allocator_Mode.ALLOCATOR_FREE_ALL => do
      pool_release procs pool
      pure null

/-- The code behind the procedure pointers of a program that links general.h and pool.h,
for calls that nest at most `depth` pools deep (a pool whose block or array allocator is a
pool, and so on); a deeper call is not described. -/
def linked_procs : Nat → Procs
  | _, Proc_Ptr.heap_allocator => heap_allocator
  | 0, Proc_Ptr.pool_allocator_proc => fun _ _ _ _ _ _ => Outcome.undefined
  | depth + 1, Proc_Ptr.pool_allocator_proc => pool_allocator_proc (linked_procs depth)

/-- The element `arr.data[i]` as the store has it, when it can be read. -/
def Array.get? {T : Type} [Layout T] (arr : Array T) (w : World) (i : Int) : Option T :=
  (load_elem arr.data i w).val?

/-- The array owns what its header says: `0 <= count <= allocated`, the storage is
non-null when `allocated > 0`, and `allocated` elements of storage are mapped. -/
def Array.storage_ok {T : Type} [Layout T] (arr : Array T) (w : World) : Prop :=
  0 ≤ arr.count ∧ arr.count ≤ arr.allocated ∧ (0 < arr.allocated → arr.data ≠ null) ∧
    w.mapped arr.data (arr.allocated * (Layout.size_of T : Int)).toNat

instance {T : Type} [Layout T] (arr : Array T) (w : World) : Decidable (arr.storage_ok w) := by
  unfold Array.storage_ok; exact inferInstance

/-- A state with nothing mapped, an empty heap that is never exhausted and the given
treatment of failed assertions. -/
def World.start (asserts : Assert_Mode) : World :=
  { mem := fun _ => none, heap_size := fun _ => none, heap_next := 0, heap_avail := none,
    asserts := asserts, output := [], requests := [], pools := fun _ => none }

/-- `N` calls of `array_add`, one for each item in turn. -/
def array_add_all {T : Type} [Layout T] (procs : Procs) (arr : Array T) : List T → Exec (Array T)
  | [] => pure arr
  | item :: rest => do
    let arr ← array_add procs arr item
    array_add_all procs arr rest

/-! ## The allocator interface as the operations of array.h rely on it -/

/-- The Resize guarantee of the allocator interface, for one call that started in `w`:
the call completes, the result is not null, `new_size` bytes are mapped there and the first
`min(old_size, new_size)` of them are the bytes the old block had. -/
def Resize_conforms (w : World) (old_memory : Nat) (old_size new_size : Int) :
    Outcome Nat → Prop
  | Outcome.ok p w1 =>
    p ≠ null ∧ w1.mapped p new_size.toNat ∧
      ∀ j, j < (min old_size new_size).toNat → w1.mem (p + j) = w.mem (old_memory + j)
  | _ => False

instance (w : World) (old_memory : Nat) (old_size new_size : Int) (o : Outcome Nat) :
    Decidable (Resize_conforms w old_memory old_size new_size o) := by
  cases o <;> unfold Resize_conforms <;> exact inferInstance

/-- The process heap is consistent: every live block lies at or below `heap_next`. -/
def World.heap_ok (w : World) : Prop :=
  ∀ b n, w.heap_size b = some n → b + n ≤ w.heap_next

/-- The old block handed to a Resize request of `heap_allocator` is either empty or a live
block of the process heap with `old_size` mapped bytes. -/
def World.heap_block (w : World) (old_memory : Nat) (old_size : Int) : Prop :=
  old_size = 0 ∨
    (0 < old_size ∧ old_memory ≠ null ∧ w.mapped old_memory old_size.toNat ∧
      ∃ n, w.heap_size old_memory = some n ∧ old_size.toNat ≤ n)

/-- The state `heap_allocator` leaves after a Resize that is served from a heap that is not
exhausted. -/
def World.heap_resized (w : World) (size old_size : Int) (old_memory : Nat) : World :=
  if old_memory ≠ null ∧ old_size > 0 then
    (((w.heap_add (w.heap_next + 1) size.toNat).write (w.heap_next + 1)
        ((w.heap_add (w.heap_next + 1) size.toNat).bytes old_memory old_size.toNat)).heap_remove
      old_memory ((w.heap_size old_memory).getD 0))
  else w.heap_add (w.heap_next + 1) size.toNat

/-- The sequence 0, 8, 16, 32, 64, ... of the specification: 0, then doubling from 8. -/
def spec_capacity_seq : Nat → Nat
  | 0 => 0
  | k + 1 => 8 * 2 ^ k

/-- A well-kept array whose storage is a live block of a consistent process heap that is
never exhausted, and whose allocator is `heap_allocator` (set, or still null). -/
def Array.heap_backed {T : Type} [Layout T] (arr : Array T) (w : World) : Prop :=
  arr.storage_ok w ∧ w.heap_ok ∧ w.heap_avail = none ∧
    (arr.allocator.proc = none ∨ arr.allocator.proc = some Proc_Ptr.heap_allocator) ∧
    (0 < arr.allocated → ∃ n, w.heap_size arr.data = some n ∧
      (arr.allocated * (Layout.size_of T : Int)).toNat ≤ n)

/-- The Allocate guarantee of the allocator interface, for one call that is served: the
call completes, the result is not null and `size` zero bytes are mapped there. -/
def Allocate_served (size : Int) : Outcome Nat → Prop
  | Outcome.ok p w1 => p ≠ null ∧ ∀ j, j < size.toNat → w1.mem (p + j) = some 0
  | _ => False

instance (size : Int) (o : Outcome Nat) : Decidable (Allocate_served size o) := by
  cases o <;> unfold Allocate_served <;> exact inferInstance

/-- A request for a fresh block of `size` bytes is served without disturbing the
`keep_size` bytes at `keep`: the call completes, the result is not null, `size` bytes are
mapped there, they do not overlap the kept bytes, and the kept bytes are as in `w`. -/
def Fresh_block_served (w : World) (size : Int) (keep keep_size : Nat) : Outcome Nat → Prop
  | Outcome.ok p w1 =>
    p ≠ null ∧ w1.mapped p size.toNat ∧
      (∀ j, j < keep_size → w1.mem (keep + j) = w.mem (keep + j)) ∧
      (p + size.toNat ≤ keep ∨ keep + keep_size ≤ p)
  | _ => False

instance (w : World) (size : Int) (keep keep_size : Nat) (o : Outcome Nat) :
    Decidable (Fresh_block_served w size keep keep_size o) := by
  cases o <;> unfold Fresh_block_served <;> exact inferInstance

/-- A Free request for `old_memory` through `a` is served: the call completes and the
only call recorded is the request itself. -/
def Free_served (w : World) (a : Allocator) (old_memory : Nat) : Outcome Nat → Prop
  | Outcome.ok _ w1 =>
    match a.proc with
    | some p =>
      w1.requests = w.requests ++ [⟨p, Allocator_Mode.ALLOCATOR_FREE, 0, 0, old_memory, a.data⟩]
    | none => False
  | _ => False

instance (w : World) (a : Allocator) (old_memory : Nat) (o : Outcome Nat) :
    Decidable (Free_served w a old_memory o) := by
  cases o <;> unfold Free_served
  · cases a.proc <;> exact inferInstance
  · exact inferInstance
  · exact inferInstance

/-- The two storage ranges do not overlap. -/
def Array.apart {T : Type} [Layout T] (dest src : Array T) : Prop :=
  dest.data + (dest.allocated * (Layout.size_of T : Int)).toNat ≤ src.data ∨
    src.data + (src.allocated * (Layout.size_of T : Int)).toNat ≤ dest.data

instance {T : Type} [Layout T] (dest src : Array T) : Decidable (dest.apart src) := by
  unfold Array.apart; exact inferInstance

/-! ## Example states -/

/-- A well-kept array of three bytes `10, 20, 30` in a block of eight. -/
def pop_example_world : World :=
  ((World.start Assert_Mode.terminate).heap_add 1 8).write 1 [10, 20, 30]

/-- The header of the array in `pop_example_world`. -/
def pop_example_array : Array u8 :=
  { allocated := 8, count := 3, data := 1 }

/-- A header over the same storage that counts it as full: three elements, room for three. -/
def full_example_array : Array u8 :=
  { allocated := 3, count := 3, data := 1 }

/-- The line `array_pop` writes to standard error when the array is empty. -/
def pop_panic_text : String := "Panic: Attempt to pop an empty array.\n"

/-- Two arrays: `A` of length 5 with values `1, 2, 3, 4, 5` at address 1, and an empty `B`
of capacity 2 at address 7. -/
def copy_example_world : World :=
  (((World.start Assert_Mode.terminate).heap_add 1 5).write 1 [1, 2, 3, 4, 5]).heap_add 7 2

/-- The header of `A` in `copy_example_world`. -/
def copy_example_A : Array u8 :=
  { allocated := 5, count := 5, data := 1 }

/-- The header of `B` in `copy_example_world`. -/
def copy_example_B : Array u8 :=
  { allocated := 2, count := 0, data := 7 }

/-! ## Predicates and example states for the invariants, the allocator and the pool -/

/-- The three conditions the specification calls the array invariant: `0 <= count <= allocated`
and storage that is not null whenever `allocated > 0`. -/
def Array.inv {T : Type} (arr : Array T) : Prop :=
  0 ≤ arr.count ∧ arr.count ≤ arr.allocated ∧ (0 < arr.allocated → arr.data ≠ null)

instance {T : Type} (arr : Array T) : Decidable arr.inv := by
  unfold Array.inv; exact inferInstance

/-- The allocator did not answer with null: the call gave storage, or did not return. -/
def Not_null_answer : Outcome Nat → Prop
  | Outcome.ok p _ => p ≠ null
  | _ => True

instance (o : Outcome Nat) : Decidable (Not_null_answer o) := by
  cases o <;> unfold Not_null_answer <;> exact inferInstance

/-- A state with a `Pool` object at address 1000 as `pool_init(pool, 64, 8)` leaves it, and
nothing else. -/
def pool_example_start (asserts : Assert_Mode) : World :=
  { World.start asserts with
    pools := fun a => if a = 1000 then some { memblock_size := 64, alignment := 8 } else none }

/-- The well-kept array of `pop_example_world`, in a build without `ENABLE_ASSERTS` and
with a process heap that cannot supply another byte. -/
def exhausted_example_world : World :=
  { pop_example_world with heap_avail := some 0, asserts := Assert_Mode.compiled_out }

/-- An empty array whose allocator is the pool at address 1000. -/
def pool_example_array : Array u8 :=
  { allocator := ⟨some Proc_Ptr.pool_allocator_proc, 1000⟩ }

/-- The run was ended by a failed assertion. -/
def Outcome.is_fatal {α : Type} : Outcome α → Bool
  | Outcome.fatal _ => true
  | _ => false

/-- The state with the `Pool` object at `pool` replaced by `p`. -/
def World.set_pool (w : World) (pool : Nat) (p : Pool) : World :=
  { w with pools := fun a => if a = pool then some p else w.pools a }

/-- Lines 105-106 of `pool_get`: `nbytes` plus
`(alignment - (nbytes % alignment)) % alignment`, with the `%` of C++. -/
def pool_rounded (alignment nbytes : Int) : Int :=
  nbytes + (alignment - nbytes.tmod alignment).tmod alignment

/-- The cycle of `pool_get` obtained a block: `pool_cycle_new_block` returned and left a
current block that is not null. -/
def Cycle_served (pool : Nat) : Outcome Unit → Prop
  | Outcome.ok _ w1 =>
    (w1.pools pool).map (fun q => decide (q.current_memblock ≠ null)) = some true
  | _ => False

instance (pool : Nat) (o : Outcome Unit) : Decidable (Cycle_served pool o) := by
  cases o <;> unfold Cycle_served <;> exact inferInstance

/-- One call on a pool: `pool_get(pool, nbytes)`, `pool_reset(pool)` or `pool_release(pool)`. -/
inductive Pool_Call where
  | get (nbytes : Int)
  | reset
  | release
  deriving DecidableEq, Repr

/-- The call `c` on the pool at `pool`; the reference a `pool_get` returns is dropped. -/
def pool_call (procs : Procs) (pool : Nat) : Pool_Call → Exec Unit
  | Pool_Call.get nbytes => do
    let _ ← pool_get procs pool nbytes
    pure ()
  | Pool_Call.reset => pool_reset procs pool
  | Pool_Call.release => pool_release procs pool

/-- A sequence of calls on the pool at `pool`, one after the other. -/
def pool_calls (procs : Procs) (pool : Nat) : List Pool_Call → Exec Unit
  | [] => pure ()
  | c :: rest => do
    pool_call procs pool c
    pool_calls procs pool rest

/-- The invariant the specification gives for the current block:
`bytes_left == memblock_size - (current_pos - current_memblock)` whenever there is one. -/
def Pool.block_inv (p : Pool) : Prop :=
  p.current_memblock ≠ null →
    p.bytes_left = p.memblock_size - ((p.current_pos : Int) - (p.current_memblock : Int))

instance (p : Pool) : Decidable p.block_inv := by
  unfold Pool.block_inv; exact inferInstance

/-- The pool takes its blocks from `heap_allocator`, and so does `unused_memblocks` for its
storage (its procedure pointer set, or still null). -/
def Pool.on_heap (p : Pool) : Prop :=
  p.block_allocator.proc = some Proc_Ptr.heap_allocator ∧
    (p.unused_memblocks.allocator.proc = none ∨
      p.unused_memblocks.allocator.proc = some Proc_Ptr.heap_allocator)

instance (p : Pool) : Decidable p.on_heap := by
  unfold Pool.on_heap; exact inferInstance

/-- The pool at `pool` exists, is fed by `heap_allocator` and satisfies the invariant of the
current block. -/
def World.pool_inv (w : World) (pool : Nat) : Prop :=
  ∃ p, w.pools pool = some p ∧ p.on_heap ∧ p.block_inv

/-- The state a run ends in; for undefined behaviour, a state with nothing in it. -/
def Outcome.world {α : Type} : Outcome α → World
  | Outcome.ok _ w => w
  | Outcome.fatal w => w
  | Outcome.undefined => World.start Assert_Mode.terminate

/-- The state after `pool_get(pool, 10)` on the pool of `pool_example_start`: a first block
of 64 bytes at address 1, of which 16 are consumed. -/
def pool_example_second : World :=
  (pool_get (linked_procs 1) 1000 10 (pool_example_start Assert_Mode.terminate)).world

/-- The `Pool` object in `pool_example_second`. -/
def pool_example_pool : Pool :=
  { memblock_size := 64, alignment := 8, current_memblock := 1, current_pos := 17, bytes_left := 48 }

/-- The elements of the array, index 0 to `count - 1`, as the store has them. -/
def Array.elems {T : Type} [Layout T] (arr : Array T) (w : World) : List (Option T) :=
  (List.range arr.count.toNat).map fun (i : Nat) => arr.get? w (i : Int)

/-- The address `a` is outside the live block of the process heap that starts at `base`,
if there is one. -/
def World.off_block (w : World) (base a : Nat) : Prop :=
  ∀ n, w.heap_size base = some n → a < base ∨ base + n ≤ a

/-- The heap-backed array `arr` in `w` is what appends have made of the heap-backed array
`arr0` in `w0`: the only requests made since are Resize requests, and below the old top of
the heap everything but the old storage block of the array is as it was. -/
def Array.grown_from {T : Type} [Layout T] (arr0 : Array T) (w0 : World) (arr : Array T)
    (w : World) : Prop :=
  arr.heap_backed w ∧ w.asserts = w0.asserts ∧ w0.heap_next ≤ w.heap_next ∧
  (∃ rs, w.requests = w0.requests ++ rs ∧
    ∀ r ∈ rs, r.mode = Allocator_Mode.ALLOCATOR_RESIZE) ∧
  (∀ a, a ≤ w0.heap_next → w0.off_block arr0.data a → w.mem a = w0.mem a) ∧
  (∀ b, b ≤ w0.heap_next → b ≠ arr0.data → w.heap_size b = w0.heap_size b) ∧
  ((arr.data = arr0.data ∧ w.heap_size arr.data = w0.heap_size arr0.data) ∨
    w0.heap_next < arr.data)

/-- The arrays of the pool are in order for a `pool_reset` on the process heap:
`unused_memblocks` is heap-backed, `used_memblocks` is well kept, and the elements of
`used_memblocks` lie below the top of the heap and outside the storage block of
`unused_memblocks`. -/
def Pool.heap_kept (p : Pool) (w : World) : Prop :=
  p.unused_memblocks.heap_backed w ∧ p.used_memblocks.storage_ok w ∧
  (0 < p.used_memblocks.count →
    p.used_memblocks.data +
        (p.used_memblocks.count * (Layout.size_of u8_ptr : Int)).toNat ≤ w.heap_next + 1 ∧
    ∀ n, w.heap_size p.unused_memblocks.data = some n →
      p.used_memblocks.data +
          (p.used_memblocks.count * (Layout.size_of u8_ptr : Int)).toNat ≤
        p.unused_memblocks.data ∨
      p.unused_memblocks.data + n ≤ p.used_memblocks.data)

/-- The blocks the pool holds, in the order in which `pool_reset` collects them: the
elements of `unused_memblocks`, the current block if there is one, the elements of
`used_memblocks`. -/
def Pool.blocks (p : Pool) (w : World) : List (Option u8_ptr) :=
  p.unused_memblocks.elems w ++
    (if p.current_memblock = null then [] else [some (Fin.ofNat p.current_memblock)]) ++
    p.used_memblocks.elems w

/-- The blocks the pool holds are the pointers `L`: pairwise distinct live blocks of the
process heap, none of them the storage block of `unused_memblocks` or overlapping it. -/
def Pool.blocks_live (p : Pool) (w : World) (L : List u8_ptr) : Prop :=
  p.blocks w = L.map some ∧ (L.map Fin.val).Nodup ∧
  ∀ y ∈ L, ∃ n, w.heap_size y.val = some n ∧ y.val ≠ p.unused_memblocks.data ∧
    ∀ n0, w.heap_size p.unused_memblocks.data = some n0 →
      y.val + n ≤ p.unused_memblocks.data ∨ p.unused_memblocks.data + n0 ≤ y.val

/-- The run completed normally, and its result and final state pass the test `P`. -/
def Outcome.check {α : Type} (o : Outcome α) (P : α → World → Bool) : Bool :=
  match o with
  | Outcome.ok a w => P a w
  | _ => false

/-- A pool that holds three blocks of 64 bytes: the current block at 1, fully consumed, the
block at 131 in `unused_memblocks` (storage at 66, room for eight) and the block at 205 in
`used_memblocks` (storage at 196, room for one). -/
def recycle_example_pool : Pool :=
  { memblock_size := 64, alignment := 8, current_memblock := 1, current_pos := 65,
    bytes_left := 0,
    used_memblocks := { allocated := 1, count := 1, data := 196 },
    unused_memblocks := { allocated := 8, count := 1, data := 66 } }

/-- The state with `recycle_example_pool` at address 1000 and its five heap blocks. -/
def recycle_example_world : World :=
  (((((((World.start Assert_Mode.terminate).heap_add 1 64).heap_add 66 64).heap_add 131 64).heap_add
    196 8).heap_add 205 64).write 66 (Layout.encode (131 : u8_ptr))).write 196
      (Layout.encode (205 : u8_ptr)) |>.set_pool 1000 recycle_example_pool

/-! ## Example states and runs for the allocators -/

/-- The state of `pop_example_world` with a process heap that cannot supply another byte;
a failed assertion ends the process. -/
def starved_example_world : World :=
  { pop_example_world with heap_avail := some 0 }

/-- The state of `pool_example_start` with a process heap that cannot supply another byte;
a failed assertion ends the process. -/
def starved_pool_world : World :=
  { pool_example_start Assert_Mode.terminate with heap_avail := some 0 }

/-- The state of `pop_example_world` with a process heap that cannot supply another byte,
where the message box of a failed assertion is answered Ignore. -/
def ignored_example_world : World :=
  { pop_example_world with heap_avail := some 0, asserts := Assert_Mode.dismiss }

/-- A client of the pool: `pool_init(pool, 64, 8)`, `p = pool_get(pool, 10)`, the client
writes the byte 7 to `p[0]`, `pool_reset(pool)`, then an Allocate request of 50 bytes through
`pool_allocator_proc`, whose result is the result of the run. -/
def recycled_example_run : Exec Nat := do
  pool_init 1000 64 8
  let p ← pool_get (linked_procs 1) 1000 10
  store p [7]
  pool_reset (linked_procs 1) 1000
  pool_allocator_proc (linked_procs 1) Allocator_Mode.ALLOCATOR_ALLOCATE 50 0 null 1000

/-- The calls `pool_init(pool, 64, 8)`, `pool_get(pool, 10)`, `pool_reset(pool)` and again
`pool_get(pool, 10)`, whose result is the result of the run. -/
def stale_reset_run : Exec Nat := do
  pool_init 1000 64 8
  let _ ← pool_get (linked_procs 1) 1000 10
  pool_reset (linked_procs 1) 1000
  pool_get (linked_procs 1) 1000 10

/-- The calls `pool_init(pool, 64, 8)`, `pool_get(pool, 10)`, `pool_release(pool)` and again
`pool_get(pool, 10)`, whose result is the result of the run. -/
def stale_release_run : Exec Nat := do
  pool_init 1000 64 8
  let _ ← pool_get (linked_procs 1) 1000 10
  pool_release (linked_procs 1) 1000
  pool_get (linked_procs 1) 1000 10

/-! ## The calls of array.h on one array -/

/-- One call of array.h on an array it is handed by pointer and may write the header of.
(`array_find` and `operator[]` only read the header.) -/
inductive Array_Call (T : Type) where
  | reserve (reserve : Int)
  | add (item : T)
  | add_slot
  | resize (size : Int)
  | reset
  | free
  | pop (value_return : T)
  | copy_from (src : Array T)

/-- The call `c` on the array with header `arr`; the result is the header afterwards. -/
def array_call {T : Type} [Layout T] (procs : Procs) (arr : Array T) :
    Array_Call T → Exec (Array T)
  | Array_Call.reserve r => array_reserve procs arr r
  | Array_Call.add item => array_add procs arr item
  | Array_Call.add_slot => do
    let r ← array_add_slot procs arr
    pure r.2
  | Array_Call.resize size => array_resize procs arr size
  | Array_Call.reset => pure (array_reset arr)
  | Array_Call.free => array_free procs arr
  | Array_Call.pop value_return => do
    let r ← array_pop arr value_return
    pure r.2.2
  | Array_Call.copy_from src => array_copy procs arr src

/-- The headers of the arrays a client of array.h has: an array is constructed empty
(`allocated = 0`, `count = 0`, null storage) with whatever allocator it is given, the
unset one included, or it is the result of `array_new`; from then on its header is what
the calls of array.h make of it, each in whatever state the program is in by then, and
what `set_allocators` of pool.h makes of it, which stores an allocator after the fallback
to the heap (pool.h lines 91-99).  The assignments `count = 0` of pool.h, lines 129 and
141, are what `array_reset` does. -/
inductive Array.made {T : Type} [Layout T] (procs : Procs) : Array T → Prop where
  | constructed (a : Allocator) : Array.made procs { allocator := a }
  | new (n : Int) (a : Allocator) (w w1 : World) (arr : Array T) :
    array_new T procs n a w = Outcome.ok arr w1 → Array.made procs arr
  | set_allocator (arr : Array T) (a : Allocator) :
    Array.made procs arr → Array.made procs { arr with allocator := a.or_heap }
  | call (arr arr1 : Array T) (c : Array_Call T) (w w1 : World) :
    Array.made procs arr → array_call procs arr c w = Outcome.ok arr1 w1 →
      Array.made procs arr1

/-! ## Running code: basic facts -/

theorem Exec.pure_apply {α : Type} (a : α) (w : World) : (pure a : Exec α) w = Outcome.ok a w := rfl

theorem Exec.bind_apply {α β : Type} (m : Exec α) (f : α → Exec β) (w : World) :
    (m >>= f) w = Exec.bind m f w := rfl

theorem Exec.bind_ok {α β : Type} (m : Exec α) (f : α → Exec β) (w w1 : World) (a : α)
    (h : m w = Outcome.ok a w1) : (m >>= f) w = f a w1 := by
  simp only [Exec.bind_apply, Exec.bind, h]

/-- The address of element `i` of the storage at `data`, for `0 <= i`. -/
theorem elem_ptr_nonneg (T : Type) [Layout T] (data : Nat) (i : Int) (hi : 0 ≤ i) :
    elem_ptr T data i = some (data + i.toNat * Layout.size_of T) := by
  unfold elem_ptr
  have h : (data : Int) + i * (Layout.size_of T : Int) = ((data + i.toNat * Layout.size_of T : Nat) : Int) := by
    push_cast
    rw [Int.toNat_of_nonneg hi]
  rw [h, if_pos (Int.natCast_nonneg _), Int.toNat_natCast]

theorem load_elem_eq {T : Type} [Layout T] (data : Nat) (i : Int) (w : World)
    (hd : data ≠ null) (hi : 0 ≤ i) :
    (load_elem data i : Exec T) w =
      if w.mapped (data + i.toNat * Layout.size_of T) (Layout.size_of T)
      then Outcome.ok (Layout.decode (w.bytes (data + i.toNat * Layout.size_of T) (Layout.size_of T))) w
      else Outcome.undefined := by
  unfold load_elem
  rw [if_neg hd, elem_ptr_nonneg T data i hi]
  simp only [Exec.bind_apply, Exec.bind, load]
  by_cases hm : w.mapped (data + i.toNat * Layout.size_of T) (Layout.size_of T)
  · simp only [if_pos hm, Exec.pure_apply]
  · simp only [if_neg hm]

theorem store_elem_eq {T : Type} [Layout T] (data : Nat) (i : Int) (item : T) (w : World)
    (hd : data ≠ null) (hi : 0 ≤ i) :
    store_elem data i item w =
      if w.mapped (data + i.toNat * Layout.size_of T) (Layout.size_of T)
      then Outcome.ok () (w.write (data + i.toNat * Layout.size_of T) (Layout.encode item))
      else Outcome.undefined := by
  unfold store_elem
  rw [if_neg hd, elem_ptr_nonneg T data i hi]
  simp only [store, Layout.encode_length]

theorem get?_eq {T : Type} [Layout T] (arr : Array T) (w : World) (i : Int)
    (hd : arr.data ≠ null) (hi : 0 ≤ i) :
    arr.get? w i =
      if w.mapped (arr.data + i.toNat * Layout.size_of T) (Layout.size_of T)
      then some (Layout.decode (w.bytes (arr.data + i.toNat * Layout.size_of T) (Layout.size_of T)))
      else none := by
  unfold Array.get?
  rw [load_elem_eq arr.data i w hd hi]
  split <;> rfl

theorem load_elem_cases {T : Type} [Layout T] (arr : Array T) (w : World) (i : Int) :
    (load_elem arr.data i : Exec T) w =
      match arr.get? w i with
      | some x => Outcome.ok x w
      | none => Outcome.undefined := by
  unfold Array.get? load_elem
  by_cases hd : arr.data = null
  · simp only [if_pos hd, Outcome.val?]
  · rw [if_neg hd]
    cases elem_ptr T arr.data i with
    | none => simp only [Outcome.val?]
    | some p =>
      simp only [Exec.bind_apply, Exec.bind, load]
      by_cases hm : w.mapped p (Layout.size_of T)
      · simp only [if_pos hm, Exec.pure_apply, Outcome.val?]
      · simp only [if_neg hm, Outcome.val?]

theorem load_elem_of_get? {T : Type} [Layout T] (arr : Array T) (w : World) (i : Int) (x : T)
    (h : arr.get? w i = some x) : (load_elem arr.data i : Exec T) w = Outcome.ok x w := by
  rw [load_elem_cases, h]

/-! ## Bytes and elements -/

theorem mapped_mono (w : World) (p q : Nat) (n m : Nat) (h : w.mapped p n)
    (hq : p ≤ q) (hqm : q + m ≤ p + n) : w.mapped q m := by
  intro i hi
  have := h (q - p + i) (by omega)
  rwa [show p + (q - p + i) = q + i by omega] at this

theorem bytes_congr (w w1 : World) (p q : Nat) (n : Nat)
    (h : ∀ k, k < n → w1.mem (q + k) = w.mem (p + k)) : w1.bytes q n = w.bytes p n := by
  unfold World.bytes
  apply List.map_congr_left
  intro k hk
  rw [h k (List.mem_range.mp hk)]

theorem mapped_congr (w w1 : World) (p q : Nat) (n : Nat)
    (h : ∀ k, k < n → w1.mem (q + k) = w.mem (p + k)) (hm : w.mapped p n) : w1.mapped q n := by
  intro k hk
  rw [h k hk]
  exact hm k hk

theorem write_mem_inside (w : World) (p : Nat) (bs : List u8) (k : Nat) (hk : k < bs.length) :
    (w.write p bs).mem (p + k) = some (bs.getD k 0) := by
  simp only [World.write]
  rw [if_pos ⟨by omega, by omega⟩]
  simp

theorem write_mem_outside (w : World) (p : Nat) (bs : List u8) (a : Nat)
    (ha : a < p ∨ p + bs.length ≤ a) : (w.write p bs).mem a = w.mem a := by
  simp only [World.write]
  rw [if_neg (by omega)]

theorem write_bytes_same (w : World) (p : Nat) (bs : List u8) :
    (w.write p bs).bytes p bs.length = bs := by
  apply List.ext_getElem
  · simp [World.bytes]
  · intro k h1 h2
    simp only [World.bytes, List.getElem_map, List.getElem_range]
    rw [write_mem_inside w p bs k h2]
    simp [List.getElem?_eq_getElem h2]

theorem write_mapped_same (w : World) (p : Nat) (bs : List u8) :
    (w.write p bs).mapped p bs.length := by
  intro k hk
  rw [write_mem_inside w p bs k hk]
  rfl

/-- In a well-kept array every slot below `allocated` is mapped. -/
theorem storage_ok_mapped {T : Type} [Layout T] (arr : Array T) (w : World)
    (h : arr.storage_ok w) (i : Int) (hi : 0 ≤ i) (hlt : i < arr.allocated) :
    w.mapped (arr.data + i.toNat * Layout.size_of T) (Layout.size_of T) := by
  obtain ⟨_, _, _, hm⟩ := h
  apply mapped_mono w arr.data _ _ _ hm (by omega)
  have h1 : (arr.allocated * (Layout.size_of T : Int)).toNat = arr.allocated.toNat * Layout.size_of T := by
    have : arr.allocated = (arr.allocated.toNat : Int) := (Int.toNat_of_nonneg (by omega)).symm
    rw [this]
    norm_cast
  rw [h1]
  have h2 : i.toNat + 1 ≤ arr.allocated.toNat := by omega
  calc arr.data + i.toNat * Layout.size_of T + Layout.size_of T
      = arr.data + (i.toNat + 1) * Layout.size_of T := by ring
    _ ≤ arr.data + arr.allocated.toNat * Layout.size_of T :=
        Nat.add_le_add_left (Nat.mul_le_mul_right _ h2) _

theorem storage_ok_get? {T : Type} [Layout T] (arr : Array T) (w : World)
    (h : arr.storage_ok w) (i : Int) (hi : 0 ≤ i) (hlt : i < arr.allocated) :
    arr.get? w i =
      some (Layout.decode (w.bytes (arr.data + i.toNat * Layout.size_of T) (Layout.size_of T))) := by
  have hd : arr.data ≠ null := h.2.2.1 (by omega)
  rw [get?_eq arr w i hd hi, if_pos (storage_ok_mapped arr w h i hi hlt)]

/-! ## array_reset -/

/-- C9: `array_reset` sets `count` to 0 and leaves `allocated`, the storage reference and
the allocator as they were; a second `array_reset` changes nothing more. -/
theorem array_reset_spec {T : Type} (arr : Array T) :
    (array_reset arr).count = 0 ∧
    (array_reset arr).allocated = arr.allocated ∧
    (array_reset arr).data = arr.data ∧
    (array_reset arr).allocator = arr.allocator ∧
    array_reset (array_reset arr) = array_reset arr :=
  ⟨rfl, rfl, rfl, rfl, rfl⟩

/-! ## array_pop -/

/-- C3: on a well-kept array with `count > 0`, `array_pop` returns `true`, hands back in
`*value_return` the element that was at index `count - 1`, lowers `count` by exactly one and
changes neither `allocated`, nor the storage reference, nor the store (so every element
below the new `count` is as before). -/
theorem array_pop_spec {T : Type} [Layout T] (arr : Array T) (value_return : T) (w : World)
    (hok : arr.storage_ok w) (hcount : 0 < arr.count) :
    ∃ x arr1, array_pop arr value_return w = Outcome.ok (true, x, arr1) w ∧
      arr.get? w (arr.count - 1) = some x ∧
      arr1.count = arr.count - 1 ∧ arr1.allocated = arr.allocated ∧ arr1.data = arr.data ∧
      arr1.allocator = arr.allocator ∧
      ∀ i, arr1.get? w i = arr.get? w i := by
  have hget := storage_ok_get? arr w hok (arr.count - 1) (by omega) (by have := hok.2.1; omega)
  refine ⟨_, { arr with count := arr.count - 1 }, ?_, hget, rfl, rfl, rfl, rfl, fun i => rfl⟩
  unfold array_pop
  rw [if_neg (by omega)]
  rw [Exec.bind_ok _ _ w w _ (load_elem_of_get? arr w _ _ hget)]
  rfl

theorem array_pop_spec_witness :
    pop_example_array.storage_ok pop_example_world ∧ 0 < pop_example_array.count ∧
    ∃ x arr1, array_pop pop_example_array 0 pop_example_world =
        Outcome.ok (true, x, arr1) pop_example_world ∧
      pop_example_array.get? pop_example_world (pop_example_array.count - 1) = some x ∧
      arr1.count = pop_example_array.count - 1 ∧ arr1.allocated = pop_example_array.allocated ∧
      arr1.data = pop_example_array.data ∧ arr1.allocator = pop_example_array.allocator ∧
      ∀ i, arr1.get? pop_example_world i = pop_example_array.get? pop_example_world i :=
  ⟨by decide, by decide,
    array_pop_spec pop_example_array 0 pop_example_world (by decide) (by decide)⟩

/-- C4, as the code has it: on an array with `count == 0`, `array_pop` always writes its
diagnostic to standard error first.  Where the failed `assert(0)` ends the process (message
box answered Abort or Retry) it ends there.  Where the failure is dismissed (Ignore), it
returns `false` after the diagnostic of the assertion and leaves the array and
`*value_return` as they were; so it does where `assert` expands to nothing.  It never
returns `true` and never leaves without the diagnostic. -/
theorem array_pop_empty {T : Type} [Layout T] (arr : Array T) (value_return : T) (w : World)
    (hcount : arr.count = 0) :
    (w.asserts = Assert_Mode.terminate →
      array_pop arr value_return w =
        Outcome.fatal ((w.put pop_panic_text true).put (assert_text "0" "array.h:179") false)) ∧
    (w.asserts = Assert_Mode.compiled_out →
      array_pop arr value_return w =
        Outcome.ok (false, value_return, arr) (w.put pop_panic_text true)) ∧
    (w.asserts = Assert_Mode.dismiss →
      array_pop arr value_return w =
        Outcome.ok (false, value_return, arr)
          ((w.put pop_panic_text true).put (assert_text "0" "array.h:179") false)) := by
  unfold array_pop
  rw [if_pos hcount]
  refine ⟨fun h => ?_, fun h => ?_, fun h => ?_⟩ <;>
    simp [Exec.bind_apply, Exec.bind, write_string, assert, World.put, h, Exec.pure_apply,
      pop_panic_text]

theorem array_pop_empty_witness :
    (({} : Array u8)).count = 0 ∧
    array_pop ({} : Array u8) 7 (World.start Assert_Mode.terminate) =
      Outcome.fatal (((World.start Assert_Mode.terminate).put pop_panic_text true).put
        (assert_text "0" "array.h:179") false) :=
  ⟨rfl, (array_pop_empty ({} : Array u8) 7 (World.start Assert_Mode.terminate) rfl).1 rfl⟩

/-- C4 as stated fails: when the message box of the failed `assert(0)` is answered Ignore,
`array_pop` on an empty array completes normally, after its two diagnostics, and returns
the sentinel `false` of line 180. -/
theorem array_pop_empty_returns_false :
    (array_pop ({} : Array u8) 7 (World.start Assert_Mode.dismiss)).val? =
      some (false, 7, ({} : Array u8)) ∧
    (array_pop ({} : Array u8) 7 (World.start Assert_Mode.dismiss)).is_fatal = false ∧
    (array_pop ({} : Array u8) 7 (World.start Assert_Mode.dismiss)).world.output =
      [(pop_panic_text, true), (assert_text "0" "array.h:179", false)] := by
  decide

/-! ## array_find -/

theorem array_find_loop_spec {T : Type} [Layout T] [DecidableEq T] (arr : Array T) (v : T)
    (w : World) (n : Nat) : ∀ (k : Int),
    (∀ i, k ≤ i → i < k + n → ∃ x, arr.get? w i = some x) →
    ∃ r, array_find_loop arr v n k w = Outcome.ok r w ∧
      ((r = -1 ∧ ∀ i, k ≤ i → i < k + n → arr.get? w i ≠ some v) ∨
       (k ≤ r ∧ r < k + n ∧ arr.get? w r = some v ∧ ∀ i, k ≤ i → i < r → arr.get? w i ≠ some v)) := by
  induction n with
  | zero =>
    intro k _
    exact ⟨-1, rfl, Or.inl ⟨rfl, fun i h1 h2 => by omega⟩⟩
  | succ n ih =>
    intro k hread
    obtain ⟨x, hx⟩ := hread k (le_refl k) (by omega)
    unfold array_find_loop
    rw [Exec.bind_ok _ _ w w x (load_elem_of_get? arr w k x hx)]
    by_cases hxv : x = v
    · rw [if_pos hxv]
      exact ⟨k, rfl, Or.inr ⟨le_refl k, by omega, by rw [hx, hxv], fun i h1 h2 => by omega⟩⟩
    · rw [if_neg hxv]
      obtain ⟨r, hr, hcase⟩ := ih (k + 1) (fun i h1 h2 => hread i (by omega) (by push_cast; omega))
      refine ⟨r, hr, ?_⟩
      have hk : arr.get? w k ≠ some v := by
        rw [hx]; intro h; exact hxv (Option.some.inj h)
      rcases hcase with ⟨h1, h2⟩ | ⟨h1, h2, h3, h4⟩
      · left
        refine ⟨h1, fun i hi1 hi2 => ?_⟩
        by_cases hik : i = k
        · rw [hik]; exact hk
        · exact h2 i (by omega) (by push_cast at hi2; omega)
      · right
        refine ⟨by omega, by push_cast; omega, h3, fun i hi1 hi2 => ?_⟩
        by_cases hik : i = k
        · rw [hik]; exact hk
        · exact h4 i (by omega) hi2

/-- C7: on a well-kept array, `array_find` completes without changing anything and returns
the smallest index in `[0, count)` whose element equals `v`, or -1 exactly when no element at
an index in `[0, count)` equals `v`.  Only the elements at indices in `[0, count)` matter: in
any other state that agrees on them the result is the same. -/
theorem array_find_spec {T : Type} [Layout T] [DecidableEq T] (arr : Array T) (v : T)
    (w : World) (hok : arr.storage_ok w) :
    ∃ r, array_find arr v w = Outcome.ok r w ∧
      ((r = -1 ∧ ∀ i, 0 ≤ i → i < arr.count → arr.get? w i ≠ some v) ∨
       (0 ≤ r ∧ r < arr.count ∧ arr.get? w r = some v ∧
         ∀ i, 0 ≤ i → i < r → arr.get? w i ≠ some v)) ∧
      ∀ w2 : World, (∀ i, 0 ≤ i → i < arr.count → arr.get? w2 i = arr.get? w i) →
        array_find arr v w2 = Outcome.ok r w2 := by
  have hc : ((arr.count.toNat : Nat) : Int) = arr.count := Int.toNat_of_nonneg hok.1
  have hread : ∀ i, (0 : Int) ≤ i → i < 0 + (arr.count.toNat : Nat) → ∃ x, arr.get? w i = some x :=
    fun i h1 h2 => ⟨_, storage_ok_get? arr w hok i h1 (by have := hok.2.1; omega)⟩
  obtain ⟨r, hr, hcase⟩ := array_find_loop_spec arr v w arr.count.toNat 0 hread
  refine ⟨r, hr, ?_, ?_⟩
  · rcases hcase with ⟨h1, h2⟩ | ⟨h1, h2, h3, h4⟩
    · exact Or.inl ⟨h1, fun i hi1 hi2 => h2 i hi1 (by omega)⟩
    · exact Or.inr ⟨h1, by omega, h3, h4⟩
  · intro w2 hagree
    have hread2 : ∀ i, (0 : Int) ≤ i → i < 0 + (arr.count.toNat : Nat) →
        ∃ x, arr.get? w2 i = some x := fun i h1 h2 => by
      obtain ⟨x, hx⟩ := hread i h1 h2
      exact ⟨x, by rw [hagree i h1 (by omega), hx]⟩
    obtain ⟨r2, hr2, hcase2⟩ := array_find_loop_spec arr v w2 arr.count.toNat 0 hread2
    have : r2 = r := by
      rcases hcase with ⟨h1, h2⟩ | ⟨h1, h2, h3, h4⟩ <;>
        rcases hcase2 with ⟨g1, g2⟩ | ⟨g1, g2, g3, g4⟩
      · omega
      · exact absurd (by rw [← hagree r2 g1 (by omega)]; exact g3) (h2 r2 g1 g2)
      · exact absurd (by rw [hagree r h1 (by omega)]; exact h3) (g2 r h1 h2)
      · by_contra hne
        rcases lt_or_gt_of_ne hne with hlt | hgt
        · exact h4 r2 g1 hlt (by rw [← hagree r2 g1 (by omega)]; exact g3)
        · exact g4 r h1 hgt (by rw [hagree r h1 (by omega)]; exact h3)
    rw [← this]
    exact hr2

theorem array_find_spec_witness :
    pop_example_array.storage_ok pop_example_world ∧
    ∃ r, array_find pop_example_array 20 pop_example_world = Outcome.ok r pop_example_world ∧
      ((r = -1 ∧ ∀ i, 0 ≤ i → i < pop_example_array.count →
          pop_example_array.get? pop_example_world i ≠ some 20) ∨
       (0 ≤ r ∧ r < pop_example_array.count ∧
         pop_example_array.get? pop_example_world r = some 20 ∧
         ∀ i, 0 ≤ i → i < r → pop_example_array.get? pop_example_world i ≠ some 20)) ∧
      ∀ w2 : World, (∀ i, 0 ≤ i → i < pop_example_array.count →
          pop_example_array.get? w2 i = pop_example_array.get? pop_example_world i) →
        array_find pop_example_array 20 w2 = Outcome.ok r w2 :=
  ⟨by decide, array_find_spec pop_example_array 20 pop_example_world (by decide)⟩

/-! ## array_reserve and array_add -/

theorem assert_true (expression site : String) (w : World) :
    assert true expression site w = Outcome.ok () w := by
  unfold assert
  cases w.asserts <;> rfl

theorem assert_false_eq (expression site : String) (w : World) :
    assert false expression site w =
      match w.asserts with
      | Assert_Mode.compiled_out => Outcome.ok () w
      | Assert_Mode.terminate => Outcome.fatal (w.put (assert_text expression site) false)
      | Assert_Mode.dismiss => Outcome.ok () (w.put (assert_text expression site) false) := by
  unfold assert
  cases w.asserts <;> rfl

theorem Resize_conforms_ok (w : World) (old_memory : Nat) (old_size new_size : Int)
    (o : Outcome Nat) (h : Resize_conforms w old_memory old_size new_size o) :
    ∃ p w1, o = Outcome.ok p w1 ∧ p ≠ null ∧ w1.mapped p new_size.toNat ∧
      ∀ j, j < (min old_size new_size).toNat → w1.mem (p + j) = w.mem (old_memory + j) := by
  cases o with
  | ok p w1 => exact ⟨p, w1, rfl, h⟩
  | fatal w1 => exact absurd h (by simp [Resize_conforms])
  | undefined => exact absurd h (by simp [Resize_conforms])

/-- What `array_reserve` does when it has to grow and the allocator answers with `p`. -/
theorem array_reserve_grow {T : Type} [Layout T] (procs : Procs) (arr : Array T) (r : Int)
    (w w1 : World) (p : Nat) (hlt : arr.allocated < r) (hp : p ≠ null)
    (hcall : arr.allocator.or_heap.call procs Allocator_Mode.ALLOCATOR_RESIZE
      (r * (Layout.size_of T : Int)) (arr.count * (Layout.size_of T : Int)) arr.data w =
        Outcome.ok p w1) :
    array_reserve procs arr r w =
      Outcome.ok { arr with allocator := arr.allocator.or_heap, data := p, allocated := r } w1 := by
  unfold array_reserve
  rw [if_neg (by omega)]
  simp only []
  rw [Exec.bind_ok _ _ w w1 p hcall]
  have hd : decide (p ≠ null) = true := by simpa using hp
  rw [hd, Exec.bind_ok _ _ w1 w1 () (assert_true _ _ w1), if_neg hp]
  rfl

theorem toNat_mul_size (i : Int) (n : Nat) (hi : 0 ≤ i) : (i * (n : Int)).toNat = i.toNat * n := by
  have : i = (i.toNat : Int) := (Int.toNat_of_nonneg hi).symm
  rw [this]
  norm_cast

/-- Elements below `count` read the same from a block whose leading bytes were carried over. -/
theorem get?_carried {T : Type} [Layout T] (arr arr1 : Array T) (w w1 : World) (n : Nat)
    (hok : arr.storage_ok w) (hd1 : arr1.data ≠ null)
    (hm : w1.mapped arr1.data n) (hn : arr.count.toNat * Layout.size_of T ≤ n)
    (hcarry : ∀ j, j < arr.count.toNat * Layout.size_of T →
      w1.mem (arr1.data + j) = w.mem (arr.data + j))
    (i : Int) (hi : 0 ≤ i) (hlt : i < arr.count) :
    arr1.get? w1 i = arr.get? w i := by
  have hbound : i.toNat * Layout.size_of T + Layout.size_of T ≤ arr.count.toNat * Layout.size_of T := by
    have h2 : i.toNat + 1 ≤ arr.count.toNat := by omega
    calc i.toNat * Layout.size_of T + Layout.size_of T = (i.toNat + 1) * Layout.size_of T := by ring
      _ ≤ arr.count.toNat * Layout.size_of T := Nat.mul_le_mul_right _ h2
  rw [storage_ok_get? arr w hok i hi (by have := hok.2.1; omega), get?_eq arr1 w1 i hd1 hi]
  rw [if_pos (mapped_mono w1 arr1.data _ n _ hm (by omega) (by omega))]
  congr 2
  apply bytes_congr
  intro k hk
  rw [Nat.add_assoc, Nat.add_assoc]
  exact hcarry _ (by omega)

/-- The growth case of `array_reserve`, for an allocator that serves the Resize request. -/
theorem array_reserve_grows {T : Type} [Layout T] (procs : Procs) (arr : Array T) (r : Int)
    (w : World) (hok : arr.storage_ok w) (hlt : arr.allocated < r)
    (halloc : Resize_conforms w arr.data (arr.count * (Layout.size_of T : Int))
        (r * (Layout.size_of T : Int))
        (arr.allocator.or_heap.call procs Allocator_Mode.ALLOCATOR_RESIZE
          (r * (Layout.size_of T : Int)) (arr.count * (Layout.size_of T : Int)) arr.data w)) :
    ∃ arr1 w1, array_reserve procs arr r w = Outcome.ok arr1 w1 ∧
      arr1.count = arr.count ∧ arr1.allocated = r ∧ arr1.allocator = arr.allocator.or_heap ∧
      arr.allocator.or_heap.call procs Allocator_Mode.ALLOCATOR_RESIZE
          (r * (Layout.size_of T : Int)) (arr.count * (Layout.size_of T : Int)) arr.data w =
        Outcome.ok arr1.data w1 ∧
      arr1.storage_ok w1 ∧
      ∀ i, 0 ≤ i → i < arr.count → arr1.get? w1 i = arr.get? w i := by
  obtain ⟨p, w1, hcall, hp, hm, hcarry⟩ := Resize_conforms_ok _ _ _ _ _ halloc
  have h0 := hok.1
  have hca := hok.2.1
  have hr : 0 ≤ r := by omega
  have hmin : (min (arr.count * (Layout.size_of T : Int)) (r * (Layout.size_of T : Int))).toNat
      = arr.count.toNat * Layout.size_of T := by
    rw [min_eq_left (Int.mul_le_mul_of_nonneg_right (by omega) (Int.natCast_nonneg _))]
    exact toNat_mul_size _ _ h0
  rw [hmin] at hcarry
  rw [toNat_mul_size _ _ hr] at hm
  refine ⟨_, w1, array_reserve_grow procs arr r w w1 p hlt hp hcall, rfl, rfl, rfl, hcall, ?_, ?_⟩
  · refine ⟨h0, ?_, fun _ => hp, ?_⟩
    · show arr.count ≤ r
      omega
    · show w1.mapped p (r * (Layout.size_of T : Int)).toNat
      rw [toNat_mul_size _ _ hr]
      exact hm
  · intro i hi hic
    refine get?_carried arr _ w w1 _ hok hp hm ?_ hcarry i hi hic
    exact Nat.mul_le_mul_right _ (by omega)

/-- C5: `array_reserve(arr, r)` on a well-kept array.  If `r <= allocated` nothing changes:
the header (count, allocated, storage, allocator) and the state are as before.  Otherwise,
when the allocator serves the Resize request, `allocated` becomes exactly `r`, `count` is
unchanged and the first `count` elements of the new storage are those of the old storage. -/
theorem array_reserve_spec {T : Type} [Layout T] (procs : Procs) (arr : Array T) (r : Int)
    (w : World) (hok : arr.storage_ok w)
    (halloc : arr.allocated < r →
      Resize_conforms w arr.data (arr.count * (Layout.size_of T : Int))
        (r * (Layout.size_of T : Int))
        (arr.allocator.or_heap.call procs Allocator_Mode.ALLOCATOR_RESIZE
          (r * (Layout.size_of T : Int)) (arr.count * (Layout.size_of T : Int)) arr.data w)) :
    (r ≤ arr.allocated → array_reserve procs arr r w = Outcome.ok arr w) ∧
    (arr.allocated < r → ∃ arr1 w1, array_reserve procs arr r w = Outcome.ok arr1 w1 ∧
      arr1.allocated = r ∧ arr1.count = arr.count ∧ arr1.storage_ok w1 ∧
      ∀ i, 0 ≤ i → i < arr.count → arr1.get? w1 i = arr.get? w i) := by
  constructor
  · intro hle
    unfold array_reserve
    rw [if_pos hle]
    rfl
  · intro hlt
    obtain ⟨arr1, w1, hres, hc, ha, _, _, hok1, hget⟩ :=
      array_reserve_grows procs arr r w hok hlt (halloc hlt)
    exact ⟨arr1, w1, hres, ha, hc, hok1, hget⟩

/-- Reading an element depends only on the bytes of its slot. -/
theorem get?_congr {T : Type} [Layout T] (arr arr1 : Array T) (w w1 : World) (i : Int)
    (hd : arr.data ≠ null) (hd1 : arr1.data ≠ null) (hi : 0 ≤ i)
    (h : ∀ k, k < Layout.size_of T →
      w1.mem (arr1.data + i.toNat * Layout.size_of T + k) =
        w.mem (arr.data + i.toNat * Layout.size_of T + k)) :
    arr1.get? w1 i = arr.get? w i := by
  rw [get?_eq arr w i hd hi, get?_eq arr1 w1 i hd1 hi, bytes_congr w w1 _ _ _ h]
  have hiff : w1.mapped (arr1.data + i.toNat * Layout.size_of T) (Layout.size_of T) ↔
      w.mapped (arr.data + i.toNat * Layout.size_of T) (Layout.size_of T) :=
    ⟨mapped_congr w1 w _ _ _ (fun k hk => (h k hk).symm), mapped_congr w w1 _ _ _ h⟩
  by_cases hm : w.mapped (arr.data + i.toNat * Layout.size_of T) (Layout.size_of T)
  · rw [if_pos hm, if_pos (hiff.mpr hm)]
  · rw [if_neg hm, if_neg (fun h1 => hm (hiff.mp h1))]

/-- What `array_add` does when there is room: the item is written into slot `count`. -/
theorem array_add_room {T : Type} [Layout T] (procs : Procs) (arr : Array T) (v : T) (w : World)
    (hok : arr.storage_ok w) (hlt : arr.count < arr.allocated) :
    array_add procs arr v w =
      Outcome.ok { arr with count := arr.count + 1 }
        (w.write (arr.data + arr.count.toNat * Layout.size_of T) (Layout.encode v)) ∧
    array_add_slot procs arr w =
      Outcome.ok (arr.data + arr.count.toNat * Layout.size_of T, { arr with count := arr.count + 1 }) w ∧
    ({ arr with count := arr.count + 1 } : Array T).storage_ok
      (w.write (arr.data + arr.count.toNat * Layout.size_of T) (Layout.encode v)) ∧
    ({ arr with count := arr.count + 1 } : Array T).get?
      (w.write (arr.data + arr.count.toNat * Layout.size_of T) (Layout.encode v)) arr.count = some v ∧
    ∀ i, 0 ≤ i → i < arr.count →
      ({ arr with count := arr.count + 1 } : Array T).get?
        (w.write (arr.data + arr.count.toNat * Layout.size_of T) (Layout.encode v)) i = arr.get? w i := by
  have h0 := hok.1
  have hd : arr.data ≠ null := hok.2.2.1 (by omega)
  have hm := storage_ok_mapped arr w hok arr.count h0 hlt
  have hlen : (Layout.encode v).length = Layout.size_of T := Layout.encode_length v
  refine ⟨?_, ?_, ?_, ?_, ?_⟩
  · unfold array_add
    rw [if_neg (by omega)]
    simp only [Exec.bind_apply, Exec.bind, Exec.pure_apply]
    rw [store_elem_eq _ _ _ _ hd h0, if_pos hm]
  · unfold array_add_slot
    rw [if_neg (by omega)]
    simp only [Exec.bind_apply, Exec.bind, Exec.pure_apply, elem_ptr_nonneg T arr.data arr.count h0]
  · refine ⟨by show 0 ≤ arr.count + 1; omega, by show arr.count + 1 ≤ arr.allocated; omega,
      hok.2.2.1, ?_⟩
    intro k hk
    have hk1 := hok.2.2.2 k hk
    simp only [World.write]
    split
    · rfl
    · exact hk1
  · rw [get?_eq ({ arr with count := arr.count + 1 } : Array T) _ _ hd h0]
    show (if _ then some (Layout.decode (World.bytes _ (arr.data + _) _)) else none) = _
    rw [← hlen, if_pos (write_mapped_same w _ _), write_bytes_same, Layout.decode_encode]
  · intro i hi hic
    apply get?_congr arr _ w _ i hd hd hi
    intro k hk
    apply write_mem_outside
    left
    have h2 : i.toNat + 1 ≤ arr.count.toNat := by omega
    have h3 : (i.toNat + 1) * Layout.size_of T ≤ arr.count.toNat * Layout.size_of T :=
      Nat.mul_le_mul_right _ h2
    have h4 : (i.toNat + 1) * Layout.size_of T = i.toNat * Layout.size_of T + Layout.size_of T := by
      ring
    show arr.data + i.toNat * Layout.size_of T + k < arr.data + arr.count.toNat * Layout.size_of T
    omega

theorem reserve_count_eq (allocated : Int) : reserve_count allocated = max 8 (2 * allocated) := by
  unfold reserve_count
  split <;> omega

/-- C2: `array_add(arr, v)` on a well-kept array (`count <= allocated`), with an allocator
that serves the Resize request when one is made.  `count` goes up by exactly one, `v` is the
element at the old `count`, and every element below the old `count` is unchanged.  The array
grows, to `max(8, 2 * allocated)`, only when `count == allocated`; otherwise `allocated` and
the storage reference stay and no allocator request is made.  The overload `array_add(arr)`
changes `count` and `allocated` in the same way and returns the slot at index old `count`. -/
theorem array_add_spec {T : Type} [Layout T] (procs : Procs) (arr : Array T) (v : T) (w : World)
    (hok : arr.storage_ok w)
    (halloc : arr.count = arr.allocated →
      Resize_conforms w arr.data (arr.count * (Layout.size_of T : Int))
        (reserve_count arr.allocated * (Layout.size_of T : Int))
        (arr.allocator.or_heap.call procs Allocator_Mode.ALLOCATOR_RESIZE
          (reserve_count arr.allocated * (Layout.size_of T : Int))
          (arr.count * (Layout.size_of T : Int)) arr.data w)) :
    ∃ arr1 w1, array_add procs arr v w = Outcome.ok arr1 w1 ∧
      arr1.count = arr.count + 1 ∧
      arr1.get? w1 arr.count = some v ∧
      (∀ i, 0 ≤ i → i < arr.count → arr1.get? w1 i = arr.get? w i) ∧
      (arr.count = arr.allocated → arr1.allocated = max 8 (2 * arr.allocated)) ∧
      (arr.count < arr.allocated →
        arr1.allocated = arr.allocated ∧ arr1.data = arr.data ∧ w1.requests = w.requests) ∧
      ∃ slot arr2 w2, array_add_slot procs arr w = Outcome.ok (slot, arr2) w2 ∧
        arr2.count = arr.count + 1 ∧ arr2.allocated = arr1.allocated ∧
        elem_ptr T arr2.data arr.count = some slot := by
  have h0 := hok.1
  have hca := hok.2.1
  by_cases hlt : arr.count < arr.allocated
  · obtain ⟨hadd, hslot, _, hv, hbelow⟩ := array_add_room procs arr v w hok hlt
    refine ⟨_, _, hadd, rfl, hv, hbelow, fun h => by omega, fun _ => ⟨rfl, rfl, rfl⟩,
      _, _, _, hslot, rfl, rfl, ?_⟩
    exact elem_ptr_nonneg T arr.data arr.count h0
  · have heq : arr.count = arr.allocated := by omega
    have hrc := reserve_count_eq arr.allocated
    have hgrow : arr.allocated < reserve_count arr.allocated := by omega
    obtain ⟨arr1, w1, hres, hc, ha, _, _, hok1, hget⟩ :=
      array_reserve_grows procs arr (reserve_count arr.allocated) w hok hgrow (halloc heq)
    obtain ⟨hadd, hslot, _, hv, hbelow⟩ := array_add_room procs arr1 v w1 hok1 (by omega)
    have hge : arr.count ≥ arr.allocated := by omega
    refine ⟨{ arr1 with count := arr1.count + 1 },
      w1.write (arr1.data + arr1.count.toNat * Layout.size_of T) (Layout.encode v),
      ?_, ?_, ?_, fun i hi hic => ?_,
      fun _ => by rw [← hrc]; exact ha, fun h => by omega,
      arr1.data + arr1.count.toNat * Layout.size_of T, { arr1 with count := arr1.count + 1 }, w1,
      ?_, ?_, rfl, ?_⟩
    · unfold array_add
      rw [if_pos hge, Exec.bind_ok _ _ w w1 _ hres]
      unfold array_add at hadd
      rw [if_neg (by omega), Exec.bind_ok (pure arr1) _ w1 w1 _ rfl] at hadd
      exact hadd
    · show arr1.count + 1 = arr.count + 1
      rw [hc]
    · rw [← hc]
      exact hv
    · rw [hbelow i hi (by omega)]
      exact hget i hi hic
    · unfold array_add_slot
      rw [if_pos hge, Exec.bind_ok _ _ w w1 _ hres]
      unfold array_add_slot at hslot
      rw [if_neg (by omega), Exec.bind_ok (pure arr1) _ w1 w1 _ rfl] at hslot
      exact hslot
    · show arr1.count + 1 = arr.count + 1
      rw [hc]
    · rw [← hc]
      exact elem_ptr_nonneg T arr1.data arr1.count (by omega)

/-! ## heap_allocator -/

theorem HeapAlloc_ok (size : Int) (w : World) (hs : 0 ≤ size) (hav : w.heap_avail = none) :
    HeapAlloc size w = Outcome.ok (w.heap_next + 1) (w.heap_add (w.heap_next + 1) size.toNat) := by
  unfold HeapAlloc World.heap_exhausted
  rw [hav]
  simp only [Bool.false_eq_true, or_false]
  rw [if_neg (by omega)]

theorem heap_add_mem_old (w : World) (n a : Nat) (ha : a ≤ w.heap_next) :
    (w.heap_add (w.heap_next + 1) n).mem a = w.mem a := by
  simp only [World.heap_add]
  rw [if_neg (by omega)]

theorem heap_add_mem_new (w : World) (p n j : Nat) (hj : j < n) :
    (w.heap_add p n).mem (p + j) = some 0 := by
  simp only [World.heap_add]
  rw [if_pos ⟨by omega, by omega⟩]

theorem bytes_length (w : World) (p n : Nat) : (w.bytes p n).length = n := by
  simp [World.bytes]

theorem bytes_getD (w : World) (p n j : Nat) (hj : j < n) :
    (w.bytes p n).getD j 0 = (w.mem (p + j)).getD 0 := by
  simp [World.bytes, List.getD_eq_getElem?_getD, List.getElem?_map, List.getElem?_range hj]

/-- A Resize served by `heap_allocator` from a heap that is never exhausted. -/
theorem heap_allocator_resize (w : World) (size old_size : Int) (old_memory d : Nat)
    (hok : w.heap_ok) (hav : w.heap_avail = none) (hle : old_size ≤ size)
    (hblock : w.heap_block old_memory old_size) :
    heap_allocator Allocator_Mode.ALLOCATOR_RESIZE size old_size old_memory d w =
      Outcome.ok (w.heap_next + 1) (w.heap_resized size old_size old_memory) := by
  have hs : 0 ≤ size := by
    rcases hblock with h | ⟨h, _⟩ <;> omega
  unfold heap_allocator
  simp only []
  rw [Exec.bind_ok _ _ w _ _ (HeapAlloc_ok size w hs hav)]
  have hres : ¬ (w.heap_next + 1 = null) := by unfold null; omega
  rw [if_neg hres]
  unfold World.heap_resized
  rcases hblock with h0 | ⟨hpos, hnn, hmapped, n, hn, hnle⟩
  · rw [if_neg (by omega), if_neg (by omega)]
    rfl
  · rw [if_pos ⟨hnn, hpos⟩, if_pos ⟨hnn, hpos⟩]
    have hbelow : old_memory + n ≤ w.heap_next := hok old_memory n hn
    have hmem : memcpy (w.heap_next + 1) old_memory old_size
        (w.heap_add (w.heap_next + 1) size.toNat) =
        Outcome.ok () ((w.heap_add (w.heap_next + 1) size.toNat).write (w.heap_next + 1)
          ((w.heap_add (w.heap_next + 1) size.toNat).bytes old_memory old_size.toNat)) := by
      have hnull : ¬ (w.heap_next + 1 = null ∨ old_memory = null) := by
        unfold null at *; omega
      have hover : ¬ (w.heap_next + 1 < old_memory + old_size.toNat ∧
          old_memory < w.heap_next + 1 + old_size.toNat) := by omega
      unfold memcpy
      rw [if_neg (by omega), if_neg (by omega), if_neg hnull, if_neg hover]
      have hm1 : (w.heap_add (w.heap_next + 1) size.toNat).mapped old_memory old_size.toNat := by
        intro i hi
        rw [heap_add_mem_old w _ _ (by omega)]
        exact hmapped i hi
      have hl : load old_memory old_size.toNat (w.heap_add (w.heap_next + 1) size.toNat) =
          Outcome.ok ((w.heap_add (w.heap_next + 1) size.toNat).bytes old_memory old_size.toNat)
            (w.heap_add (w.heap_next + 1) size.toNat) := by
        unfold load
        rw [if_pos hm1]
      rw [Exec.bind_ok _ _ _ _ _ hl]
      unfold store
      rw [if_pos]
      rw [bytes_length]
      intro i hi
      rw [heap_add_mem_new w _ _ i (by omega)]
      rfl
    rw [Exec.bind_ok _ _ _ _ _ hmem]
    have hfree : HeapFree old_memory ((w.heap_add (w.heap_next + 1) size.toNat).write (w.heap_next + 1)
          ((w.heap_add (w.heap_next + 1) size.toNat).bytes old_memory old_size.toNat)) =
        Outcome.ok () ((((w.heap_add (w.heap_next + 1) size.toNat).write (w.heap_next + 1)
          ((w.heap_add (w.heap_next + 1) size.toNat).bytes old_memory old_size.toNat))).heap_remove
            old_memory n) := by
      unfold HeapFree
      rw [if_neg hnn]
      have : ((w.heap_add (w.heap_next + 1) size.toNat).write (w.heap_next + 1)
          ((w.heap_add (w.heap_next + 1) size.toNat).bytes old_memory old_size.toNat)).heap_size
            old_memory = some n := by
        simp only [World.write, World.heap_add]
        rw [if_neg (by omega)]
        exact hn
      rw [this]
    rw [Exec.bind_ok _ _ _ _ _ hfree, hn]
    rfl

/-- What the state after a served Resize of `heap_allocator` looks like. -/
theorem heap_resized_facts (w : World) (size old_size : Int) (old_memory : Nat)
    (hok : w.heap_ok) (hav : w.heap_avail = none) (hle : old_size ≤ size)
    (hblock : w.heap_block old_memory old_size) :
    (w.heap_resized size old_size old_memory).mapped (w.heap_next + 1) size.toNat ∧
    (∀ j, j < old_size.toNat →
      (w.heap_resized size old_size old_memory).mem (w.heap_next + 1 + j) = w.mem (old_memory + j)) ∧
    (w.heap_resized size old_size old_memory).heap_ok ∧
    (w.heap_resized size old_size old_memory).heap_avail = none ∧
    (w.heap_resized size old_size old_memory).heap_size (w.heap_next + 1) = some size.toNat ∧
    (w.heap_resized size old_size old_memory).requests = w.requests := by
  rcases hblock with h0 | ⟨hpos, hnn, hmapped, n, hn, hnle⟩
  · have hW : w.heap_resized size old_size old_memory = w.heap_add (w.heap_next + 1) size.toNat := by
      unfold World.heap_resized
      rw [if_neg (by omega)]
    rw [hW]
    refine ⟨fun j hj => ?_, fun j hj => by omega, ?_, ?_, ?_, rfl⟩
    · rw [heap_add_mem_new w _ _ j hj]; rfl
    · intro b m hb
      simp only [World.heap_add] at hb ⊢
      split at hb
      · rename_i hbp
        cases hb
        omega
      · have := hok b m hb
        omega
    · simp only [World.heap_add, hav, Option.map_none']
    · simp only [World.heap_add, if_true]
  · have hbelow : old_memory + n ≤ w.heap_next := hok old_memory n hn
    have hW : w.heap_resized size old_size old_memory =
        ((w.heap_add (w.heap_next + 1) size.toNat).write (w.heap_next + 1)
          ((w.heap_add (w.heap_next + 1) size.toNat).bytes old_memory old_size.toNat)).heap_remove
            old_memory n := by
      unfold World.heap_resized
      rw [if_pos ⟨hnn, hpos⟩, hn]
      rfl
    rw [hW]
    have hlen := bytes_length (w.heap_add (w.heap_next + 1) size.toNat) old_memory old_size.toNat
    refine ⟨fun j hj => ?_, fun j hj => ?_, ?_, ?_, ?_, rfl⟩
    · simp only [World.heap_remove]
      rw [if_neg (by omega)]
      by_cases hjw : j < old_size.toNat
      · rw [write_mem_inside _ _ _ j (by omega)]; rfl
      · rw [write_mem_outside _ _ _ _ (by omega), heap_add_mem_new w _ _ j hj]; rfl
    · simp only [World.heap_remove]
      rw [if_neg (by omega), write_mem_inside _ _ _ j (by omega), bytes_getD _ _ _ j hj,
        heap_add_mem_old w _ _ (by omega)]
      have := hmapped j hj
      cases hm : w.mem (old_memory + j) with
      | none => rw [hm] at this; cases this
      | some x => rfl
    · intro b m hb
      simp only [World.heap_remove, World.write, World.heap_add] at hb ⊢
      split at hb
      · cases hb
      · split at hb
        · cases hb
          omega
        · have := hok b m hb
          omega
    · simp only [World.heap_remove, World.write, World.heap_add, hav, Option.map_none']
    · simp only [World.heap_remove, World.write, World.heap_add]
      rw [if_neg (by omega)]
      exact if_pos trivial

/-- A Resize request that reaches `heap_allocator` on a consistent heap that is never
exhausted is served as the allocator interface promises. -/
theorem heap_call_resize (procs : Procs) (a : Allocator) (w : World) (size old_size : Int)
    (old_memory : Nat) (hprocs : procs Proc_Ptr.heap_allocator = heap_allocator)
    (ha : a.proc = some Proc_Ptr.heap_allocator)
    (hok : w.heap_ok) (hav : w.heap_avail = none) (hle : old_size ≤ size)
    (hblock : w.heap_block old_memory old_size) :
    ∃ w1, a.call procs Allocator_Mode.ALLOCATOR_RESIZE size old_size old_memory w =
        Outcome.ok (w.heap_next + 1) w1 ∧
      Resize_conforms w old_memory old_size size (Outcome.ok (w.heap_next + 1) w1) ∧
      w1.heap_ok ∧ w1.heap_avail = none ∧ w1.heap_size (w.heap_next + 1) = some size.toNat := by
  have hcall : a.call procs Allocator_Mode.ALLOCATOR_RESIZE size old_size old_memory w =
      heap_allocator Allocator_Mode.ALLOCATOR_RESIZE size old_size old_memory a.data
        (w.request ⟨Proc_Ptr.heap_allocator, Allocator_Mode.ALLOCATOR_RESIZE, size, old_size,
          old_memory, a.data⟩) := by
    unfold Allocator.call
    rw [ha]
    simp only [hprocs]
  rw [hcall, heap_allocator_resize (w.request _) size old_size old_memory a.data hok hav hle hblock]
  obtain ⟨h1, h2, h3, h4, h5, _⟩ := heap_resized_facts
    (w.request ⟨Proc_Ptr.heap_allocator, Allocator_Mode.ALLOCATOR_RESIZE, size, old_size,
          old_memory, a.data⟩)
    size old_size old_memory hok hav hle hblock
  refine ⟨_, rfl, ⟨by unfold null; omega, h1, fun j hj => ?_⟩, h3, h4, h5⟩
  have hj2 : j < old_size.toNat := by
    rw [min_eq_left hle] at hj
    exact hj
  exact h2 j hj2

/-! ## Appending to a heap-backed array -/

theorem or_heap_proc (a : Allocator)
    (h : a.proc = none ∨ a.proc = some Proc_Ptr.heap_allocator) :
    a.or_heap.proc = some Proc_Ptr.heap_allocator := by
  unfold Allocator.or_heap
  rcases h with h | h
  · rw [if_pos h]
  · rw [if_neg (by rw [h]; simp), h]

/-- One `array_add` on a heap-backed array: it completes, the array stays heap-backed, and
it grows exactly when it was full. -/
theorem array_add_heap {T : Type} [Layout T] (procs : Procs) (arr : Array T) (v : T) (w : World)
    (hprocs : procs Proc_Ptr.heap_allocator = heap_allocator) (hb : arr.heap_backed w) :
    ∃ arr1 w1, array_add procs arr v w = Outcome.ok arr1 w1 ∧ arr1.heap_backed w1 ∧
      arr1.count = arr.count + 1 ∧
      arr1.allocated =
        if arr.count = arr.allocated then reserve_count arr.allocated else arr.allocated := by
  obtain ⟨hok, hheap, hav, hproc, hlive⟩ := hb
  have h0 := hok.1
  have hca := hok.2.1
  by_cases hlt : arr.count < arr.allocated
  · obtain ⟨hadd, _, hok1, _, _⟩ := array_add_room procs arr v w hok hlt
    refine ⟨_, _, hadd, ⟨hok1, hheap, hav, hproc, hlive⟩, rfl, ?_⟩
    rw [if_neg (by omega)]
  · have heq : arr.count = arr.allocated := by omega
    have hrc := reserve_count_eq arr.allocated
    have hgrow : arr.allocated < reserve_count arr.allocated := by omega
    have hle : arr.count * (Layout.size_of T : Int) ≤
        reserve_count arr.allocated * (Layout.size_of T : Int) :=
      Int.mul_le_mul_of_nonneg_right (by omega) (Int.natCast_nonneg _)
    have hsz : (0 : Int) < (Layout.size_of T : Int) := by
      exact_mod_cast (Layout.size_of_pos : 0 < Layout.size_of T)
    have hblock : w.heap_block arr.data (arr.count * (Layout.size_of T : Int)) := by
      by_cases hc0 : arr.count = 0
      · left; rw [hc0]; simp
      · right
        have hcpos : 0 < arr.count := by omega
        obtain ⟨n, hn, hnle⟩ := hlive (by omega)
        refine ⟨Int.mul_pos hcpos hsz, hok.2.2.1 (by omega), ?_, n, hn, ?_⟩
        · rw [heq]; exact hok.2.2.2
        · rw [heq]; exact hnle
    obtain ⟨wh, hcall, hconf, hheap1, hav1, hsize1⟩ :=
      heap_call_resize procs arr.allocator.or_heap w _ _ arr.data hprocs
        (or_heap_proc _ hproc) hheap hav hle hblock
    obtain ⟨arr1, w1, hres, hc, ha, hal, hcall1, hok1, _⟩ :=
      array_reserve_grows procs arr (reserve_count arr.allocated) w hok hgrow
        (by rw [hcall]; exact hconf)
    rw [hcall] at hcall1
    have hd1 : arr1.data = w.heap_next + 1 := by
      injection hcall1 with h1 h2
      exact h1.symm
    have hw1 : w1 = wh := by
      injection hcall1 with h1 h2
      exact h2.symm
    subst hw1
    obtain ⟨hadd, _, hok2, _, _⟩ := array_add_room procs arr1 v w1 hok1 (by omega)
    refine ⟨_, _, ?_, ⟨hok2, hheap1, hav1, ?_,
      fun _ => ⟨(reserve_count arr.allocated * (Layout.size_of T : Int)).toNat, ?_, ?_⟩⟩, ?_, ?_⟩
    · unfold array_add
      rw [if_pos (by omega), Exec.bind_ok _ _ w w1 _ hres]
      unfold array_add at hadd
      rw [if_neg (by omega), Exec.bind_ok (pure arr1) _ w1 w1 _ rfl] at hadd
      exact hadd
    · right
      show arr1.allocator.proc = _
      rw [hal]
      exact or_heap_proc _ hproc
    · show w1.heap_size arr1.data = _
      rw [hd1]
      exact hsize1
    · show (arr1.allocated * (Layout.size_of T : Int)).toNat ≤ _
      rw [ha]
    · show arr1.count + 1 = arr.count + 1
      rw [hc]
    · show arr1.allocated = _
      rw [ha, if_pos heq]

theorem spec_capacity_seq_mono (j k : Nat) (h : j ≤ k) :
    spec_capacity_seq j ≤ spec_capacity_seq k := by
  cases j with
  | zero => exact Nat.zero_le _
  | succ j =>
    cases k with
    | zero => omega
    | succ k =>
      simp only [spec_capacity_seq]
      exact Nat.mul_le_mul_left 8 (Nat.pow_le_pow_right (by decide) (by omega))

/-- The appends keep `allocated` at the least member of the sequence that holds `count`. -/
theorem array_add_all_heap {T : Type} [Layout T] (procs : Procs)
    (hprocs : procs Proc_Ptr.heap_allocator = heap_allocator) (items : List T) :
    ∀ (arr : Array T) (w : World) (k : Nat), arr.heap_backed w →
      arr.allocated = spec_capacity_seq k → (k = 0 → arr.count = 0) →
      (∀ j, j < k → (spec_capacity_seq j : Int) < arr.count) →
      ∃ arr1 w1 k1, array_add_all procs arr items w = Outcome.ok arr1 w1 ∧
        arr1.count = arr.count + items.length ∧
        arr1.allocated = spec_capacity_seq k1 ∧ arr1.count ≤ arr1.allocated ∧
        (∀ j, j < k1 → (spec_capacity_seq j : Int) < arr1.count) := by
  induction items with
  | nil =>
    intro arr w k hb ha _ hbelow
    exact ⟨arr, w, k, rfl, by simp, ha, hb.1.2.1, hbelow⟩
  | cons v rest ih =>
    intro arr w k hb ha hk0 hbelow
    obtain ⟨arr1, w1, hadd, hb1, hc1, ha1⟩ := array_add_heap procs arr v w hprocs hb
    have h0 := hb.1.1
    have hca := hb.1.2.1
    have hnext : ∃ k1, arr1.allocated = spec_capacity_seq k1 ∧ (k1 = 0 → arr1.count = 0) ∧
        (∀ j, j < k1 → (spec_capacity_seq j : Int) < arr1.count) := by
      by_cases heq : arr.count = arr.allocated
      · rw [if_pos heq] at ha1
        refine ⟨k + 1, ?_, fun h => by omega, fun j hj => ?_⟩
        · rw [ha1, reserve_count_eq, ha]
          cases k with
          | zero => simp [spec_capacity_seq]
          | succ k =>
            simp only [spec_capacity_seq]
            push_cast
            have h2 : (1 : Int) ≤ 2 ^ k := by exact_mod_cast (Nat.one_le_two_pow : 1 ≤ 2 ^ k)
            rw [pow_succ]
            omega
        · have := spec_capacity_seq_mono j k (by omega)
          rw [hc1, heq, ha]
          omega
      · rw [if_neg heq] at ha1
        refine ⟨k, by rw [ha1, ha], fun h => ?_, fun j hj => ?_⟩
        · have := hk0 h
          rw [h] at ha
          simp only [spec_capacity_seq] at ha
          omega
        · have := hbelow j hj
          omega
    obtain ⟨k1, hk1, hk10, hbelow1⟩ := hnext
    obtain ⟨arr2, w2, k2, hall, hc2, ha2, hle2, hbelow2⟩ := ih arr1 w1 k1 hb1 hk1 hk10 hbelow1
    refine ⟨arr2, w2, k2, ?_, ?_, ha2, hle2, hbelow2⟩
    · unfold array_add_all
      rw [Exec.bind_ok _ _ w w1 _ hadd]
      exact hall
    · rw [hc2, hc1]
      simp only [List.length_cons]
      push_cast
      ring

/-- C1: `N` calls of `array_add` on an initially empty array (`count = 0`, `allocated = 0`)
whose allocator is the heap allocator on a heap that is never exhausted all complete;
afterwards `count` is `N` and `allocated` is the smallest member of the sequence
0, 8, 16, 32, 64, ... that is at least `N`. -/
theorem array_add_all_spec {T : Type} [Layout T] (procs : Procs) (arr : Array T)
    (items : List T) (w : World)
    (hprocs : procs Proc_Ptr.heap_allocator = heap_allocator)
    (hproc : arr.allocator.proc = none ∨ arr.allocator.proc = some Proc_Ptr.heap_allocator)
    (hcount : arr.count = 0) (hallocated : arr.allocated = 0)
    (hheap : w.heap_ok) (hav : w.heap_avail = none) :
    ∃ arr1 w1, array_add_all procs arr items w = Outcome.ok arr1 w1 ∧
      arr1.count = items.length ∧
      ∃ k, arr1.allocated = spec_capacity_seq k ∧ items.length ≤ spec_capacity_seq k ∧
        ∀ j, items.length ≤ spec_capacity_seq j → spec_capacity_seq k ≤ spec_capacity_seq j := by
  have hb : arr.heap_backed w := by
    refine ⟨⟨by omega, by omega, fun h => by omega, ?_⟩, hheap, hav, hproc, fun h => by omega⟩
    rw [hallocated]
    intro i hi
    simp at hi
  obtain ⟨arr1, w1, k1, hall, hc, ha, hle, hbelow⟩ :=
    array_add_all_heap procs hprocs items arr w 0 hb (by rw [hallocated]; rfl) (fun _ => hcount)
      (fun j hj => by omega)
  rw [hcount, zero_add] at hc
  refine ⟨arr1, w1, hall, hc, k1, ha, ?_, fun j hj => ?_⟩
  · rw [hc, ha] at hle
    exact_mod_cast hle
  · by_contra hlt
    have hjk : j < k1 := by
      by_contra hge
      exact hlt (spec_capacity_seq_mono k1 j (by omega))
    have := hbelow j hjk
    rw [hc] at this
    omega

/-! ## array_new and array_free -/

/-- C8: `array_new(n, a)` for `n >= 0` and an allocator that serves the Allocate request
as the interface promises.  The result has `count == allocated == n`, each of its `n`
elements is the value whose bytes are all zero, and its stored allocator is `a`, or the heap
allocator with null context when `a.proc` is null. -/
theorem array_new_spec (T : Type) [Layout T] (procs : Procs) (n : Int) (a : Allocator)
    (w : World) (hn : 0 ≤ n)
    (halloc : Allocate_served (n * (Layout.size_of T : Int))
      (a.or_heap.call procs Allocator_Mode.ALLOCATOR_ALLOCATE
        (n * (Layout.size_of T : Int)) 0 null w)) :
    ∃ arr w1, array_new T procs n a w = Outcome.ok arr w1 ∧
      arr.count = n ∧ arr.allocated = n ∧
      (∀ i, 0 ≤ i → i < n →
        arr.get? w1 i = some (Layout.decode (List.replicate (Layout.size_of T) (0 : u8)))) ∧
      (a.proc ≠ none → arr.allocator = a) ∧
      (a.proc = none → arr.allocator = ⟨some Proc_Ptr.heap_allocator, null⟩) := by
  cases hcall : a.or_heap.call procs Allocator_Mode.ALLOCATOR_ALLOCATE
      (n * (Layout.size_of T : Int)) 0 null w with
  | fatal w1 => rw [hcall] at halloc; exact absurd halloc (by simp [Allocate_served])
  | undefined => rw [hcall] at halloc; exact absurd halloc (by simp [Allocate_served])
  | ok p w1 =>
    rw [hcall] at halloc
    obtain ⟨hp, hzero⟩ := halloc
    rw [toNat_mul_size _ _ hn] at hzero
    refine ⟨{ allocator := a.or_heap, allocated := n, count := n, data := p }, w1, ?_, rfl, rfl,
      fun i hi hin => ?_, fun h => ?_, fun h => ?_⟩
    · unfold array_new
      rw [Exec.bind_ok _ _ w w1 p hcall]
      rfl
    · have hb : i.toNat * Layout.size_of T + Layout.size_of T ≤ n.toNat * Layout.size_of T := by
        have h2 : i.toNat + 1 ≤ n.toNat := by omega
        calc i.toNat * Layout.size_of T + Layout.size_of T = (i.toNat + 1) * Layout.size_of T := by
              ring
          _ ≤ n.toNat * Layout.size_of T := Nat.mul_le_mul_right _ h2
      have hz : ∀ k, k < Layout.size_of T →
          w1.mem (p + i.toNat * Layout.size_of T + k) = some 0 := by
        intro k hk
        rw [Nat.add_assoc]
        exact hzero _ (by omega)
      rw [get?_eq _ w1 i hp hi]
      show (if w1.mapped (p + i.toNat * Layout.size_of T) (Layout.size_of T) then _ else _) = _
      have hm : w1.mapped (p + i.toNat * Layout.size_of T) (Layout.size_of T) := by
        intro k hk
        rw [hz k hk]
        rfl
      rw [if_pos hm]
      congr 2
      apply List.ext_getElem
      · simp [World.bytes]
      · intro k h1 h2
        have hk : k < Layout.size_of T := by simpa [World.bytes] using h1
        simp only [World.bytes, List.getElem_map, List.getElem_range, List.getElem_replicate]
        rw [hz k hk]
        rfl
    · show a.or_heap = a
      unfold Allocator.or_heap
      rw [if_neg h]
    · show a.or_heap = _
      unfold Allocator.or_heap
      rw [if_pos h]

/-- C10: after `array_free`, `count == 0`, `allocated == 0` and the storage reference is
null, the stored allocator being left as it was.  If the storage was null no allocator call
is made: the state is unchanged.  If it was not null and the allocator serves the Free
request, exactly one call was made: a Free request for that storage to the array's
allocator, which is the heap allocator with null context when the stored procedure pointer
is null. -/
theorem array_free_spec {T : Type} (procs : Procs) (arr : Array T) (w : World)
    (hfree : arr.data ≠ null →
      Free_served w arr.allocator.or_heap arr.data
        (arr.allocator.or_heap.call procs Allocator_Mode.ALLOCATOR_FREE 0 0 arr.data w)) :
    ∃ arr1 w1, array_free procs arr w = Outcome.ok arr1 w1 ∧
      arr1.count = 0 ∧ arr1.allocated = 0 ∧ arr1.data = null ∧ arr1.allocator = arr.allocator ∧
      (arr.data = null → w1 = w) ∧
      (arr.data ≠ null → ∀ p, arr.allocator.proc = some p →
        w1.requests = w.requests ++
          [⟨p, Allocator_Mode.ALLOCATOR_FREE, 0, 0, arr.data, arr.allocator.data⟩]) ∧
      (arr.data ≠ null → arr.allocator.proc = none →
        w1.requests = w.requests ++
          [⟨Proc_Ptr.heap_allocator, Allocator_Mode.ALLOCATOR_FREE, 0, 0, arr.data, null⟩]) := by
  by_cases hd : arr.data = null
  · refine ⟨{ arr with count := 0, allocated := 0 }, w, ?_, rfl, rfl, hd, rfl, fun _ => rfl,
      fun h => absurd hd h, fun h => absurd hd h⟩
    unfold array_free
    rw [if_neg (by simpa using hd)]
    rfl
  · have hserved := hfree hd
    cases hcall : arr.allocator.or_heap.call procs Allocator_Mode.ALLOCATOR_FREE 0 0 arr.data w with
    | fatal w1 => rw [hcall] at hserved; exact absurd hserved (by simp [Free_served])
    | undefined => rw [hcall] at hserved; exact absurd hserved (by simp [Free_served])
    | ok r w1 =>
      rw [hcall] at hserved
      refine ⟨{ arr with data := null, count := 0, allocated := 0 }, w1, ?_, rfl, rfl, rfl, rfl,
        fun h => absurd h hd, fun _ p hp => ?_, fun _ hp => ?_⟩
      · unfold array_free
        rw [if_pos hd]
        simp only []
        rw [Exec.bind_ok _ _ w w1 r hcall]
        rfl
      · have hor : arr.allocator.or_heap = arr.allocator := by
          unfold Allocator.or_heap
          rw [if_neg (by rw [hp]; simp)]
        rw [hor] at hserved
        simp only [Free_served, hp] at hserved
        exact hserved
      · have hor : arr.allocator.or_heap = ⟨some Proc_Ptr.heap_allocator, null⟩ := by
          unfold Allocator.or_heap
          rw [if_pos hp]
        rw [hor] at hserved
        simp only [Free_served] at hserved
        exact hserved

/-! ## array_copy -/

/-- What `memcpy` leaves when its ranges are mapped and apart. -/
theorem memcpy_ok (dst src : Nat) (n : Int) (w : World) (hn : 0 ≤ n)
    (hnull : 0 < n → dst ≠ null ∧ src ≠ null)
    (hapart : dst + n.toNat ≤ src ∨ src + n.toNat ≤ dst)
    (hsrc : w.mapped src n.toNat) (hdst : w.mapped dst n.toNat) :
    ∃ w1, memcpy dst src n w = Outcome.ok () w1 ∧
      (∀ j, j < n.toNat → w1.mem (dst + j) = w.mem (src + j)) ∧
      (∀ a, a < dst ∨ dst + n.toNat ≤ a → w1.mem a = w.mem a) := by
  unfold memcpy
  rw [if_neg (by omega)]
  by_cases h0 : n = 0
  · rw [if_pos h0]
    exact ⟨w, rfl, fun j hj => by rw [h0] at hj; simp at hj, fun a _ => rfl⟩
  · rw [if_neg h0]
    obtain ⟨hd, hs⟩ := hnull (by omega)
    have hnn : ¬ (dst = null ∨ src = null) := by tauto
    have hover : ¬ (dst < src + n.toNat ∧ src < dst + n.toNat) := by omega
    rw [if_neg hnn, if_neg hover]
    have hl : load src n.toNat w = Outcome.ok (w.bytes src n.toNat) w := by
      unfold load
      rw [if_pos hsrc]
    rw [Exec.bind_ok _ _ w w _ hl]
    have hlen := bytes_length w src n.toNat
    refine ⟨w.write dst (w.bytes src n.toNat), ?_, fun j hj => ?_, fun a ha => ?_⟩
    · unfold store
      rw [if_pos (by rw [hlen]; exact hdst)]
    · rw [write_mem_inside _ _ _ j (by omega), bytes_getD _ _ _ j hj]
      have := hsrc j hj
      cases hm : w.mem (src + j) with
      | none => rw [hm] at this; cases this
      | some x => rfl
    · exact write_mem_outside _ _ _ _ (by omega)

theorem toNat_mul_size_le (i j : Int) (n : Nat) (hi : 0 ≤ i) (hij : i ≤ j) :
    (i * (n : Int)).toNat ≤ (j * (n : Int)).toNat := by
  rw [toNat_mul_size _ _ hi, toNat_mul_size _ _ (by omega)]
  exact Nat.mul_le_mul_right _ (by omega)

/-- C6: `array_copy(dest, src)` for two well-kept arrays with separate storage, and an
allocator that serves the requests the copy makes.  Afterwards `dest.count == src.count` and
the first `src.count` elements of `dest` are those of `src`; `dest.allocated` becomes exactly
`src.count` if it was smaller and is unchanged otherwise; the storage of `src` is unchanged. -/
theorem array_copy_spec {T : Type} [Layout T] (procs : Procs) (dest src : Array T) (w : World)
    (hdest : dest.storage_ok w) (hsrc : src.storage_ok w) (hapart : dest.apart src)
    (halloc : dest.allocated < src.count →
      Fresh_block_served w (src.count * (Layout.size_of T : Int)) src.data
        (src.allocated * (Layout.size_of T : Int)).toNat (array_copy_storage procs dest src w)) :
    ∃ dest1 w1, array_copy procs dest src w = Outcome.ok dest1 w1 ∧
      dest1.count = src.count ∧
      (∀ i, 0 ≤ i → i < src.count → dest1.get? w1 i = src.get? w i) ∧
      (dest.allocated < src.count → dest1.allocated = src.count) ∧
      (src.count ≤ dest.allocated → dest1.allocated = dest.allocated ∧ dest1.data = dest.data) ∧
      (∀ j, j < (src.allocated * (Layout.size_of T : Int)).toNat →
        w1.mem (src.data + j) = w.mem (src.data + j)) ∧
      (∀ i, 0 ≤ i → i < src.allocated → src.get? w1 i = src.get? w i) := by
  have hs0 := hsrc.1
  have hsca := hsrc.2.1
  have hcn : (src.count * (Layout.size_of T : Int)).toNat ≤
      (src.allocated * (Layout.size_of T : Int)).toNat := toNat_mul_size_le _ _ _ hs0 hsca
  have hn : 0 ≤ src.count * (Layout.size_of T : Int) :=
    Int.mul_nonneg hs0 (Int.natCast_nonneg _)
  have hsz : (0 : Int) < (Layout.size_of T : Int) := by
    exact_mod_cast (Layout.size_of_pos : 0 < Layout.size_of T)
  have hpos : 0 < src.count * (Layout.size_of T : Int) → 0 < src.count := by
    intro h
    by_contra hc
    have : src.count = 0 := by omega
    rw [this] at h
    simp at h
  -- the storage `dest` ends up with, and the state the copy starts from
  have hstep : ∃ (d : Nat) (w2 : World) (a : Int) (al : Allocator),
      array_copy procs dest src w =
        (memcpy d src.data (src.count * (Layout.size_of T : Int)) >>= fun _ =>
          pure (⟨a, src.count, d, al⟩ : Array T)) w2 ∧
      (dest.allocated < src.count → a = src.count) ∧
      (src.count ≤ dest.allocated → a = dest.allocated ∧ d = dest.data) ∧
      (0 < src.count → d ≠ null) ∧
      w2.mapped d (src.count * (Layout.size_of T : Int)).toNat ∧
      (∀ j, j < (src.allocated * (Layout.size_of T : Int)).toNat →
        w2.mem (src.data + j) = w.mem (src.data + j)) ∧
      (d + (src.count * (Layout.size_of T : Int)).toNat ≤ src.data ∨
        src.data + (src.allocated * (Layout.size_of T : Int)).toNat ≤ d) := by
    by_cases hlt : dest.allocated < src.count
    · have hserved := halloc hlt
      cases hcall : array_copy_storage procs dest src w with
      | fatal w2 => rw [hcall] at hserved; exact absurd hserved (by simp [Fresh_block_served])
      | undefined => rw [hcall] at hserved; exact absurd hserved (by simp [Fresh_block_served])
      | ok p w2 =>
        rw [hcall] at hserved
        obtain ⟨hp, hm, hkeep, hap⟩ := hserved
        refine ⟨p, w2, src.count, dest.allocator.or_heap, ?_, fun _ => rfl, fun h => by omega,
          fun _ => hp, hm, hkeep, hap⟩
        unfold array_copy
        rw [if_pos hlt]
        simp only [Exec.bind_apply, Exec.bind, hcall, Exec.pure_apply]
    · refine ⟨dest.data, w, dest.allocated, dest.allocator, ?_, fun h => absurd h hlt,
        fun _ => ⟨rfl, rfl⟩, fun h => hdest.2.2.1 (by omega), ?_, fun _ _ => rfl, ?_⟩
      · unfold array_copy
        rw [if_neg hlt]
        simp only [Exec.bind_apply, Exec.bind, Exec.pure_apply]
      · exact mapped_mono w dest.data dest.data _ _ hdest.2.2.2 (le_refl _)
          (Nat.add_le_add_left (toNat_mul_size_le _ _ _ hs0 (by omega)) _)
      · have hle := toNat_mul_size_le src.count dest.allocated (Layout.size_of T) hs0 (by omega)
        rcases hapart with h | h
        · left; omega
        · right; exact h
  obtain ⟨d, w2, a, al, hfirst, ha1, ha2, hdn, hdm, hkeep, hap⟩ := hstep
  have hsm2 : w2.mapped src.data (src.count * (Layout.size_of T : Int)).toNat := by
    intro j hj
    rw [hkeep j (by omega)]
    exact hsrc.2.2.2 j (by omega)
  obtain ⟨w3, hcopy, hin, hout⟩ := memcpy_ok d src.data _ w2 hn
    (fun h => ⟨hdn (hpos h), hsrc.2.2.1 (by have := hpos h; omega)⟩)
    (by rcases hap with h | h
        · left; exact h
        · right; omega) hsm2 hdm
  have hsrc_same : ∀ j, j < (src.allocated * (Layout.size_of T : Int)).toNat →
      w3.mem (src.data + j) = w.mem (src.data + j) := by
    intro j hj
    rw [hout _ (by omega)]
    exact hkeep j hj
  refine ⟨⟨a, src.count, d, al⟩, w3, ?_, rfl, fun i hi hic => ?_, ha1, ha2, hsrc_same,
    fun i hi hia => ?_⟩
  · rw [hfirst, Exec.bind_ok _ _ w2 w3 () hcopy]
    rfl
  · have hsd : src.data ≠ null := hsrc.2.2.1 (by omega)
    have hbound : i.toNat * Layout.size_of T + Layout.size_of T ≤
        (src.count * (Layout.size_of T : Int)).toNat := by
      rw [toNat_mul_size _ _ hs0]
      have h2 : i.toNat + 1 ≤ src.count.toNat := by omega
      calc i.toNat * Layout.size_of T + Layout.size_of T = (i.toNat + 1) * Layout.size_of T := by
            ring
        _ ≤ src.count.toNat * Layout.size_of T := Nat.mul_le_mul_right _ h2
    apply get?_congr src ⟨a, src.count, d, al⟩ w w3 i hsd (hdn (by omega)) hi
    intro k hk
    show w3.mem (d + i.toNat * Layout.size_of T + k) = _
    rw [Nat.add_assoc, Nat.add_assoc, hin _ (by omega)]
    exact hkeep _ (by omega)
  · have hsd : src.data ≠ null := hsrc.2.2.1 (by omega)
    have hbound : i.toNat * Layout.size_of T + Layout.size_of T ≤
        (src.allocated * (Layout.size_of T : Int)).toNat := by
      rw [toNat_mul_size _ _ (by omega)]
      have h2 : i.toNat + 1 ≤ src.allocated.toNat := by omega
      calc i.toNat * Layout.size_of T + Layout.size_of T = (i.toNat + 1) * Layout.size_of T := by
            ring
        _ ≤ src.allocated.toNat * Layout.size_of T := Nat.mul_le_mul_right _ h2
    apply get?_congr src src w w3 i hsd hsd hi
    intro k hk
    rw [Nat.add_assoc]
    exact hsrc_same _ (by omega)

/-! ## The claims at concrete inputs -/

theorem array_add_all_spec_witness :
    (linked_procs 1) Proc_Ptr.heap_allocator = heap_allocator ∧
    (World.start Assert_Mode.terminate).heap_ok ∧
    ∃ arr1 w1, array_add_all (linked_procs 1) ({} : Array u8)
        [1, 2, 3, 4, 5, 6, 7, 8, 9, 10, 11, 12, 13, 14, 15, 16, 17, 18, 19, 20]
        (World.start Assert_Mode.terminate) = Outcome.ok arr1 w1 ∧
      arr1.count = 20 ∧ arr1.allocated = 32 := by
  have hheap : (World.start Assert_Mode.terminate).heap_ok := fun b n h => by cases h
  refine ⟨rfl, hheap, ?_⟩
  obtain ⟨arr1, w1, hrun, hc, k, hk, hle, hmin⟩ :=
    array_add_all_spec (linked_procs 1) ({} : Array u8)
      [1, 2, 3, 4, 5, 6, 7, 8, 9, 10, 11, 12, 13, 14, 15, 16, 17, 18, 19, 20]
      (World.start Assert_Mode.terminate) rfl (Or.inr rfl) rfl rfl hheap rfl
  refine ⟨arr1, w1, hrun, hc, ?_⟩
  have h3 := hmin 3 (by decide)
  have hk3 : k ≤ 3 := by
    by_contra hgt
    have := spec_capacity_seq_mono 4 k (by omega)
    simp only [spec_capacity_seq] at this h3
    omega
  rw [hk]
  simp only [List.length_cons, List.length_nil] at hle
  interval_cases k <;> simp [spec_capacity_seq] at hle ⊢

theorem array_add_spec_witness :
    full_example_array.storage_ok pop_example_world ∧
    ∃ arr1 w1, array_add (linked_procs 1) full_example_array 40 pop_example_world =
        Outcome.ok arr1 w1 ∧
      arr1.count = full_example_array.count + 1 ∧
      arr1.get? w1 full_example_array.count = some 40 ∧
      (∀ i, 0 ≤ i → i < full_example_array.count →
        arr1.get? w1 i = full_example_array.get? pop_example_world i) ∧
      (full_example_array.count = full_example_array.allocated →
        arr1.allocated = max 8 (2 * full_example_array.allocated)) ∧
      (full_example_array.count < full_example_array.allocated →
        arr1.allocated = full_example_array.allocated ∧ arr1.data = full_example_array.data ∧
          w1.requests = pop_example_world.requests) ∧
      ∃ slot arr2 w2, array_add_slot (linked_procs 1) full_example_array pop_example_world =
          Outcome.ok (slot, arr2) w2 ∧
        arr2.count = full_example_array.count + 1 ∧ arr2.allocated = arr1.allocated ∧
        elem_ptr u8 arr2.data full_example_array.count = some slot :=
  ⟨by decide,
    array_add_spec (linked_procs 1) full_example_array 40 pop_example_world (by decide)
      (fun _ => by decide)⟩

theorem array_reserve_spec_witness :
    full_example_array.storage_ok pop_example_world ∧
    (5 ≤ full_example_array.allocated →
      array_reserve (linked_procs 1) full_example_array 5 pop_example_world =
        Outcome.ok full_example_array pop_example_world) ∧
    (full_example_array.allocated < 5 →
      ∃ arr1 w1, array_reserve (linked_procs 1) full_example_array 5 pop_example_world =
          Outcome.ok arr1 w1 ∧
        arr1.allocated = 5 ∧ arr1.count = full_example_array.count ∧ arr1.storage_ok w1 ∧
        ∀ i, 0 ≤ i → i < full_example_array.count →
          arr1.get? w1 i = full_example_array.get? pop_example_world i) :=
  ⟨by decide,
    array_reserve_spec (linked_procs 1) full_example_array 5 pop_example_world (by decide)
      (fun _ => by decide)⟩

theorem array_copy_spec_witness :
    copy_example_B.storage_ok copy_example_world ∧
    copy_example_A.storage_ok copy_example_world ∧
    copy_example_B.apart copy_example_A ∧
    ∃ dest1 w1, array_copy (linked_procs 1) copy_example_B copy_example_A copy_example_world =
        Outcome.ok dest1 w1 ∧
      dest1.count = copy_example_A.count ∧
      (∀ i, 0 ≤ i → i < copy_example_A.count →
        dest1.get? w1 i = copy_example_A.get? copy_example_world i) ∧
      (copy_example_B.allocated < copy_example_A.count → dest1.allocated = copy_example_A.count) ∧
      (copy_example_A.count ≤ copy_example_B.allocated →
        dest1.allocated = copy_example_B.allocated ∧ dest1.data = copy_example_B.data) ∧
      (∀ j, j < (copy_example_A.allocated * (Layout.size_of u8 : Int)).toNat →
        w1.mem (copy_example_A.data + j) = copy_example_world.mem (copy_example_A.data + j)) ∧
      (∀ i, 0 ≤ i → i < copy_example_A.allocated →
        copy_example_A.get? w1 i = copy_example_A.get? copy_example_world i) :=
  ⟨by decide, by decide, by decide,
    array_copy_spec (linked_procs 1) copy_example_B copy_example_A copy_example_world
      (by decide) (by decide) (by decide) (fun _ => by decide)⟩

theorem array_new_spec_witness :
    (0 : Int) ≤ 4 ∧
    ∃ arr w1, array_new u8 (linked_procs 1) 4 ⟨none, null⟩ (World.start Assert_Mode.terminate) =
        Outcome.ok arr w1 ∧
      arr.count = 4 ∧ arr.allocated = 4 ∧
      (∀ i, 0 ≤ i → i < 4 →
        arr.get? w1 i = some (Layout.decode (List.replicate (Layout.size_of u8) (0 : u8)))) ∧
      ((⟨none, null⟩ : Allocator).proc ≠ none → arr.allocator = ⟨none, null⟩) ∧
      ((⟨none, null⟩ : Allocator).proc = none →
        arr.allocator = ⟨some Proc_Ptr.heap_allocator, null⟩) :=
  ⟨by decide,
    array_new_spec u8 (linked_procs 1) 4 ⟨none, null⟩ (World.start Assert_Mode.terminate)
      (by decide) (by decide)⟩

theorem array_free_spec_witness :
    pop_example_array.data ≠ null ∧
    ∃ arr1 w1, array_free (linked_procs 1) pop_example_array pop_example_world =
        Outcome.ok arr1 w1 ∧
      arr1.count = 0 ∧ arr1.allocated = 0 ∧ arr1.data = null ∧
      arr1.allocator = pop_example_array.allocator ∧
      (pop_example_array.data = null → w1 = pop_example_world) ∧
      (pop_example_array.data ≠ null → ∀ p, pop_example_array.allocator.proc = some p →
        w1.requests = pop_example_world.requests ++
          [⟨p, Allocator_Mode.ALLOCATOR_FREE, 0, 0, pop_example_array.data,
            pop_example_array.allocator.data⟩]) ∧
      (pop_example_array.data ≠ null → pop_example_array.allocator.proc = none →
        w1.requests = pop_example_world.requests ++
          [⟨Proc_Ptr.heap_allocator, Allocator_Mode.ALLOCATOR_FREE, 0, 0,
            pop_example_array.data, null⟩]) :=
  ⟨by decide,
    array_free_spec (linked_procs 1) pop_example_array pop_example_world (fun _ => by decide)⟩

/-! ## The array invariant -/

theorem Exec.bind_ok_inv {α β : Type} (m : Exec α) (f : α → Exec β) (w w1 : World) (b : β)
    (h : (m >>= f) w = Outcome.ok b w1) : ∃ a w0, m w = Outcome.ok a w0 ∧ f a w0 = Outcome.ok b w1 := by
  simp only [Exec.bind_apply, Exec.bind] at h
  cases hm : m w with
  | ok a w0 => rw [hm] at h; exact ⟨a, w0, rfl, h⟩
  | fatal w0 => rw [hm] at h; cases h
  | undefined => rw [hm] at h; cases h

theorem Exec.pure_ok_inv {α : Type} (a b : α) (w w1 : World)
    (h : (pure a : Exec α) w = Outcome.ok b w1) : b = a ∧ w1 = w := by
  simp only [Exec.pure_apply] at h
  injection h with h1 h2
  exact ⟨h1.symm, h2.symm⟩

theorem assert_ok (cond : Bool) (expression site : String) (w w1 : World)
    (h : assert cond expression site w = Outcome.ok () w1) :
    w1.mem = w.mem ∧ w1.pools = w.pools ∧ w1.requests = w.requests ∧ w1.asserts = w.asserts ∧
      w1.heap_size = w.heap_size ∧ w1.heap_next = w.heap_next ∧ w1.heap_avail = w.heap_avail := by
  unfold assert at h
  cases ha : w.asserts <;> rw [ha] at h <;> simp only [] at h
  · cases h; exact ⟨rfl, rfl, rfl, ha, rfl, rfl, rfl⟩
  · split at h
    · cases h; exact ⟨rfl, rfl, rfl, ha, rfl, rfl, rfl⟩
    · cases h
  · split at h
    · cases h; exact ⟨rfl, rfl, rfl, ha, rfl, rfl, rfl⟩
    · cases h; exact ⟨rfl, rfl, rfl, ha, rfl, rfl, rfl⟩

/-- Every normal completion of `array_reserve`: nothing to do, or the allocator answered
and the header has the new storage, or the allocator answered null and the header is as it
was (apart from the allocator fallback). -/
theorem array_reserve_ok {T : Type} [Layout T] (procs : Procs) (arr arr1 : Array T) (r : Int)
    (w w1 : World) (h : array_reserve procs arr r w = Outcome.ok arr1 w1) :
    (r ≤ arr.allocated ∧ arr1 = arr ∧ w1 = w) ∨
    (arr.allocated < r ∧ ∃ p wc,
      arr.allocator.or_heap.call procs Allocator_Mode.ALLOCATOR_RESIZE
        (r * (Layout.size_of T : Int)) (arr.count * (Layout.size_of T : Int)) arr.data w =
          Outcome.ok p wc ∧
      assert (decide (p ≠ null)) "new_memory != 0" "array.h:105" wc = Outcome.ok () w1 ∧
      ((p ≠ null ∧ arr1 = { arr with allocator := arr.allocator.or_heap, data := p, allocated := r }) ∨
       (p = null ∧ arr1 = { arr with allocator := arr.allocator.or_heap }))) := by
  unfold array_reserve at h
  by_cases hle : r ≤ arr.allocated
  · rw [if_pos hle] at h
    injection h with h1 h2
    exact Or.inl ⟨hle, h1.symm, h2.symm⟩
  · rw [if_neg hle] at h
    right
    refine ⟨by omega, ?_⟩
    simp only [Exec.bind_apply, Exec.bind] at h
    cases hc : arr.allocator.or_heap.call procs Allocator_Mode.ALLOCATOR_RESIZE
        (r * (Layout.size_of T : Int)) (arr.count * (Layout.size_of T : Int)) arr.data w with
    | fatal wc => rw [hc] at h; cases h
    | undefined => rw [hc] at h; cases h
    | ok p wc =>
      rw [hc] at h
      simp only [] at h
      cases ha : assert (decide (p ≠ null)) "new_memory != 0" "array.h:105" wc with
      | fatal wa => rw [ha] at h; cases h
      | undefined => rw [ha] at h; cases h
      | ok u wa =>
        rw [ha] at h
        simp only [] at h
        refine ⟨p, wc, rfl, ?_, ?_⟩
        · by_cases hp : p = null
          · rw [if_pos hp] at h; injection h with h1 h2; rw [← h2]; exact ha
          · rw [if_neg hp] at h; injection h with h1 h2; rw [← h2]; exact ha
        · by_cases hp : p = null
          · rw [if_pos hp] at h; injection h with h1 h2; exact Or.inr ⟨hp, h1.symm⟩
          · rw [if_neg hp] at h; injection h with h1 h2; exact Or.inl ⟨hp, h1.symm⟩

/-- Every normal completion of `array_add`: the (possibly grown) header `arr0` that
`array_reserve` left, then the write into slot `count`. -/
theorem array_add_ok {T : Type} [Layout T] (procs : Procs) (arr arr1 : Array T) (v : T)
    (w w1 : World) (h : array_add procs arr v w = Outcome.ok arr1 w1) :
    ∃ arr0 w0,
      (if arr.count ≥ arr.allocated then array_reserve procs arr (reserve_count arr.allocated) w
        else Outcome.ok arr w) = Outcome.ok arr0 w0 ∧
      store_elem arr0.data arr0.count v w0 = Outcome.ok () w1 ∧
      arr1 = { arr0 with count := arr0.count + 1 } := by
  unfold array_add at h
  by_cases hge : arr.count ≥ arr.allocated
  · rw [if_pos hge] at h ⊢
    simp only [Exec.bind_apply, Exec.bind] at h
    cases hr : array_reserve procs arr (reserve_count arr.allocated) w with
    | fatal wc => rw [hr] at h; cases h
    | undefined => rw [hr] at h; cases h
    | ok arr0 w0 =>
      rw [hr] at h
      simp only [] at h
      cases hs : store_elem arr0.data arr0.count v w0 with
      | fatal wc => rw [hs] at h; cases h
      | undefined => rw [hs] at h; cases h
      | ok u ws =>
        rw [hs] at h
        simp only [Exec.pure_apply] at h
        injection h with h1 h2
        exact ⟨arr0, w0, rfl, by rw [← h2]; exact hs, h1.symm⟩
  · rw [if_neg hge] at h ⊢
    simp only [Exec.bind_apply, Exec.bind, Exec.pure_apply] at h
    cases hs : store_elem arr.data arr.count v w with
    | fatal wc => rw [hs] at h; cases h
    | undefined => rw [hs] at h; cases h
    | ok u ws =>
      rw [hs] at h
      simp only [] at h
      injection h with h1 h2
      exact ⟨arr, w, rfl, by rw [← h2]; exact hs, h1.symm⟩

/-- Every normal completion of the slot overload of `array_add`. -/
theorem array_add_slot_ok {T : Type} [Layout T] (procs : Procs) (arr arr1 : Array T) (slot : Nat)
    (w w1 : World) (h : array_add_slot procs arr w = Outcome.ok (slot, arr1) w1) :
    ∃ arr0,
      (if arr.count ≥ arr.allocated then array_reserve procs arr (reserve_count arr.allocated) w
        else Outcome.ok arr w) = Outcome.ok arr0 w1 ∧
      arr1 = { arr0 with count := arr0.count + 1 } := by
  unfold array_add_slot at h
  by_cases hge : arr.count ≥ arr.allocated
  · rw [if_pos hge] at h ⊢
    simp only [Exec.bind_apply, Exec.bind] at h
    cases hr : array_reserve procs arr (reserve_count arr.allocated) w with
    | fatal wc => rw [hr] at h; cases h
    | undefined => rw [hr] at h; cases h
    | ok arr0 w0 =>
      rw [hr] at h
      simp only [] at h
      cases he : elem_ptr T arr0.data arr0.count with
      | none => rw [he] at h; cases h
      | some q =>
        rw [he] at h
        simp only [Exec.pure_apply] at h
        injection h with h1 h2
        injection h1 with h3 h4
        exact ⟨arr0, by rw [← h2], h4.symm⟩
  · rw [if_neg hge] at h ⊢
    simp only [Exec.bind_apply, Exec.bind, Exec.pure_apply] at h
    cases he : elem_ptr T arr.data arr.count with
    | none => rw [he] at h; cases h
    | some q =>
      rw [he] at h
      simp only [] at h
      injection h with h1 h2
      injection h1 with h3 h4
      exact ⟨arr, by rw [← h2], h4.symm⟩

theorem memcpy_ok_inv (dst src : Nat) (n : Int) (w w1 : World)
    (h : memcpy dst src n w = Outcome.ok () w1) : 0 ≤ n ∧ (0 < n → dst ≠ null ∧ src ≠ null) := by
  unfold memcpy at h
  by_cases hn : n < 0
  · rw [if_pos hn] at h; cases h
  · rw [if_neg hn] at h
    refine ⟨by omega, fun hpos => ?_⟩
    rw [if_neg (by omega)] at h
    by_cases hnull : dst = null ∨ src = null
    · rw [if_pos hnull] at h; cases h
    · exact ⟨fun hd => hnull (Or.inl hd), fun hs => hnull (Or.inr hs)⟩

/-- Every normal completion of `array_copy`. -/
theorem array_copy_ok {T : Type} [Layout T] (procs : Procs) (dest src dest1 : Array T)
    (w w1 : World) (h : array_copy procs dest src w = Outcome.ok dest1 w1) :
    (dest.allocated < src.count ∧ ∃ p w0, array_copy_storage procs dest src w = Outcome.ok p w0 ∧
      memcpy p src.data (src.count * (Layout.size_of T : Int)) w0 = Outcome.ok () w1 ∧
      dest1 = ⟨src.count, src.count, p, dest.allocator.or_heap⟩) ∨
    (src.count ≤ dest.allocated ∧
      memcpy dest.data src.data (src.count * (Layout.size_of T : Int)) w = Outcome.ok () w1 ∧
      dest1 = { dest with count := src.count }) := by
  unfold array_copy at h
  by_cases hlt : dest.allocated < src.count
  · rw [if_pos hlt] at h
    left
    refine ⟨hlt, ?_⟩
    obtain ⟨p, w0, h1, h2⟩ := Exec.bind_ok_inv _ _ _ _ _ h
    obtain ⟨d0, w0a, h3, h4⟩ := Exec.bind_ok_inv _ _ _ _ _ h2
    obtain ⟨hd0, hw0⟩ := Exec.pure_ok_inv _ _ _ _ h3
    subst hd0 hw0
    obtain ⟨u, w2, h5, h6⟩ := Exec.bind_ok_inv _ _ _ _ _ h4
    obtain ⟨hd1, hw1⟩ := Exec.pure_ok_inv _ _ _ _ h6
    subst hw1
    exact ⟨p, _, h1, h5, hd1⟩
  · rw [if_neg hlt] at h
    right
    refine ⟨by omega, ?_⟩
    obtain ⟨d0, w0a, h3, h4⟩ := Exec.bind_ok_inv _ _ _ _ _ h
    obtain ⟨hd0, hw0⟩ := Exec.pure_ok_inv _ _ _ _ h3
    subst hd0 hw0
    obtain ⟨u, w2, h5, h6⟩ := Exec.bind_ok_inv _ _ _ _ _ h4
    obtain ⟨hd1, hw1⟩ := Exec.pure_ok_inv _ _ _ _ h6
    subst hw1
    exact ⟨h5, hd1⟩

/-- Every normal completion of `array_resize`. -/
theorem array_resize_ok {T : Type} [Layout T] (procs : Procs) (arr arr1 : Array T) (size : Int)
    (w w1 : World) (h : array_resize procs arr size w = Outcome.ok arr1 w1) :
    ∃ p wc, arr.allocator.or_heap.call procs Allocator_Mode.ALLOCATOR_RESIZE
        (size * (Layout.size_of T : Int)) (arr.allocated * (Layout.size_of T : Int)) arr.data w =
          Outcome.ok p wc ∧
      assert (decide (p ≠ null)) "new_memory != 0" "array.h:167" wc = Outcome.ok () w1 ∧
      arr1 = { arr with allocator := arr.allocator.or_heap, data := p, allocated := size } := by
  unfold array_resize at h
  obtain ⟨p, wc, h1, h2⟩ := Exec.bind_ok_inv _ _ _ _ _ h
  obtain ⟨u, wa, h3, h4⟩ := Exec.bind_ok_inv _ _ _ _ _ h2
  obtain ⟨h5, h6⟩ := Exec.pure_ok_inv _ _ _ _ h4
  subst h6
  exact ⟨p, wc, h1, h3, h5⟩

/-- Every normal completion of `array_new`. -/
theorem array_new_ok (T : Type) [Layout T] (procs : Procs) (n : Int) (a : Allocator)
    (arr1 : Array T) (w w1 : World) (h : array_new T procs n a w = Outcome.ok arr1 w1) :
    ∃ p, a.or_heap.call procs Allocator_Mode.ALLOCATOR_ALLOCATE
        (n * (Layout.size_of T : Int)) 0 null w = Outcome.ok p w1 ∧
      arr1 = { allocator := a.or_heap, allocated := n, count := n, data := p } := by
  unfold array_new at h
  obtain ⟨p, wc, h1, h2⟩ := Exec.bind_ok_inv _ _ _ _ _ h
  obtain ⟨h5, h6⟩ := Exec.pure_ok_inv _ _ _ _ h2
  subst h6
  exact ⟨p, h1, h5⟩

/-- Every normal completion of `array_free`. -/
theorem array_free_ok {T : Type} (procs : Procs) (arr arr1 : Array T)
    (w w1 : World) (h : array_free procs arr w = Outcome.ok arr1 w1) :
    arr1 = { arr with data := null, count := 0, allocated := 0 } := by
  unfold array_free at h
  by_cases hd : arr.data ≠ null
  · rw [if_pos hd] at h
    obtain ⟨p, wc, h1, h2⟩ := Exec.bind_ok_inv _ _ _ _ _ h
    exact (Exec.pure_ok_inv _ _ _ _ h2).1
  · rw [if_neg hd] at h
    have hnull : arr.data = null := by simpa using hd
    rw [(Exec.pure_ok_inv _ _ _ _ h).1, ← hnull]

/-- Every normal completion of `array_pop`. -/
theorem array_pop_ok {T : Type} [Layout T] (arr arr1 : Array T) (value_return x : T) (b : Bool)
    (w w1 : World) (h : array_pop arr value_return w = Outcome.ok (b, x, arr1) w1) :
    (arr.count = 0 ∧ b = false ∧ arr1 = arr ∧ x = value_return) ∨
    (arr.count ≠ 0 ∧ b = true ∧ arr1 = { arr with count := arr.count - 1 } ∧ w1 = w) := by
  unfold array_pop at h
  by_cases hc : arr.count = 0
  · rw [if_pos hc] at h
    left
    obtain ⟨u, wa, h1, h2⟩ := Exec.bind_ok_inv _ _ _ _ _ h
    obtain ⟨u2, wb, h3, h4⟩ := Exec.bind_ok_inv _ _ _ _ _ h2
    obtain ⟨h5, h6⟩ := Exec.pure_ok_inv _ _ _ _ h4
    injection h5 with h7 h8
    injection h8 with h9 h10
    exact ⟨hc, h7, h10, h9⟩
  · rw [if_neg hc] at h
    right
    obtain ⟨y, wa, h1, h2⟩ := Exec.bind_ok_inv _ _ _ _ _ h
    obtain ⟨h5, h6⟩ := Exec.pure_ok_inv _ _ _ _ h2
    injection h5 with h7 h8
    injection h8 with h9 h10
    have hw : wa = w := by
      rw [load_elem_cases] at h1
      cases hg : arr.get? w (arr.count - 1) with
      | none => rw [hg] at h1; cases h1
      | some z => rw [hg] at h1; injection h1 with _ h12; exact h12.symm
    exact ⟨hc, h7, h10, by rw [h6, hw]⟩

/-! ## The array invariant over the operations of array.h -/

theorem reserve_count_gt (allocated : Int) : allocated < reserve_count allocated := by
  unfold reserve_count
  split <;> omega

theorem array_reserve_inv {T : Type} [Layout T] (procs : Procs) (arr arr1 : Array T) (r : Int)
    (w w1 : World) (hinv : arr.inv) (h : array_reserve procs arr r w = Outcome.ok arr1 w1) :
    arr1.inv := by
  obtain ⟨h0, h1, h2⟩ := hinv
  rcases array_reserve_ok procs arr arr1 r w w1 h with ⟨_, ha, _⟩ | ⟨hlt, p, wc, _, _, hcase⟩
  · rw [ha]; exact ⟨h0, h1, h2⟩
  · rcases hcase with ⟨hp, ha⟩ | ⟨_, ha⟩
    · rw [ha]; exact ⟨h0, by show arr.count ≤ r; omega, fun _ => hp⟩
    · rw [ha]; exact ⟨h0, h1, h2⟩

/-- The header `array_add` writes through, when the allocator did not answer null: it has
room, the old `count`, and keeps the invariant. -/
theorem array_add_header_inv {T : Type} [Layout T] (procs : Procs) (arr arr0 : Array T)
    (w w0 : World) (hinv : arr.inv)
    (hans : Not_null_answer (arr.allocator.or_heap.call procs Allocator_Mode.ALLOCATOR_RESIZE
      (reserve_count arr.allocated * (Layout.size_of T : Int))
      (arr.count * (Layout.size_of T : Int)) arr.data w))
    (h : (if arr.count ≥ arr.allocated then array_reserve procs arr (reserve_count arr.allocated) w
        else Outcome.ok arr w) = Outcome.ok arr0 w0) :
    ({ arr0 with count := arr0.count + 1 } : Array T).inv := by
  obtain ⟨h0, h1, h2⟩ := hinv
  by_cases hge : arr.count ≥ arr.allocated
  · rw [if_pos hge] at h
    have hgt := reserve_count_gt arr.allocated
    rcases array_reserve_ok procs arr arr0 _ w w0 h with ⟨hle, _, _⟩ | ⟨hlt, p, wc, hc, _, hcase⟩
    · omega
    · rw [hc] at hans
      rcases hcase with ⟨hp, ha⟩ | ⟨hp, _⟩
      · rw [ha]
        exact ⟨by show 0 ≤ arr.count + 1; omega,
          by show arr.count + 1 ≤ reserve_count arr.allocated; omega, fun _ => hp⟩
      · exact absurd hp hans
  · rw [if_neg hge] at h
    injection h with ha hw
    rw [← ha]
    exact ⟨by show 0 ≤ arr.count + 1; omega, by show arr.count + 1 ≤ arr.allocated; omega, h2⟩

/-- C11, as the code has it: the array invariant (`0 <= count <= allocated`, storage not
null whenever `allocated > 0`) holds after every return of `array_reserve`, `array_pop`,
`array_reset`, `array_free` and `array_copy` on an array that had it; after every return of
`array_add` (both overloads) when the allocator did not answer the Resize request with
null; after `array_resize(array, size)` when `size >= count` and the answer was not null;
and for the result of `array_new(n, a)` when `n >= 0` and the answer was not null. -/
theorem array_inv_kept {T : Type} [Layout T] (procs : Procs) (arr : Array T) (w : World)
    (hinv : arr.inv) :
    (∀ r arr1 w1, array_reserve procs arr r w = Outcome.ok arr1 w1 → arr1.inv) ∧
    (∀ v arr1 w1, array_add procs arr v w = Outcome.ok arr1 w1 →
      Not_null_answer (arr.allocator.or_heap.call procs Allocator_Mode.ALLOCATOR_RESIZE
        (reserve_count arr.allocated * (Layout.size_of T : Int))
        (arr.count * (Layout.size_of T : Int)) arr.data w) → arr1.inv) ∧
    (∀ slot arr1 w1, array_add_slot procs arr w = Outcome.ok (slot, arr1) w1 →
      Not_null_answer (arr.allocator.or_heap.call procs Allocator_Mode.ALLOCATOR_RESIZE
        (reserve_count arr.allocated * (Layout.size_of T : Int))
        (arr.count * (Layout.size_of T : Int)) arr.data w) → arr1.inv) ∧
    (∀ value_return b x arr1 w1,
      array_pop arr value_return w = Outcome.ok (b, x, arr1) w1 → arr1.inv) ∧
    (array_reset arr).inv ∧
    (∀ arr1 w1, array_free procs arr w = Outcome.ok arr1 w1 → arr1.inv) ∧
    (∀ src arr1 w1, array_copy procs arr src w = Outcome.ok arr1 w1 → arr1.inv) ∧
    (∀ size arr1 w1, array_resize procs arr size w = Outcome.ok arr1 w1 →
      arr.count ≤ size → arr1.data ≠ null → arr1.inv) ∧
    (∀ n a arr1 w1, array_new T procs n a w = Outcome.ok arr1 w1 →
      0 ≤ n → arr1.data ≠ null → arr1.inv) := by
  have h0 := hinv.1
  have h1 := hinv.2.1
  have h2 := hinv.2.2
  have hsz : (0 : Int) < (Layout.size_of T : Int) := by
    exact_mod_cast (Layout.size_of_pos : 0 < Layout.size_of T)
  refine ⟨fun r arr1 w1 h => array_reserve_inv procs arr arr1 r w w1 hinv h,
    fun v arr1 w1 h hans => ?_, fun slot arr1 w1 h hans => ?_,
    fun value_return b x arr1 w1 h => ?_, ⟨le_refl _, by show (0 : Int) ≤ arr.allocated; omega, h2⟩,
    fun arr1 w1 h => ?_, fun src arr1 w1 h => ?_, fun size arr1 w1 h hsize hd => ?_,
    fun n a arr1 w1 h hn hd => ?_⟩
  · obtain ⟨arr0, w0, hres, _, ha⟩ := array_add_ok procs arr arr1 v w w1 h
    rw [ha]
    exact array_add_header_inv procs arr arr0 w w0 hinv hans hres
  · obtain ⟨arr0, hres, ha⟩ := array_add_slot_ok procs arr arr1 slot w w1 h
    rw [ha]
    exact array_add_header_inv procs arr arr0 w w1 hinv hans hres
  · rcases array_pop_ok arr arr1 value_return x b w w1 h with ⟨_, _, ha, _⟩ | ⟨hc, _, ha, _⟩
    · rw [ha]; exact hinv
    · rw [ha]; exact ⟨by show 0 ≤ arr.count - 1; omega, by show arr.count - 1 ≤ arr.allocated; omega, h2⟩
  · rw [array_free_ok procs arr arr1 w w1 h]
    exact ⟨le_refl _, le_refl _, fun hpos => absurd hpos (lt_irrefl _)⟩
  · rcases array_copy_ok procs arr src arr1 w w1 h with ⟨hlt, p, w0, _, hm, ha⟩ | ⟨hle, hm, ha⟩
    · obtain ⟨_, hnn⟩ := memcpy_ok_inv _ _ _ _ _ hm
      have hpos : 0 < src.count * (Layout.size_of T : Int) := Int.mul_pos (by omega) hsz
      rw [ha]
      exact ⟨by show 0 ≤ src.count; omega, le_refl _, fun _ => (hnn hpos).1⟩
    · obtain ⟨hn0, _⟩ := memcpy_ok_inv _ _ _ _ _ hm
      have hc0 : 0 ≤ src.count := by
        by_contra hneg
        have : src.count * (Layout.size_of T : Int) < 0 :=
          Int.mul_neg_of_neg_of_pos (by omega) hsz
        omega
      rw [ha]
      exact ⟨hc0, hle, h2⟩
  · obtain ⟨p, wc, _, _, ha⟩ := array_resize_ok procs arr arr1 size w w1 h
    rw [ha] at hd ⊢
    exact ⟨h0, hsize, fun _ => hd⟩
  · obtain ⟨p, _, ha⟩ := array_new_ok T procs n a arr1 w w1 h
    rw [ha] at hd ⊢
    exact ⟨hn, le_refl _, fun _ => hd⟩

/-- The array invariant at a concrete array: a full array that grows on `array_add`. -/
theorem array_inv_kept_witness :
    full_example_array.inv ∧
    ∃ arr1 w1, array_add (linked_procs 1) full_example_array 40 pop_example_world =
        Outcome.ok arr1 w1 ∧ arr1.inv :=
  ⟨by decide, _, _, rfl,
    (array_inv_kept (linked_procs 1) full_example_array pop_example_world (by decide)).2.1
      40 _ _ rfl (by decide)⟩

/-- C11 as stated fails.  `array_new(-1)` returns a header with `count = -1`.  On a heap
that is exhausted, `array_new(4)` returns a header with `allocated = 4` and null storage, and
in a build without `ENABLE_ASSERTS` `array_resize(array, 2)` turns a well-kept array into one
with `count = 3`, `allocated = 2` and null storage.  In such a build an `array_add` on a full
array carved from a pool returns with `count = 5` and `allocated = 4`. -/
theorem array_inv_broken :
    (∃ arr, (array_new u8 (linked_procs 1) (-1) ⟨some Proc_Ptr.heap_allocator, null⟩
        (World.start Assert_Mode.terminate)).val? = some arr ∧ arr.count = -1 ∧ ¬ arr.inv) ∧
    (∃ arr, (array_new u8 (linked_procs 1) 4 ⟨some Proc_Ptr.heap_allocator, null⟩
        exhausted_example_world).val? = some arr ∧
        arr.allocated = 4 ∧ arr.data = null ∧ ¬ arr.inv) ∧
    (pop_example_array.inv ∧
      ∃ arr, (array_resize (linked_procs 1) pop_example_array 2 exhausted_example_world).val? =
        some arr ∧ arr.count = 3 ∧ arr.allocated = 2 ∧ arr.data = null ∧ ¬ arr.inv) ∧
    (∃ arr0 w0, array_new u8 (linked_procs 1) 4 ⟨some Proc_Ptr.pool_allocator_proc, 1000⟩
        (pool_example_start Assert_Mode.compiled_out) = Outcome.ok arr0 w0 ∧ arr0.inv ∧
      ∃ arr1, (array_add (linked_procs 1) arr0 5 w0).val? = some arr1 ∧
        arr1.count = 5 ∧ arr1.allocated = 4 ∧ ¬ arr1.inv) :=
  ⟨⟨_, rfl, by decide, by decide⟩, ⟨_, rfl, by decide, by decide, by decide⟩,
    ⟨by decide, _, rfl, by decide, by decide, by decide, by decide⟩,
    ⟨_, _, rfl, by decide, _, rfl, by decide, by decide, by decide⟩⟩

/-! ## The allocator an array stores -/

theorem or_heap_unset (a : Allocator) (h : a.proc = none) :
    a.or_heap = ⟨some Proc_Ptr.heap_allocator, null⟩ := by
  unfold Allocator.or_heap
  rw [if_pos h]

theorem or_heap_set (a : Allocator) (h : a.proc ≠ none) : a.or_heap = a := by
  unfold Allocator.or_heap
  rw [if_neg h]

/-- The allocator `array_reserve` leaves in the header: the one it had, or that one after
the fallback to the heap when a request was made. -/
theorem array_reserve_allocator {T : Type} [Layout T] (procs : Procs) (arr arr1 : Array T)
    (r : Int) (w w1 : World) (h : array_reserve procs arr r w = Outcome.ok arr1 w1) :
    (r ≤ arr.allocated ∧ arr1.allocator = arr.allocator) ∨
    (arr.allocated < r ∧ arr1.allocator = arr.allocator.or_heap) := by
  rcases array_reserve_ok procs arr arr1 r w w1 h with ⟨hle, ha, _⟩ | ⟨hlt, p, wc, _, _, hcase⟩
  · exact Or.inl ⟨hle, by rw [ha]⟩
  · rcases hcase with ⟨_, ha⟩ | ⟨_, ha⟩ <;> exact Or.inr ⟨hlt, by rw [ha]⟩

/-- The allocator in the header `array_add` writes through. -/
theorem array_add_header_allocator {T : Type} [Layout T] (procs : Procs) (arr arr0 : Array T)
    (w w0 : World)
    (h : (if arr.count ≥ arr.allocated then array_reserve procs arr (reserve_count arr.allocated) w
        else Outcome.ok arr w) = Outcome.ok arr0 w0) :
    (arr.count ≥ arr.allocated ∧ arr0.allocator = arr.allocator.or_heap) ∨
    (arr.count < arr.allocated ∧ arr0.allocator = arr.allocator) := by
  by_cases hge : arr.count ≥ arr.allocated
  · rw [if_pos hge] at h
    have hgt := reserve_count_gt arr.allocated
    rcases array_reserve_allocator procs arr arr0 _ w w0 h with ⟨hle, _⟩ | ⟨_, ha⟩
    · omega
    · exact Or.inl ⟨hge, ha⟩
  · rw [if_neg hge] at h
    injection h with ha hw
    exact Or.inr ⟨by omega, by rw [← ha]⟩

theorem or_heap_proc_ne (a : Allocator) : a.or_heap.proc ≠ none := by
  unfold Allocator.or_heap
  split
  · simp
  · assumption

/-- An array of array.h whose allocator still has a null procedure pointer is empty and has
no storage: every call that gives an array capacity sets the procedure pointer first. -/
theorem made_unset {T : Type} [Layout T] (procs : Procs) (arr : Array T)
    (h : arr.made procs) (hun : arr.allocator.proc = none) :
    arr.allocated = 0 ∧ arr.count = 0 ∧ arr.data = null := by
  induction h with
  | constructed a => exact ⟨rfl, rfl, rfl⟩
  | new n a w w1 arr hnew =>
    obtain ⟨p, _, ha⟩ := array_new_ok T procs n a arr w w1 hnew
    rw [ha] at hun
    exact absurd hun (or_heap_proc_ne a)
  | set_allocator arr a hmade ih => exact absurd hun (or_heap_proc_ne a)
  | call arr arr1 c w w1 hmade hcall ih =>
    cases c with
    | reserve r =>
      rcases array_reserve_ok procs arr arr1 r w w1 hcall with ⟨_, ha, _⟩ | ⟨_, p, wc, _, _, hcase⟩
      · rw [ha] at hun ⊢
        exact ih hun
      · rcases hcase with ⟨_, ha⟩ | ⟨_, ha⟩ <;>
        · rw [ha] at hun
          exact absurd hun (or_heap_proc_ne _)
    | add item =>
      obtain ⟨arr0, w0, hres, _, ha⟩ := array_add_ok procs arr arr1 item w w1 hcall
      rw [ha] at hun
      rcases array_add_header_allocator procs arr arr0 w w0 hres with ⟨_, hal⟩ | ⟨hlt, hal⟩
      · rw [show ({ arr0 with count := arr0.count + 1 } : Array T).allocator = arr0.allocator
          from rfl, hal] at hun
        exact absurd hun (or_heap_proc_ne _)
      · rw [show ({ arr0 with count := arr0.count + 1 } : Array T).allocator = arr0.allocator
          from rfl, hal] at hun
        obtain ⟨h1, h2, _⟩ := ih hun
        omega
    | add_slot =>
      obtain ⟨r, wr, hslot, hp⟩ := Exec.bind_ok_inv _ _ _ _ _ hcall
      obtain ⟨he, hw⟩ := Exec.pure_ok_inv _ _ _ _ hp
      subst hw
      obtain ⟨arr0, hres, ha⟩ := array_add_slot_ok procs arr r.2 r.1 w w1 hslot
      rw [he, ha] at hun
      rcases array_add_header_allocator procs arr arr0 w w1 hres with ⟨_, hal⟩ | ⟨hlt, hal⟩
      · rw [show ({ arr0 with count := arr0.count + 1 } : Array T).allocator = arr0.allocator
          from rfl, hal] at hun
        exact absurd hun (or_heap_proc_ne _)
      · rw [show ({ arr0 with count := arr0.count + 1 } : Array T).allocator = arr0.allocator
          from rfl, hal] at hun
        obtain ⟨h1, h2, _⟩ := ih hun
        omega
    | resize size =>
      obtain ⟨p, wc, _, _, ha⟩ := array_resize_ok procs arr arr1 size w w1 hcall
      rw [ha] at hun
      exact absurd hun (or_heap_proc_ne _)
    | reset =>
      obtain ⟨he, _⟩ := Exec.pure_ok_inv _ _ _ _ hcall
      rw [he] at hun ⊢
      obtain ⟨h1, _, h3⟩ := ih hun
      exact ⟨h1, rfl, h3⟩
    | free =>
      rw [array_free_ok procs arr arr1 w w1 hcall]
      exact ⟨rfl, rfl, rfl⟩
    | pop value_return =>
      obtain ⟨r, wr, hpop, hp⟩ := Exec.bind_ok_inv _ _ _ _ _ hcall
      obtain ⟨he, hw⟩ := Exec.pure_ok_inv _ _ _ _ hp
      subst hw
      rcases array_pop_ok arr r.2.2 value_return r.2.1 r.1 w w1 hpop with
        ⟨_, _, ha, _⟩ | ⟨hc, _, ha, _⟩
      · rw [he, ha] at hun ⊢
        exact ih hun
      · rw [he, ha] at hun
        obtain ⟨_, h2, _⟩ := ih hun
        exact absurd h2 hc
    | copy_from src =>
      have hsz : (0 : Int) < (Layout.size_of T : Int) := by
        exact_mod_cast (Layout.size_of_pos : 0 < Layout.size_of T)
      rcases array_copy_ok procs arr src arr1 w w1 hcall with
        ⟨_, p, w0, _, _, ha⟩ | ⟨hle, hm, ha⟩
      · rw [ha] at hun
        exact absurd hun (or_heap_proc_ne _)
      · rw [ha] at hun ⊢
        obtain ⟨h1, h2, h3⟩ := ih hun
        obtain ⟨hn0, _⟩ := memcpy_ok_inv _ _ _ _ _ hm
        have hc0 : 0 ≤ src.count := by
          by_contra hneg
          have : src.count * (Layout.size_of T : Int) < 0 :=
            Int.mul_neg_of_neg_of_pos (by omega) hsz
          omega
        exact ⟨h1, by show src.count = 0; omega, h3⟩

/-- C12.  An array of array.h whose stored allocator has a null procedure pointer has, after
its first `array_add` (either overload), the stored allocator `{heap_allocator, null}`; on
a consistent process heap that is not exhausted that `array_add` does complete.  So has an
`array_reserve` beyond `allocated`.  The rebinding is idempotent: `array_add` and
`array_reserve` leave a stored `{heap_allocator, null}` as it is.  An allocator whose
procedure pointer is set is never changed by `array_reserve`, `array_add`, `array_copy` or
`array_resize`. -/
theorem array_allocator_rebinding {T : Type} [Layout T] (procs : Procs) (arr : Array T)
    (w : World) :
    (arr.made procs → arr.allocator.proc = none →
      (∀ v arr1 w1, array_add procs arr v w = Outcome.ok arr1 w1 →
        arr1.allocator = ⟨some Proc_Ptr.heap_allocator, null⟩) ∧
      (∀ slot arr1 w1, array_add_slot procs arr w = Outcome.ok (slot, arr1) w1 →
        arr1.allocator = ⟨some Proc_Ptr.heap_allocator, null⟩) ∧
      (procs Proc_Ptr.heap_allocator = heap_allocator → w.heap_ok → w.heap_avail = none →
        ∀ v, ∃ arr1 w1, array_add procs arr v w = Outcome.ok arr1 w1 ∧
          arr1.allocator = ⟨some Proc_Ptr.heap_allocator, null⟩)) ∧
    (arr.allocator.proc = none → ∀ r arr1 w1, arr.allocated < r →
      array_reserve procs arr r w = Outcome.ok arr1 w1 →
        arr1.allocator = ⟨some Proc_Ptr.heap_allocator, null⟩) ∧
    (arr.allocator = ⟨some Proc_Ptr.heap_allocator, null⟩ →
      (∀ v arr1 w1, array_add procs arr v w = Outcome.ok arr1 w1 →
        arr1.allocator = ⟨some Proc_Ptr.heap_allocator, null⟩) ∧
      (∀ slot arr1 w1, array_add_slot procs arr w = Outcome.ok (slot, arr1) w1 →
        arr1.allocator = ⟨some Proc_Ptr.heap_allocator, null⟩) ∧
      (∀ r arr1 w1, array_reserve procs arr r w = Outcome.ok arr1 w1 →
        arr1.allocator = ⟨some Proc_Ptr.heap_allocator, null⟩)) ∧
    (arr.allocator.proc ≠ none →
      (∀ r arr1 w1, array_reserve procs arr r w = Outcome.ok arr1 w1 →
        arr1.allocator = arr.allocator) ∧
      (∀ v arr1 w1, array_add procs arr v w = Outcome.ok arr1 w1 →
        arr1.allocator = arr.allocator) ∧
      (∀ slot arr1 w1, array_add_slot procs arr w = Outcome.ok (slot, arr1) w1 →
        arr1.allocator = arr.allocator) ∧
      (∀ src arr1 w1, array_copy procs arr src w = Outcome.ok arr1 w1 →
        arr1.allocator = arr.allocator) ∧
      (∀ size arr1 w1, array_resize procs arr size w = Outcome.ok arr1 w1 →
        arr1.allocator = arr.allocator)) := by
  have hadd : ∀ v arr1 w1, array_add procs arr v w = Outcome.ok arr1 w1 →
      (arr.count ≥ arr.allocated ∧ arr1.allocator = arr.allocator.or_heap) ∨
      (arr.count < arr.allocated ∧ arr1.allocator = arr.allocator) := by
    intro v arr1 w1 h
    obtain ⟨arr0, w0, hres, _, ha⟩ := array_add_ok procs arr arr1 v w w1 h
    rw [ha]
    exact array_add_header_allocator procs arr arr0 w w0 hres
  have hslot : ∀ slot arr1 w1, array_add_slot procs arr w = Outcome.ok (slot, arr1) w1 →
      (arr.count ≥ arr.allocated ∧ arr1.allocator = arr.allocator.or_heap) ∨
      (arr.count < arr.allocated ∧ arr1.allocator = arr.allocator) := by
    intro slot arr1 w1 h
    obtain ⟨arr0, hres, ha⟩ := array_add_slot_ok procs arr arr1 slot w w1 h
    rw [ha]
    exact array_add_header_allocator procs arr arr0 w w1 hres
  have hset : arr.allocator.proc ≠ none →
      (∀ r arr1 w1, array_reserve procs arr r w = Outcome.ok arr1 w1 →
        arr1.allocator = arr.allocator) ∧
      (∀ v arr1 w1, array_add procs arr v w = Outcome.ok arr1 w1 →
        arr1.allocator = arr.allocator) ∧
      (∀ slot arr1 w1, array_add_slot procs arr w = Outcome.ok (slot, arr1) w1 →
        arr1.allocator = arr.allocator) ∧
      (∀ src arr1 w1, array_copy procs arr src w = Outcome.ok arr1 w1 →
        arr1.allocator = arr.allocator) ∧
      (∀ size arr1 w1, array_resize procs arr size w = Outcome.ok arr1 w1 →
        arr1.allocator = arr.allocator) := by
    intro hset
    refine ⟨fun r arr1 w1 h => ?_, fun v arr1 w1 h => ?_, fun slot arr1 w1 h => ?_,
      fun src arr1 w1 h => ?_, fun size arr1 w1 h => ?_⟩
    · rcases array_reserve_allocator procs arr arr1 r w w1 h with ⟨_, ha⟩ | ⟨_, ha⟩
      · exact ha
      · rw [ha, or_heap_set _ hset]
    · rcases hadd v arr1 w1 h with ⟨_, ha⟩ | ⟨_, ha⟩
      · rw [ha, or_heap_set _ hset]
      · exact ha
    · rcases hslot slot arr1 w1 h with ⟨_, ha⟩ | ⟨_, ha⟩
      · rw [ha, or_heap_set _ hset]
      · exact ha
    · rcases array_copy_ok procs arr src arr1 w w1 h with ⟨_, p, w0, _, _, ha⟩ | ⟨_, _, ha⟩
      · rw [ha]
        exact or_heap_set _ hset
      · rw [ha]
    · obtain ⟨p, wc, _, _, ha⟩ := array_resize_ok procs arr arr1 size w w1 h
      rw [ha]
      exact or_heap_set _ hset
  refine ⟨fun hmade hun => ?_, fun hun r arr1 w1 hlt h => ?_, fun hheap => ?_, hset⟩
  · obtain ⟨h1, h2, h3⟩ := made_unset procs arr hmade hun
    refine ⟨fun v arr1 w1 h => ?_, fun slot arr1 w1 h => ?_, fun hprocs hok hav v => ?_⟩
    · rcases hadd v arr1 w1 h with ⟨_, ha⟩ | ⟨hlt, _⟩
      · rw [ha, or_heap_unset _ hun]
      · omega
    · rcases hslot slot arr1 w1 h with ⟨_, ha⟩ | ⟨hlt, _⟩
      · rw [ha, or_heap_unset _ hun]
      · omega
    · have hb : arr.heap_backed w := by
        refine ⟨⟨by omega, by omega, fun hpos => by omega, ?_⟩, hok, hav, Or.inl hun,
          fun hpos => by omega⟩
        rw [h1]
        intro i hi
        simp at hi
      obtain ⟨arr1, w1, h, _, _, _⟩ := array_add_heap procs arr v w hprocs hb
      refine ⟨arr1, w1, h, ?_⟩
      rcases hadd v arr1 w1 h with ⟨_, ha⟩ | ⟨hlt, _⟩
      · rw [ha, or_heap_unset _ hun]
      · omega
  · rcases array_reserve_allocator procs arr arr1 r w w1 h with ⟨hle, _⟩ | ⟨_, ha⟩
    · omega
    · rw [ha, or_heap_unset _ hun]
  · have hne : arr.allocator.proc ≠ none := by rw [hheap]; simp
    obtain ⟨g1, g2, g3, _, _⟩ := hset hne
    refine ⟨fun v arr1 w1 h => ?_, fun slot arr1 w1 h => ?_, fun r arr1 w1 h => ?_⟩
    · rw [g2 v arr1 w1 h, hheap]
    · rw [g3 slot arr1 w1 h, hheap]
    · rw [g1 r arr1 w1 h, hheap]

/-- The first `array_add` on an array constructed with a null procedure pointer, after an
`array_reset` and an `array_free` of it, on the heap. -/
theorem array_allocator_rebinding_witness :
    (∃ arr0 : Array u8, arr0.made (linked_procs 1) ∧ arr0.allocator.proc = none ∧
      ∃ arr1 w1, array_add (linked_procs 1) arr0 7 (World.start Assert_Mode.terminate) =
          Outcome.ok arr1 w1 ∧ arr1.allocator = ⟨some Proc_Ptr.heap_allocator, null⟩) :=
  ⟨{ allocator := ⟨none, null⟩ },
    Array.made.call _ _ Array_Call.free (World.start Assert_Mode.terminate) _
      (Array.made.call _ _ Array_Call.reset (World.start Assert_Mode.terminate) _
        (Array.made.constructed ⟨none, null⟩) rfl) rfl,
    rfl, _, _, rfl,
    ((array_allocator_rebinding (linked_procs 1) ({ allocator := ⟨none, null⟩ } : Array u8)
      (World.start Assert_Mode.terminate)).1
        (Array.made.call _ _ Array_Call.free (World.start Assert_Mode.terminate) _
          (Array.made.call _ _ Array_Call.reset (World.start Assert_Mode.terminate) _
            (Array.made.constructed ⟨none, null⟩) rfl) rfl) rfl).1 7 _ _ rfl⟩

/-! ## An array over the arena -/

/-- A Resize request to `pool_allocator_proc` with a pool that is not null: the failed
`assert(false)`, then null. -/
theorem pool_allocator_proc_resize (procs1 : Procs) (size old_size : Int) (old_memory pool : Nat)
    (w : World) (hpool : pool ≠ null) :
    pool_allocator_proc procs1 Allocator_Mode.ALLOCATOR_RESIZE size old_size old_memory pool w =
      match w.asserts with
      | Assert_Mode.compiled_out => Outcome.ok null w
      | Assert_Mode.terminate => Outcome.fatal (w.put (assert_text "false" "pool.h:157") false)
      | Assert_Mode.dismiss => Outcome.ok null (w.put (assert_text "false" "pool.h:157") false) := by
  have hdec : decide (pool ≠ null) = true := by simpa using hpool
  unfold pool_allocator_proc
  simp only []
  rw [hdec, Exec.bind_ok _ _ w w () (assert_true _ _ w)]
  simp only [Exec.bind_apply, Exec.bind, assert]
  cases w.asserts <;> rfl

/-- C13, as the code has it.  For an array whose allocator is `{pool_allocator_proc, pool}`,
`pool` not null.  An `array_add` that finds room (`count < allocated`) makes no request: it
is the write into slot `count` and the increment of `count`, the same for every allocator,
the heap allocator included.  An `array_add` (either overload) that has to grow
(`count >= allocated`, so the one on an empty array) makes one Resize request, and the pool
refuses it with `assert(false)` ("We do not resize our pools").  Where that failed assertion
ends the process, `array_add` ends there.  Where it is dismissed, the pool answers null, the
assertion of `array_reserve` fails in turn, `allocated` and the storage are not changed, and
the item is written through the storage pointer the array had, at index `count`, which is
undefined for an empty array, whose storage is null.  No `array_add` over a pool changes
`allocated` or the storage pointer. -/
theorem array_add_pool_refused {T : Type} [Layout T] (procs procs1 : Procs) (arr : Array T)
    (v : T) (w : World) (pool : Nat)
    (hprocs : procs Proc_Ptr.pool_allocator_proc = pool_allocator_proc procs1)
    (halloc : arr.allocator = ⟨some Proc_Ptr.pool_allocator_proc, pool⟩) (hpool : pool ≠ null) :
    (arr.count < arr.allocated →
      ∀ a, array_add procs { arr with allocator := a } v w =
        (store_elem arr.data arr.count v >>= fun _ =>
          pure ({ arr with allocator := a, count := arr.count + 1 } : Array T)) w) ∧
    (arr.count ≥ arr.allocated →
      (w.asserts = Assert_Mode.terminate →
        array_add procs arr v w =
          Outcome.fatal ((w.request ⟨Proc_Ptr.pool_allocator_proc, Allocator_Mode.ALLOCATOR_RESIZE,
            reserve_count arr.allocated * (Layout.size_of T : Int),
            arr.count * (Layout.size_of T : Int), arr.data, pool⟩).put
              (assert_text "false" "pool.h:157") false) ∧
        array_add_slot procs arr w =
          Outcome.fatal ((w.request ⟨Proc_Ptr.pool_allocator_proc, Allocator_Mode.ALLOCATOR_RESIZE,
            reserve_count arr.allocated * (Layout.size_of T : Int),
            arr.count * (Layout.size_of T : Int), arr.data, pool⟩).put
              (assert_text "false" "pool.h:157") false)) ∧
      (w.asserts = Assert_Mode.dismiss →
        array_add procs arr v w =
          (store_elem arr.data arr.count v >>= fun _ =>
            pure ({ arr with count := arr.count + 1 } : Array T))
            (((w.request ⟨Proc_Ptr.pool_allocator_proc, Allocator_Mode.ALLOCATOR_RESIZE,
              reserve_count arr.allocated * (Layout.size_of T : Int),
              arr.count * (Layout.size_of T : Int), arr.data, pool⟩).put
                (assert_text "false" "pool.h:157") false).put
                  (assert_text "new_memory != 0" "array.h:105") false) ∧
        (arr.data = null → array_add procs arr v w = Outcome.undefined))) ∧
    (∀ arr1 w1, array_add procs arr v w = Outcome.ok arr1 w1 →
      arr1.count = arr.count + 1 ∧ arr1.allocated = arr.allocated ∧ arr1.data = arr.data ∧
      arr1.allocator = arr.allocator) := by
  have hgt := reserve_count_gt arr.allocated
  have hor : arr.allocator.or_heap = ⟨some Proc_Ptr.pool_allocator_proc, pool⟩ := by
    rw [halloc]; rfl
  have hdec : decide (null ≠ null) = false := by decide
  have hroom : arr.count < arr.allocated →
      ∀ a, array_add procs { arr with allocator := a } v w =
        (store_elem arr.data arr.count v >>= fun _ =>
          pure ({ arr with allocator := a, count := arr.count + 1 } : Array T)) w := by
    intro hlt a
    unfold array_add
    rw [if_neg (by show ¬ arr.count ≥ arr.allocated; omega)]
    rfl
  -- the outcome of `array_reserve`, by treatment of the failed assertions
  have hres : array_reserve procs arr (reserve_count arr.allocated) w =
      match w.asserts with
      | Assert_Mode.terminate =>
        Outcome.fatal ((w.request ⟨Proc_Ptr.pool_allocator_proc, Allocator_Mode.ALLOCATOR_RESIZE,
          reserve_count arr.allocated * (Layout.size_of T : Int),
          arr.count * (Layout.size_of T : Int), arr.data, pool⟩).put
            (assert_text "false" "pool.h:157") false)
      | Assert_Mode.dismiss =>
        Outcome.ok arr (((w.request ⟨Proc_Ptr.pool_allocator_proc,
          Allocator_Mode.ALLOCATOR_RESIZE,
          reserve_count arr.allocated * (Layout.size_of T : Int),
          arr.count * (Layout.size_of T : Int), arr.data, pool⟩).put
            (assert_text "false" "pool.h:157") false).put
              (assert_text "new_memory != 0" "array.h:105") false)
      | Assert_Mode.compiled_out =>
        Outcome.ok arr (w.request ⟨Proc_Ptr.pool_allocator_proc,
          Allocator_Mode.ALLOCATOR_RESIZE,
          reserve_count arr.allocated * (Layout.size_of T : Int),
          arr.count * (Layout.size_of T : Int), arr.data, pool⟩) := by
    have harr : ({ arr with allocator := arr.allocator.or_heap } : Array T) = arr := by
      rw [hor, ← halloc]
    unfold array_reserve
    rw [if_neg (by omega)]
    simp only [Exec.bind_apply, Exec.bind, hor, Allocator.call, hprocs]
    rw [pool_allocator_proc_resize procs1 _ _ _ pool _ hpool]
    have hreq : (w.request ⟨Proc_Ptr.pool_allocator_proc, Allocator_Mode.ALLOCATOR_RESIZE,
          reserve_count arr.allocated * (Layout.size_of T : Int),
          arr.count * (Layout.size_of T : Int), arr.data, pool⟩).asserts = w.asserts := rfl
    rw [hreq]
    cases ha : w.asserts with
    | terminate => rfl
    | dismiss =>
      simp only [hdec, assert_false_eq]
      have hput : ((w.request ⟨Proc_Ptr.pool_allocator_proc, Allocator_Mode.ALLOCATOR_RESIZE,
          reserve_count arr.allocated * (Layout.size_of T : Int),
          arr.count * (Layout.size_of T : Int), arr.data, pool⟩).put
            (assert_text "false" "pool.h:157") false).asserts = Assert_Mode.dismiss := ha
      rw [hput]
      simp only [if_true, Exec.pure_apply]
      rw [← halloc]
    | compiled_out =>
      simp only [hdec, assert_false_eq]
      have hput : (w.request ⟨Proc_Ptr.pool_allocator_proc, Allocator_Mode.ALLOCATOR_RESIZE,
          reserve_count arr.allocated * (Layout.size_of T : Int),
          arr.count * (Layout.size_of T : Int), arr.data, pool⟩).asserts =
            Assert_Mode.compiled_out := ha
      rw [hput]
      simp only [if_true, Exec.pure_apply]
      rw [← halloc]
  have hfull : arr.count ≥ arr.allocated →
      array_add procs arr v w =
        match array_reserve procs arr (reserve_count arr.allocated) w with
        | Outcome.ok arr0 w0 =>
          (store_elem arr0.data arr0.count v >>= fun _ =>
            pure ({ arr0 with count := arr0.count + 1 } : Array T)) w0
        | Outcome.fatal w0 => Outcome.fatal w0
        | Outcome.undefined => Outcome.undefined := by
    intro hge
    unfold array_add
    rw [if_pos hge]
    simp only [Exec.bind_apply, Exec.bind]
    cases array_reserve procs arr (reserve_count arr.allocated) w <;> rfl
  have hslot : arr.count ≥ arr.allocated → w.asserts = Assert_Mode.terminate →
      array_add_slot procs arr w =
        Outcome.fatal ((w.request ⟨Proc_Ptr.pool_allocator_proc, Allocator_Mode.ALLOCATOR_RESIZE,
          reserve_count arr.allocated * (Layout.size_of T : Int),
          arr.count * (Layout.size_of T : Int), arr.data, pool⟩).put
            (assert_text "false" "pool.h:157") false) := by
    intro hge ha
    unfold array_add_slot
    rw [if_pos hge]
    simp only [Exec.bind_apply, Exec.bind, hres, ha]
  have hnull : ∀ (w0 : World), arr.data = null →
      (store_elem arr.data arr.count v >>= fun _ =>
        pure ({ arr with count := arr.count + 1 } : Array T)) w0 = Outcome.undefined := by
    intro w0 hd
    simp only [Exec.bind_apply, Exec.bind, store_elem, hd, if_true]
  refine ⟨hroom, fun hge => ⟨fun ha => ⟨?_, hslot hge ha⟩, fun ha => ?_⟩,
    fun arr1 w1 h => ?_⟩
  · rw [hfull hge, hres, ha]
  · refine ⟨by rw [hfull hge, hres, ha], fun hd => ?_⟩
    rw [hfull hge, hres, ha]
    exact hnull _ hd
  · have hstore : ∀ (w0 : World),
        (store_elem arr.data arr.count v >>= fun _ =>
          pure ({ arr with count := arr.count + 1 } : Array T)) w0 = Outcome.ok arr1 w1 →
        arr1.count = arr.count + 1 ∧ arr1.allocated = arr.allocated ∧ arr1.data = arr.data ∧
          arr1.allocator = arr.allocator := by
      intro w0 hs
      obtain ⟨_, _, _, hp⟩ := Exec.bind_ok_inv _ _ _ _ _ hs
      obtain ⟨he, _⟩ := Exec.pure_ok_inv _ _ _ _ hp
      rw [he]
      exact ⟨rfl, rfl, rfl, rfl⟩
    by_cases hge : arr.count ≥ arr.allocated
    · rw [hfull hge, hres] at h
      cases ha : w.asserts with
      | terminate => rw [ha] at h; cases h
      | dismiss => rw [ha] at h; exact hstore _ h
      | compiled_out => rw [ha] at h; exact hstore _ h
    · have h2 := hroom (by omega) arr.allocator
      rw [show ({ arr with allocator := arr.allocator } : Array T) = arr from rfl] at h2
      rw [h2] at h
      exact hstore _ h

/-- The first `array_add` on an empty array over an initialised pool: where the failed
assertion of the pool ends the process it ends there; where it is dismissed the write goes
through the null storage pointer. -/
theorem array_add_pool_refused_witness :
    (linked_procs 1) Proc_Ptr.pool_allocator_proc = pool_allocator_proc (linked_procs 0) ∧
    pool_example_array.allocator = ⟨some Proc_Ptr.pool_allocator_proc, 1000⟩ ∧
    (1000 : Nat) ≠ null ∧ pool_example_array.count ≥ pool_example_array.allocated ∧
    array_add (linked_procs 1) pool_example_array 5 (pool_example_start Assert_Mode.terminate) =
      Outcome.fatal (((pool_example_start Assert_Mode.terminate).request
        ⟨Proc_Ptr.pool_allocator_proc, Allocator_Mode.ALLOCATOR_RESIZE,
          reserve_count pool_example_array.allocated * (Layout.size_of u8 : Int),
          pool_example_array.count * (Layout.size_of u8 : Int), pool_example_array.data,
          1000⟩).put (assert_text "false" "pool.h:157") false) ∧
    array_add (linked_procs 1) pool_example_array 5 (pool_example_start Assert_Mode.dismiss) =
      Outcome.undefined :=
  ⟨rfl, rfl, by decide, by decide,
    (((array_add_pool_refused (linked_procs 1) (linked_procs 0) pool_example_array 5
      (pool_example_start Assert_Mode.terminate) 1000 rfl rfl (by decide)).2.1
        (by decide)).1 rfl).1,
    (((array_add_pool_refused (linked_procs 1) (linked_procs 0) pool_example_array 5
      (pool_example_start Assert_Mode.dismiss) 1000 rfl rfl (by decide)).2.1
        (by decide)).2 rfl).2 rfl⟩

/-- C13 as stated fails: the first `array_add` on an empty array whose allocator is an
initialised pool ends in the failed assertion of the pool, or, when that failure is
dismissed, is undefined (a write through null storage); it does not complete with
`count = 1`, `allocated = 8`, as the same `array_add` does with the heap allocator. -/
theorem array_add_pool_aborts :
    (array_add (linked_procs 1) pool_example_array 5
      (pool_example_start Assert_Mode.terminate)).is_fatal = true ∧
    (array_add (linked_procs 1) pool_example_array 5
      (pool_example_start Assert_Mode.dismiss)).val? = none ∧
    ((array_add (linked_procs 1) ({} : Array u8) 5
      (pool_example_start Assert_Mode.terminate)).val?.map fun a => (a.count, a.allocated)) =
        some (1, 8) :=
  ⟨rfl, rfl, rfl⟩

/-! ## pool_get -/

theorem World.ext_fields (w w1 : World) (h1 : w.mem = w1.mem) (h2 : w.heap_size = w1.heap_size)
    (h3 : w.heap_next = w1.heap_next) (h4 : w.heap_avail = w1.heap_avail)
    (h5 : w.asserts = w1.asserts) (h6 : w.output = w1.output) (h7 : w.requests = w1.requests)
    (h8 : w.pools = w1.pools) : w = w1 := by
  cases w; cases w1
  simp only at h1 h2 h3 h4 h5 h6 h7 h8
  subst h1 h2 h3 h4 h5 h6 h7 h8
  rfl

theorem set_pool_set_pool (w : World) (pool : Nat) (p1 p2 : Pool) :
    (w.set_pool pool p1).set_pool pool p2 = w.set_pool pool p2 := by
  apply World.ext_fields <;> try rfl
  funext a
  simp only [World.set_pool]
  split <;> rfl

theorem set_pool_pools (w : World) (pool : Nat) (p : Pool) :
    (w.set_pool pool p).pools pool = some p := by
  simp [World.set_pool]

theorem deref_eq (pool : Nat) (w : World) (p : Pool) (hp : w.pools pool = some p) :
    Pool.deref pool w = Outcome.ok p w := by
  unfold Pool.deref
  rw [hp]

theorem modify_eq (pool : Nat) (f : Pool → Pool) (w : World) (p : Pool)
    (hp : w.pools pool = some p) :
    Pool.modify pool f w = Outcome.ok () (w.set_pool pool (f p)) := by
  unfold Pool.modify
  rw [hp]
  rfl

/-- The rounding of `pool_get`, for a positive alignment and a request that is not
negative: the least multiple of the alignment that holds the request. -/
theorem pool_rounded_least (a n : Int) (ha : 0 < a) (hn : 0 ≤ n) :
    a ∣ pool_rounded a n ∧ n ≤ pool_rounded a n ∧
      ∀ m, a ∣ m → n ≤ m → pool_rounded a n ≤ m := by
  unfold pool_rounded
  have hk0 : 0 ≤ n % a := Int.emod_nonneg n (by omega)
  have hk1 : n % a < a := Int.emod_lt_of_pos n ha
  have hdiv : a * (n / a) + n % a = n := Int.ediv_add_emod n a
  rw [Int.tmod_eq_emod hn (by omega)]
  rw [Int.tmod_eq_emod (by omega) (by omega)]
  by_cases hk : n % a = 0
  · rw [hk, sub_zero, Int.emod_self, add_zero]
    exact ⟨⟨n / a, by rw [hk] at hdiv; omega⟩, le_refl _, fun m _ h => h⟩
  · have hlt : a - n % a < a := by omega
    rw [Int.emod_eq_of_lt (by omega) hlt]
    refine ⟨⟨n / a + 1, by rw [mul_add]; omega⟩, by omega, fun m hm hnm => ?_⟩
    obtain ⟨c, hc⟩ := hm
    have hcq : n / a < c := by
      by_contra hle
      have : a * c ≤ a * (n / a) := Int.mul_le_mul_of_nonneg_left (by omega) (by omega)
      omega
    have : a * (n / a + 1) ≤ a * c := Int.mul_le_mul_of_nonneg_left (by omega) (by omega)
    rw [mul_add] at this
    omega

theorem pool_get_bump_eq (pool : Nat) (r : Int) (w : World) (p : Pool)
    (hp : w.pools pool = some p) (hnn : 0 ≤ (p.current_pos : Int) + r) :
    pool_get_bump pool r w =
      Outcome.ok p.current_pos (w.set_pool pool
        { p with current_pos := ((p.current_pos : Int) + r).toNat, bytes_left := p.bytes_left - r }) := by
  unfold pool_get_bump
  rw [Exec.bind_ok _ _ w w p (deref_eq pool w p hp)]
  rw [if_neg (by omega)]
  rw [Exec.bind_ok _ _ w _ () (modify_eq pool _ w p hp)]
  rfl

/-- The two paths of `pool_get`: with room the bump, else the cycle, then the bump unless
the new current block is null. -/
theorem pool_get_eq (procs : Procs) (pool : Nat) (n : Int) (w : World) (p : Pool)
    (hp : w.pools pool = some p) (hpool : pool ≠ null) (ha : p.alignment ≠ 0) :
    pool_get procs pool n w =
      if p.bytes_left < pool_rounded p.alignment n then
        (pool_cycle_new_block procs pool >>= fun _ => Pool.deref pool >>= fun q =>
          if q.current_memblock = null then pure null
          else pool_get_bump pool (pool_rounded p.alignment n)) w
      else pool_get_bump pool (pool_rounded p.alignment n) w := by
  have hdec : decide (pool ≠ null) = true := by simpa using hpool
  unfold pool_get
  rw [hdec, Exec.bind_ok _ _ w w () (assert_true _ _ w)]
  rw [Exec.bind_ok _ _ w w p (deref_eq pool w p hp)]
  simp only []
  rw [if_neg ha]
  unfold pool_rounded
  by_cases hlt : p.bytes_left < n + (p.alignment - n.tmod p.alignment).tmod p.alignment
  · rw [if_pos hlt, if_pos hlt]
  · rw [if_neg hlt, if_neg hlt]

theorem deref_ok_inv (pool : Nat) (w w1 : World) (p : Pool)
    (h : Pool.deref pool w = Outcome.ok p w1) : w.pools pool = some p ∧ w1 = w := by
  unfold Pool.deref at h
  cases hp : w.pools pool with
  | none => rw [hp] at h; cases h
  | some q =>
    rw [hp] at h
    injection h with h1 h2
    exact ⟨by rw [h1], h2.symm⟩

theorem modify_ok_inv (pool : Nat) (f : Pool → Pool) (w w1 : World)
    (h : Pool.modify pool f w = Outcome.ok () w1) :
    ∃ q, w.pools pool = some q ∧ w1 = w.set_pool pool (f q) := by
  unfold Pool.modify at h
  cases hp : w.pools pool with
  | none => rw [hp] at h; cases h
  | some q =>
    rw [hp] at h
    injection h with h1 h2
    exact ⟨q, rfl, h2.symm⟩

/-- Every normal completion of `pool_cycle_new_block` ends with lines 80-82: the pool has
a full block count and the position at the start of the current block. -/
theorem pool_cycle_post (procs : Procs) (pool : Nat) (w w1 : World)
    (h : pool_cycle_new_block procs pool w = Outcome.ok () w1) :
    ∃ q, w1.pools pool = some q ∧ q.current_pos = q.current_memblock ∧
      q.bytes_left = q.memblock_size := by
  have hlast : ∀ (nb : Nat) (wz : World),
      Pool.modify pool (fun q =>
        { q with bytes_left := q.memblock_size, current_memblock := nb, current_pos := nb }) wz =
          Outcome.ok () w1 →
      ∃ q, w1.pools pool = some q ∧ q.current_pos = q.current_memblock ∧
        q.bytes_left = q.memblock_size := by
    intro nb wz hm
    obtain ⟨q, _, hw1⟩ := modify_ok_inv _ _ _ _ hm
    rw [hw1]
    exact ⟨_, set_pool_pools _ _ _, rfl, rfl⟩
  have hrest : ∀ (p : Pool) (wy : World),
      (if p.unused_memblocks.count ≠ 0 then do
          let popped ← array_pop p.unused_memblocks 0
          Pool.modify pool fun q => { q with unused_memblocks := popped.2.2 }
          let y ← pure popped.2.1.val
          Pool.modify pool fun q =>
            { q with bytes_left := q.memblock_size, current_memblock := y, current_pos := y }
        else do
          assert (decide (p.block_allocator.proc ≠ none)) "a.proc != 0" "pool.h:76"
          let y ← p.block_allocator.call procs Allocator_Mode.ALLOCATOR_ALLOCATE p.memblock_size 0 null
          Pool.modify pool fun q =>
            { q with bytes_left := q.memblock_size, current_memblock := y, current_pos := y }) wy =
        Outcome.ok () w1 →
      ∃ q, w1.pools pool = some q ∧ q.current_pos = q.current_memblock ∧
        q.bytes_left = q.memblock_size := by
    intro p wy hy
    split at hy
    · obtain ⟨popped, wa, _, hy⟩ := Exec.bind_ok_inv _ _ _ _ _ hy
      obtain ⟨_, wb, _, hy⟩ := Exec.bind_ok_inv _ _ _ _ _ hy
      obtain ⟨y, wc, hpure, hy⟩ := Exec.bind_ok_inv _ _ _ _ _ hy
      exact hlast _ _ hy
    · obtain ⟨_, wa, _, hy⟩ := Exec.bind_ok_inv _ _ _ _ _ hy
      obtain ⟨y, wb, _, hy⟩ := Exec.bind_ok_inv _ _ _ _ _ hy
      exact hlast _ _ hy
  unfold pool_cycle_new_block at h
  obtain ⟨p, w0, _, h⟩ := Exec.bind_ok_inv _ _ _ _ _ h
  simp only [] at h
  split at h
  · obtain ⟨_, wa, _, h⟩ := Exec.bind_ok_inv _ _ _ _ _ h
    obtain ⟨_, wb, _, h⟩ := Exec.bind_ok_inv _ _ _ _ _ h
    exact hrest p wb h
  · obtain ⟨_, wa, _, h⟩ := Exec.bind_ok_inv _ _ _ _ _ h
    exact hrest p wa h

theorem Cycle_served_ok (pool : Nat) (o : Outcome Unit) (h : Cycle_served pool o) :
    ∃ wc q, o = Outcome.ok () wc ∧ wc.pools pool = some q ∧ q.current_memblock ≠ null := by
  cases o with
  | ok u wc =>
    simp only [Cycle_served] at h
    cases hq : wc.pools pool with
    | none => rw [hq] at h; cases h
    | some q =>
      rw [hq] at h
      simp only [Option.map_some', Option.some.injEq, decide_eq_true_eq] at h
      exact ⟨wc, q, rfl, hq, h⟩
  | fatal wc => exact absurd h (by simp [Cycle_served])
  | undefined => exact absurd h (by simp [Cycle_served])

theorem pool_rounded_nonneg (a n : Int) (ha : 0 < a) (hn : 0 ≤ n) : 0 ≤ pool_rounded a n := by
  have := (pool_rounded_least a n ha hn).2.1
  omega

/-- The cycling path of `pool_get` once the cycle has completed in `wc` with the pool `q`. -/
theorem pool_get_cycled (procs : Procs) (pool : Nat) (n : Int) (w wc : World) (p q : Pool)
    (hp : w.pools pool = some p) (hpool : pool ≠ null) (ha : p.alignment ≠ 0)
    (hlt : p.bytes_left < pool_rounded p.alignment n)
    (hc : pool_cycle_new_block procs pool w = Outcome.ok () wc)
    (hq : wc.pools pool = some q) :
    pool_get procs pool n w =
      if q.current_memblock = null then Outcome.ok null wc
      else pool_get_bump pool (pool_rounded p.alignment n) wc := by
  rw [pool_get_eq procs pool n w p hp hpool ha, if_pos hlt]
  rw [Exec.bind_ok _ _ w wc () hc, Exec.bind_ok _ _ wc wc q (deref_eq pool wc q hq)]
  split <;> rfl

/-- C14, as the code has it.  For a pool with alignment `a > 0` and a request `n >= 0`,
let `r` be the least multiple of `a` that is at least `n`.  A `pool_get` that needs no new
block, or whose cycle obtains one, returns and consumes exactly `r` bytes: afterwards
`current_pos` is the returned reference plus `r`; without a cycle the reference is the old
`current_pos` and `bytes_left` is the old `bytes_left` minus `r`; with a cycle the
reference is the start of the current block and `bytes_left` is `memblock_size` minus `r`.
A `pool_get` whose cycle returns without a block (the block allocator answered null) returns
null through the guard of line 112 and consumes nothing: `bytes_left` is `memblock_size`
and `current_pos` is null. -/
theorem pool_get_consumes (procs : Procs) (pool : Nat) (n : Int) (w : World) (p : Pool)
    (hp : w.pools pool = some p) (hpool : pool ≠ null) (ha : 0 < p.alignment) (hn : 0 ≤ n) :
    (p.alignment ∣ pool_rounded p.alignment n ∧ n ≤ pool_rounded p.alignment n ∧
      ∀ m, p.alignment ∣ m → n ≤ m → pool_rounded p.alignment n ≤ m) ∧
    ((p.bytes_left < pool_rounded p.alignment n →
        Cycle_served pool (pool_cycle_new_block procs pool w)) →
      ∃ ref w1 p1, pool_get procs pool n w = Outcome.ok ref w1 ∧ w1.pools pool = some p1 ∧
        (p1.current_pos : Int) = (ref : Int) + pool_rounded p.alignment n ∧
        (¬ p.bytes_left < pool_rounded p.alignment n →
          ref = p.current_pos ∧ p1.current_memblock = p.current_memblock ∧
          p1.bytes_left = p.bytes_left - pool_rounded p.alignment n) ∧
        (p.bytes_left < pool_rounded p.alignment n →
          ref = p1.current_memblock ∧
          p1.bytes_left = p1.memblock_size - pool_rounded p.alignment n)) ∧
    (p.bytes_left < pool_rounded p.alignment n →
      ∀ wc q, pool_cycle_new_block procs pool w = Outcome.ok () wc →
        wc.pools pool = some q → q.current_memblock = null →
          pool_get procs pool n w = Outcome.ok null wc ∧
          q.bytes_left = q.memblock_size ∧ q.current_pos = null) := by
  have hr := pool_rounded_nonneg p.alignment n ha hn
  refine ⟨pool_rounded_least p.alignment n ha hn, fun hcycle => ?_,
    fun hlt wc q hc hq hnull => ?_⟩
  · by_cases hlt : p.bytes_left < pool_rounded p.alignment n
    · obtain ⟨wc, q, hc, hq, hnn⟩ := Cycle_served_ok pool _ (hcycle hlt)
      obtain ⟨q1, hq1, hpos, hleft⟩ := pool_cycle_post procs pool w wc hc
      rw [hq] at hq1
      injection hq1 with hq1
      subst hq1
      refine ⟨q.current_pos, wc.set_pool pool
        { q with current_pos := ((q.current_pos : Int) + pool_rounded p.alignment n).toNat,
                 bytes_left := q.bytes_left - pool_rounded p.alignment n }, _, ?_,
        set_pool_pools _ _ _, ?_, fun h => absurd hlt h, fun _ => ⟨hpos, ?_⟩⟩
      · rw [pool_get_cycled procs pool n w wc p q hp hpool (by omega) hlt hc hq, if_neg hnn]
        exact pool_get_bump_eq pool _ wc q hq (by omega)
      · show (((q.current_pos : Int) + pool_rounded p.alignment n).toNat : Int) = _
        omega
      · show q.bytes_left - pool_rounded p.alignment n =
          q.memblock_size - pool_rounded p.alignment n
        rw [hleft]
    · refine ⟨p.current_pos, w.set_pool pool
        { p with current_pos := ((p.current_pos : Int) + pool_rounded p.alignment n).toNat,
                 bytes_left := p.bytes_left - pool_rounded p.alignment n }, _, ?_,
        set_pool_pools _ _ _, ?_, fun _ => ⟨rfl, rfl, rfl⟩, fun h => absurd h hlt⟩
      · rw [pool_get_eq procs pool n w p hp hpool (by omega), if_neg hlt]
        exact pool_get_bump_eq pool _ w p hp (by omega)
      · show (((p.current_pos : Int) + pool_rounded p.alignment n).toNat : Int) = _
        omega
  · obtain ⟨q1, hq1, hpos, hleft⟩ := pool_cycle_post procs pool w wc hc
    rw [hq] at hq1
    injection hq1 with hq1
    subst hq1
    refine ⟨?_, hleft, by rw [hpos, hnull]⟩
    rw [pool_get_cycled procs pool n w wc p q hp hpool (by omega) hlt hc hq, if_pos hnull]

/-- C15: `pool_get` with rounded size `r`.  If `r <= bytes_left` there is no cycle: the
call returns the previous `current_pos`, and only `current_pos` and `bytes_left` of the
pool change (the current block stays, no request is made).  If `r > bytes_left` the call
runs `pool_cycle_new_block`: when that returns, the reference `pool_get` returns is the
start of the new current block (null when no block was obtained, and then nothing is
consumed); when it does not return, `pool_get` does not return either. -/
theorem pool_get_cycles (procs : Procs) (pool : Nat) (n : Int) (w : World) (p : Pool)
    (hp : w.pools pool = some p) (hpool : pool ≠ null) (ha : p.alignment ≠ 0)
    (hr : 0 ≤ pool_rounded p.alignment n) :
    (¬ p.bytes_left < pool_rounded p.alignment n →
      pool_get procs pool n w = Outcome.ok p.current_pos (w.set_pool pool
        { p with current_pos := ((p.current_pos : Int) + pool_rounded p.alignment n).toNat,
                 bytes_left := p.bytes_left - pool_rounded p.alignment n })) ∧
    (p.bytes_left < pool_rounded p.alignment n →
      (∀ wc, pool_cycle_new_block procs pool w = Outcome.ok () wc →
        ∃ q, wc.pools pool = some q ∧ q.current_pos = q.current_memblock ∧
          q.bytes_left = q.memblock_size ∧
          pool_get procs pool n w = Outcome.ok q.current_memblock
            (if q.current_memblock = null then wc
             else wc.set_pool pool
              { q with current_pos := ((q.current_pos : Int) + pool_rounded p.alignment n).toNat,
                       bytes_left := q.bytes_left - pool_rounded p.alignment n })) ∧
      (∀ wc, pool_cycle_new_block procs pool w = Outcome.fatal wc →
        pool_get procs pool n w = Outcome.fatal wc) ∧
      (pool_cycle_new_block procs pool w = Outcome.undefined →
        pool_get procs pool n w = Outcome.undefined)) := by
  refine ⟨fun hlt => ?_, fun hlt => ⟨fun wc hc => ?_, fun wc hc => ?_, fun hc => ?_⟩⟩
  · rw [pool_get_eq procs pool n w p hp hpool ha, if_neg hlt]
    exact pool_get_bump_eq pool _ w p hp (by omega)
  · obtain ⟨q, hq, hpos, hleft⟩ := pool_cycle_post procs pool w wc hc
    refine ⟨q, hq, hpos, hleft, ?_⟩
    rw [pool_get_cycled procs pool n w wc p q hp hpool ha hlt hc hq]
    by_cases hnull : q.current_memblock = null
    · rw [if_pos hnull, if_pos hnull, hnull]
    · rw [if_neg hnull, if_neg hnull, pool_get_bump_eq pool _ wc q hq (by omega), hpos]
  · rw [pool_get_eq procs pool n w p hp hpool ha, if_pos hlt]
    simp only [Exec.bind_apply, Exec.bind, hc]
  · rw [pool_get_eq procs pool n w p hp hpool ha, if_pos hlt]
    simp only [Exec.bind_apply, Exec.bind, hc]

/-! ## What `heap_allocator` and the operations of array.h leave alone -/

theorem HeapAlloc_pools (size : Int) (w w1 : World) (x : Nat)
    (h : HeapAlloc size w = Outcome.ok x w1) : w1.pools = w.pools := by
  unfold HeapAlloc at h
  split at h
  · injection h with _ h2; rw [← h2]
  · injection h with _ h2; rw [← h2]; rfl

theorem HeapFree_pools (p : Nat) (w w1 : World)
    (h : HeapFree p w = Outcome.ok () w1) : w1.pools = w.pools := by
  unfold HeapFree at h
  split at h
  · injection h with _ h2; rw [← h2]
  · split at h
    · cases h
    · injection h with _ h2; rw [← h2]; rfl

theorem load_ok_inv (p n : Nat) (w w1 : World) (bs : List u8)
    (h : load p n w = Outcome.ok bs w1) : w1 = w ∧ bs = w.bytes p n ∧ w.mapped p n := by
  unfold load at h
  split at h
  · rename_i hm
    injection h with h1 h2
    exact ⟨h2.symm, h1.symm, hm⟩
  · cases h

theorem store_ok_inv (p : Nat) (bs : List u8) (w w1 : World)
    (h : store p bs w = Outcome.ok () w1) : w1 = w.write p bs ∧ w.mapped p bs.length := by
  unfold store at h
  split at h
  · rename_i hm
    injection h with h1 h2
    exact ⟨h2.symm, hm⟩
  · cases h

theorem memcpy_pools (dst src : Nat) (n : Int) (w w1 : World)
    (h : memcpy dst src n w = Outcome.ok () w1) : w1.pools = w.pools := by
  unfold memcpy at h
  split at h
  · cases h
  · split at h
    · rw [(Exec.pure_ok_inv _ _ _ _ h).2]
    · split at h
      · cases h
      · split at h
        · cases h
        · obtain ⟨bs, wa, hl, hs⟩ := Exec.bind_ok_inv _ _ _ _ _ h
          rw [(store_ok_inv _ _ _ _ hs).1, (load_ok_inv _ _ _ _ _ hl).1]
          rfl

theorem heap_allocator_pools (mode : Allocator_Mode) (size old_size : Int) (old_memory d : Nat)
    (w w1 : World) (x : Nat)
    (h : heap_allocator mode size old_size old_memory d w = Outcome.ok x w1) :
    w1.pools = w.pools := by
  unfold heap_allocator at h
  cases mode <;> simp only [] at h
  · exact HeapAlloc_pools _ _ _ _ h
  · obtain ⟨r, wa, ha, h⟩ := Exec.bind_ok_inv _ _ _ _ _ h
    have hpa := HeapAlloc_pools _ _ _ _ ha
    split at h
    · rw [(Exec.pure_ok_inv _ _ _ _ h).2, hpa]
    · split at h
      · obtain ⟨_, wb, hm, h⟩ := Exec.bind_ok_inv _ _ _ _ _ h
        obtain ⟨_, wc, hf, h⟩ := Exec.bind_ok_inv _ _ _ _ _ h
        rw [(Exec.pure_ok_inv _ _ _ _ h).2, HeapFree_pools _ _ _ hf, memcpy_pools _ _ _ _ _ hm, hpa]
      · rw [(Exec.pure_ok_inv _ _ _ _ h).2, hpa]
  · obtain ⟨_, wa, hf, h⟩ := Exec.bind_ok_inv _ _ _ _ _ h
    rw [(Exec.pure_ok_inv _ _ _ _ h).2, HeapFree_pools _ _ _ hf]
  · obtain ⟨_, wa, hf, h⟩ := Exec.bind_ok_inv _ _ _ _ _ h
    rw [(Exec.pure_ok_inv _ _ _ _ h).2, (assert_ok _ _ _ _ _ hf).2.1]

theorem heap_call_pools (procs : Procs) (a : Allocator) (mode : Allocator_Mode)
    (size old_size : Int) (old_memory : Nat) (w w1 : World) (x : Nat)
    (hprocs : procs Proc_Ptr.heap_allocator = heap_allocator)
    (ha : a.proc = some Proc_Ptr.heap_allocator)
    (h : a.call procs mode size old_size old_memory w = Outcome.ok x w1) :
    w1.pools = w.pools := by
  unfold Allocator.call at h
  rw [ha] at h
  simp only [hprocs] at h
  rw [heap_allocator_pools _ _ _ _ _ _ _ _ h]
  rfl

theorem store_elem_pools {T : Type} [Layout T] (data : Nat) (i : Int) (v : T) (w w1 : World)
    (h : store_elem data i v w = Outcome.ok () w1) : w1.pools = w.pools := by
  unfold store_elem at h
  split at h
  · cases h
  · cases he : elem_ptr T data i with
    | none => rw [he] at h; cases h
    | some p =>
      rw [he] at h
      rw [(store_ok_inv _ _ _ _ h).1]
      rfl

theorem array_add_heap_pools {T : Type} [Layout T] (procs : Procs) (arr arr1 : Array T) (v : T)
    (w w1 : World) (hprocs : procs Proc_Ptr.heap_allocator = heap_allocator)
    (hproc : arr.allocator.proc = none ∨ arr.allocator.proc = some Proc_Ptr.heap_allocator)
    (h : array_add procs arr v w = Outcome.ok arr1 w1) :
    w1.pools = w.pools ∧
      (arr1.allocator.proc = none ∨ arr1.allocator.proc = some Proc_Ptr.heap_allocator) := by
  obtain ⟨arr0, w0, hres, hst, harr1⟩ := array_add_ok procs arr arr1 v w w1 h
  have hs := store_elem_pools _ _ _ _ _ hst
  have hal : arr1.allocator = arr0.allocator := by rw [harr1]
  by_cases hge : arr.count ≥ arr.allocated
  · rw [if_pos hge] at hres
    rcases array_reserve_ok procs arr arr0 _ w w0 hres with ⟨_, ha, hw⟩ | ⟨_, p, wc, hcall, hassert, hcase⟩
    · rw [hs, hw, hal, ha]
      exact ⟨rfl, hproc⟩
    · have hp := heap_call_pools procs _ _ _ _ _ _ _ _ hprocs (or_heap_proc _ hproc) hcall
      have hap := (assert_ok _ _ _ _ _ hassert).2.1
      refine ⟨by rw [hs, hap, hp], Or.inr ?_⟩
      rw [hal]
      rcases hcase with ⟨_, ha⟩ | ⟨_, ha⟩ <;> rw [ha] <;> exact or_heap_proc _ hproc
  · rw [if_neg hge] at hres
    injection hres with ha hw
    rw [hs, ← hw, hal, ← ha]
    exact ⟨rfl, hproc⟩

theorem operator_index_ok {T : Type} [Layout T] (arr : Array T) (i : Int) (w w1 : World) (r : Nat)
    (h : arr.operator_index i w = Outcome.ok r w1) :
    w1.pools = w.pools ∧ w1.mem = w.mem ∧ w1.requests = w.requests ∧
      w1.heap_size = w.heap_size ∧ w1.heap_next = w.heap_next ∧ w1.heap_avail = w.heap_avail ∧
      elem_ptr T arr.data i = some r := by
  unfold Array.operator_index at h
  obtain ⟨_, wa, h1, h⟩ := Exec.bind_ok_inv _ _ _ _ _ h
  obtain ⟨_, wb, h2, h⟩ := Exec.bind_ok_inv _ _ _ _ _ h
  obtain ⟨_, wc, h3, h⟩ := Exec.bind_ok_inv _ _ _ _ _ h
  obtain ⟨a1, a2, a3, _, a5, a6, a7⟩ := assert_ok _ _ _ _ _ h1
  obtain ⟨b1, b2, b3, _, b5, b6, b7⟩ := assert_ok _ _ _ _ _ h2
  obtain ⟨c1, c2, c3, _, c5, c6, c7⟩ := assert_ok _ _ _ _ _ h3
  cases he : elem_ptr T arr.data i with
  | none => rw [he] at h; cases h
  | some p =>
    rw [he] at h
    obtain ⟨hr, hw⟩ := Exec.pure_ok_inv _ _ _ _ h
    rw [hw, hr]
    exact ⟨by rw [c2, b2, a2], by rw [c1, b1, a1], by rw [c3, b3, a3], by rw [c5, b5, a5],
      by rw [c6, b6, a6], by rw [c7, b7, a7], rfl⟩

theorem load_ref_ok {T : Type} [Layout T] (p : Nat) (w w1 : World) (x : T)
    (h : (load_ref p : Exec T) w = Outcome.ok x w1) :
    w1 = w ∧ p ≠ null ∧ w.mapped p (Layout.size_of T) ∧
      x = Layout.decode (w.bytes p (Layout.size_of T)) := by
  unfold load_ref at h
  split at h
  · cases h
  · rename_i hp
    obtain ⟨bs, wa, hl, h⟩ := Exec.bind_ok_inv _ _ _ _ _ h
    obtain ⟨hw, hbs, hm⟩ := load_ok_inv _ _ _ _ _ hl
    obtain ⟨hx, hw1⟩ := Exec.pure_ok_inv _ _ _ _ h
    exact ⟨by rw [hw1, hw], hp, hm, by rw [hx, hbs]⟩

/-! ## The invariant of the current block -/

theorem pool_inv_keep (w w1 : World) (pool : Nat) (h : w1.pools = w.pools)
    (hJ : w.pool_inv pool) : w1.pool_inv pool := by
  obtain ⟨p, hp, hk⟩ := hJ
  exact ⟨p, by rw [h]; exact hp, hk⟩

theorem pool_inv_set (w : World) (pool : Nat) (p : Pool) (h1 : p.on_heap) (h2 : p.block_inv) :
    (w.set_pool pool p).pool_inv pool :=
  ⟨p, set_pool_pools _ _ _, h1, h2⟩

theorem pool_get_bump_inv (pool : Nat) (r : Int) (w w1 : World) (ref : Nat)
    (hJ : w.pool_inv pool) (h : pool_get_bump pool r w = Outcome.ok ref w1) :
    w1.pool_inv pool := by
  obtain ⟨p, hp, hheap, hinv⟩ := hJ
  unfold pool_get_bump at h
  replace h := Exec.bind_ok_inv _ _ _ _ _ h
  obtain ⟨p0, w0, hd, h⟩ := h
  obtain ⟨hp0, hw0⟩ := deref_ok_inv _ _ _ _ hd
  subst hw0
  rw [hp] at hp0
  injection hp0 with hp0
  subst hp0
  split at h
  · cases h
  · rename_i hnn
    replace h := Exec.bind_ok_inv _ _ _ _ _ h
    obtain ⟨_, wa, hm, h⟩ := h
    obtain ⟨q, hq, hwa⟩ := modify_ok_inv _ _ _ _ hm
    rw [hp] at hq
    injection hq with hq
    subst hq
    rw [(Exec.pure_ok_inv _ _ _ _ h).2, hwa]
    refine pool_inv_set _ _ _ hheap ?_
    intro hc
    have := hinv hc
    show p.bytes_left - r = p.memblock_size - ((((p.current_pos : Int) + r).toNat : Int) - (p.current_memblock : Int))
    omega

theorem pool_cycle_inv (procs : Procs) (pool : Nat) (w w1 : World)
    (hprocs : procs Proc_Ptr.heap_allocator = heap_allocator)
    (hJ : w.pool_inv pool) (h : pool_cycle_new_block procs pool w = Outcome.ok () w1) :
    w1.pool_inv pool := by
  obtain ⟨p, hp, hheap, hinv⟩ := hJ
  have hlast : ∀ (nb : Nat) (wz : World) (q : Pool), wz.pools pool = some q → q.on_heap →
      Pool.modify pool (fun q =>
        { q with bytes_left := q.memblock_size, current_memblock := nb, current_pos := nb }) wz =
          Outcome.ok () w1 → w1.pool_inv pool := by
    intro nb wz q hq hqh hm
    obtain ⟨q1, hq1, hw1⟩ := modify_ok_inv _ _ _ _ hm
    rw [hq] at hq1
    injection hq1 with hq1
    subst hq1
    rw [hw1]
    refine pool_inv_set _ _ _ hqh ?_
    intro _
    show q.memblock_size = q.memblock_size - (((nb : Nat) : Int) - ((nb : Nat) : Int))
    omega
  unfold pool_cycle_new_block at h
  replace h := Exec.bind_ok_inv _ _ _ _ _ h
  obtain ⟨p0, w0, hd, h⟩ := h
  obtain ⟨hp0, hw0⟩ := deref_ok_inv _ _ _ _ hd
  subst hw0
  rw [hp] at hp0
  injection hp0 with hp0
  subst hp0
  simp only [] at h
  have hproc : ¬ (p.block_allocator.proc = none) := by rw [hheap.1]; simp
  rw [if_neg hproc] at h
  replace h := Exec.bind_ok_inv _ _ _ _ _ h
  obtain ⟨_, wa, hpu, h⟩ := h
  have hwa := (Exec.pure_ok_inv _ _ _ _ hpu).2
  subst hwa
  split at h
  · rename_i hc
    replace h := Exec.bind_ok_inv _ _ _ _ _ h
    obtain ⟨popped, wb, hpop, h⟩ := h
    replace h := Exec.bind_ok_inv _ _ _ _ _ h
    obtain ⟨_, wc, hm, h⟩ := h
    replace h := Exec.bind_ok_inv _ _ _ _ _ h
    obtain ⟨y, wd, hpu2, h⟩ := h
    have hwd := (Exec.pure_ok_inv _ _ _ _ hpu2).2
    subst hwd
    obtain ⟨b, x, arr1⟩ := popped
    rcases array_pop_ok _ _ _ _ _ _ _ hpop with ⟨h0, _⟩ | ⟨_, _, harr1, hwb⟩
    · exact absurd h0 hc
    · subst hwb
      obtain ⟨q, hq, hwc⟩ := modify_ok_inv _ _ _ _ hm
      rw [hp] at hq
      injection hq with hq
      subst hq
      refine hlast _ _ _ (by rw [hwc]; exact set_pool_pools _ _ _) ?_ h
      refine ⟨hheap.1, ?_⟩
      show arr1.allocator.proc = none ∨ arr1.allocator.proc = _
      rw [harr1]
      exact hheap.2
  · obtain ⟨_, wb, has, h⟩ := Exec.bind_ok_inv _ _ _ _ _ h
    replace h := Exec.bind_ok_inv _ _ _ _ _ h
    obtain ⟨y, wc, hcall, h⟩ := h
    have h1 := (assert_ok _ _ _ _ _ has).2.1
    have h2 := heap_call_pools procs _ _ _ _ _ _ _ _ hprocs hheap.1 hcall
    exact hlast _ _ p (by rw [h2, h1]; exact hp) hheap h

theorem pool_get_inv (procs : Procs) (pool : Nat) (n : Int) (w w1 : World) (ref : Nat)
    (hprocs : procs Proc_Ptr.heap_allocator = heap_allocator)
    (hJ : w.pool_inv pool) (h : pool_get procs pool n w = Outcome.ok ref w1) :
    w1.pool_inv pool := by
  unfold pool_get at h
  replace h := Exec.bind_ok_inv _ _ _ _ _ h
  obtain ⟨_, wa, has, h⟩ := h
  have hJa := pool_inv_keep w wa pool (assert_ok _ _ _ _ _ has).2.1 hJ
  replace h := Exec.bind_ok_inv _ _ _ _ _ h
  obtain ⟨p, wb, hd, h⟩ := h
  obtain ⟨hp, hwb⟩ := deref_ok_inv _ _ _ _ hd
  subst hwb
  split at h
  · cases h
  · simp only [] at h
    split at h
    · obtain ⟨_, wc, hc, h⟩ := Exec.bind_ok_inv _ _ _ _ _ h
      have hJc := pool_cycle_inv procs pool _ _ hprocs hJa hc
      replace h := Exec.bind_ok_inv _ _ _ _ _ h
      obtain ⟨q, wd, hd2, h⟩ := h
      have hwd := (deref_ok_inv _ _ _ _ hd2).2
      subst hwd
      split at h
      · rw [(Exec.pure_ok_inv _ _ _ _ h).2]
        exact hJc
      · exact pool_get_bump_inv pool _ _ _ _ hJc h
    · exact pool_get_bump_inv pool _ _ _ _ hJa h

theorem pool_reset_loop_inv (procs : Procs) (pool : Nat)
    (hprocs : procs Proc_Ptr.heap_allocator = heap_allocator) :
    ∀ (n : Nat) (i : Int) (w w1 : World), w.pool_inv pool →
      pool_reset_loop procs pool n i w = Outcome.ok () w1 → w1.pool_inv pool := by
  intro n
  induction n with
  | zero =>
    intro i w w1 hJ h
    unfold pool_reset_loop at h
    rw [(Exec.pure_ok_inv _ _ _ _ h).2]
    exact hJ
  | succ n ih =>
    intro i w w1 hJ h
    unfold pool_reset_loop at h
    replace h := Exec.bind_ok_inv _ _ _ _ _ h
    obtain ⟨p, wa, hd, h⟩ := h
    obtain ⟨hp, hwa⟩ := deref_ok_inv _ _ _ _ hd
    subst hwa
    split at h
    · obtain ⟨ref, wb, hoi, h⟩ := Exec.bind_ok_inv _ _ _ _ _ h
      replace h := Exec.bind_ok_inv _ _ _ _ _ h
      obtain ⟨it, wc, hlr, h⟩ := h
      replace h := Exec.bind_ok_inv _ _ _ _ _ h
      obtain ⟨q, wd, hd2, h⟩ := h
      replace h := Exec.bind_ok_inv _ _ _ _ _ h
      obtain ⟨unused, we, hadd, h⟩ := h
      replace h := Exec.bind_ok_inv _ _ _ _ _ h
      obtain ⟨_, wf, hm, h⟩ := h
      have hwc := (load_ref_ok _ _ _ _ hlr).1
      subst hwc
      obtain ⟨hq, hwd⟩ := deref_ok_inv _ _ _ _ hd2
      subst hwd
      have hJb := pool_inv_keep _ _ pool (operator_index_ok _ _ _ _ _ hoi).1 hJ
      obtain ⟨q1, hq1, hheap, hinv⟩ := hJb
      rw [hq] at hq1
      injection hq1 with hq1
      subst hq1
      obtain ⟨hpe, hal⟩ := array_add_heap_pools procs _ _ _ _ _ hprocs hheap.2 hadd
      obtain ⟨q2, hq2, hwf⟩ := modify_ok_inv _ _ _ _ hm
      rw [hpe, hq] at hq2
      injection hq2 with hq2
      subst hq2
      refine ih _ _ _ ?_ h
      rw [hwf]
      exact pool_inv_set _ _ _ ⟨hheap.1, hal⟩ hinv
    · rw [(Exec.pure_ok_inv _ _ _ _ h).2]
      exact hJ

theorem pool_reset_inv (procs : Procs) (pool : Nat) (w w1 : World)
    (hprocs : procs Proc_Ptr.heap_allocator = heap_allocator)
    (hJ : w.pool_inv pool) (h : pool_reset procs pool w = Outcome.ok () w1) :
    w1.pool_inv pool := by
  have hrest : ∀ wy : World, wy.pool_inv pool →
      (do
        let p ← Pool.deref pool
        pool_reset_loop procs pool p.used_memblocks.count.toNat 0
        Pool.modify pool fun q =>
          { q with used_memblocks := { q.used_memblocks with count := 0 } }) wy =
        Outcome.ok () w1 → w1.pool_inv pool := by
    intro wy hJy hy
    replace hy := Exec.bind_ok_inv _ _ _ _ _ hy
    obtain ⟨p, wa, hd, hy⟩ := hy
    have hwa := (deref_ok_inv _ _ _ _ hd).2
    subst hwa
    replace hy := Exec.bind_ok_inv _ _ _ _ _ hy
    obtain ⟨_, wb, hl, hy⟩ := hy
    obtain ⟨q, hq, hheap, hinv⟩ := pool_reset_loop_inv procs pool hprocs _ _ _ _ hJy hl
    obtain ⟨q1, hq1, hw1⟩ := modify_ok_inv _ _ _ _ hy
    rw [hq] at hq1
    injection hq1 with hq1
    subst hq1
    rw [hw1]
    exact pool_inv_set _ _ _ hheap hinv
  obtain ⟨p, hp, hheap, hinv⟩ := hJ
  unfold pool_reset at h
  replace h := Exec.bind_ok_inv _ _ _ _ _ h
  obtain ⟨p0, w0, hd, h⟩ := h
  obtain ⟨hp0, hw0⟩ := deref_ok_inv _ _ _ _ hd
  subst hw0
  rw [hp] at hp0
  injection hp0 with hp0
  subst hp0
  simp only [] at h
  split at h
  · obtain ⟨unused, wa, hadd, h⟩ := Exec.bind_ok_inv _ _ _ _ _ h
    replace h := Exec.bind_ok_inv _ _ _ _ _ h
    obtain ⟨_, wb, hm, h⟩ := h
    obtain ⟨hpe, hal⟩ := array_add_heap_pools procs _ _ _ _ _ hprocs hheap.2 hadd
    obtain ⟨q2, hq2, hwb⟩ := modify_ok_inv _ _ _ _ hm
    rw [hpe, hp] at hq2
    injection hq2 with hq2
    subst hq2
    refine hrest wb ?_ h
    rw [hwb]
    exact pool_inv_set _ _ _ ⟨hheap.1, hal⟩ (fun hc => absurd rfl hc)
  · obtain ⟨_, wa, hpu, h⟩ := Exec.bind_ok_inv _ _ _ _ _ h
    have hwa := (Exec.pure_ok_inv _ _ _ _ hpu).2
    subst hwa
    exact hrest _ ⟨p, hp, hheap, hinv⟩ h

theorem pool_release_loop_inv (procs : Procs) (pool : Nat)
    (hprocs : procs Proc_Ptr.heap_allocator = heap_allocator) :
    ∀ (n : Nat) (i : Int) (w w1 : World), w.pool_inv pool →
      pool_release_loop procs pool n i w = Outcome.ok () w1 → w1.pool_inv pool := by
  intro n
  induction n with
  | zero =>
    intro i w w1 hJ h
    unfold pool_release_loop at h
    rw [(Exec.pure_ok_inv _ _ _ _ h).2]
    exact hJ
  | succ n ih =>
    intro i w w1 hJ h
    unfold pool_release_loop at h
    replace h := Exec.bind_ok_inv _ _ _ _ _ h
    obtain ⟨p, wa, hd, h⟩ := h
    obtain ⟨hp, hwa⟩ := deref_ok_inv _ _ _ _ hd
    subst hwa
    split at h
    · obtain ⟨ref, wb, hoi, h⟩ := Exec.bind_ok_inv _ _ _ _ _ h
      replace h := Exec.bind_ok_inv _ _ _ _ _ h
      obtain ⟨it, wc, hlr, h⟩ := h
      replace h := Exec.bind_ok_inv _ _ _ _ _ h
      obtain ⟨_, wd, hcall, h⟩ := h
      have hwc := (load_ref_ok _ _ _ _ hlr).1
      subst hwc
      obtain ⟨q1, hq1, hheap, hinv⟩ := hJ
      rw [hp] at hq1
      injection hq1 with hq1
      subst hq1
      have h2 := heap_call_pools procs _ _ _ _ _ _ _ _ hprocs hheap.1 hcall
      refine ih _ _ _ ?_ h
      exact pool_inv_keep _ _ pool (by rw [h2, (operator_index_ok _ _ _ _ _ hoi).1])
        ⟨p, hp, hheap, hinv⟩
    · rw [(Exec.pure_ok_inv _ _ _ _ h).2]
      exact hJ

theorem pool_release_inv (procs : Procs) (pool : Nat) (w w1 : World)
    (hprocs : procs Proc_Ptr.heap_allocator = heap_allocator)
    (hJ : w.pool_inv pool) (h : pool_release procs pool w = Outcome.ok () w1) :
    w1.pool_inv pool := by
  unfold pool_release at h
  replace h := Exec.bind_ok_inv _ _ _ _ _ h
  obtain ⟨_, wa, hr, h⟩ := h
  have hJa := pool_reset_inv procs pool _ _ hprocs hJ hr
  replace h := Exec.bind_ok_inv _ _ _ _ _ h
  obtain ⟨p, wb, hd, h⟩ := h
  have hwb := (deref_ok_inv _ _ _ _ hd).2
  subst hwb
  replace h := Exec.bind_ok_inv _ _ _ _ _ h
  obtain ⟨_, wc, has, h⟩ := h
  have hJc := pool_inv_keep _ wc pool (assert_ok _ _ _ _ _ has).2.1 hJa
  replace h := Exec.bind_ok_inv _ _ _ _ _ h
  obtain ⟨_, wd, hl, h⟩ := h
  obtain ⟨q, hq, hheap, hinv⟩ := pool_release_loop_inv procs pool hprocs _ _ _ _ hJc hl
  obtain ⟨q1, hq1, hw1⟩ := modify_ok_inv _ _ _ _ h
  rw [hq] at hq1
  injection hq1 with hq1
  subst hq1
  rw [hw1]
  exact pool_inv_set _ _ _ hheap hinv

theorem pool_init_inv (pool : Nat) (block_size alignment : Int) (w w1 : World)
    (h : pool_init pool block_size alignment w = Outcome.ok () w1) : w1.pool_inv pool := by
  unfold pool_init at h
  replace h := Exec.bind_ok_inv _ _ _ _ _ h
  obtain ⟨_, wa, hm, h⟩ := h
  obtain ⟨q, hq, hwa⟩ := modify_ok_inv _ _ _ _ hm
  unfold set_allocators at h
  obtain ⟨q1, hq1, hw1⟩ := modify_ok_inv _ _ _ _ h
  rw [hwa, set_pool_pools] at hq1
  injection hq1 with hq1
  subst hq1
  rw [hw1]
  exact pool_inv_set _ _ _ ⟨rfl, Or.inr rfl⟩ (fun hc => absurd rfl hc)

theorem pool_calls_inv (procs : Procs) (pool : Nat)
    (hprocs : procs Proc_Ptr.heap_allocator = heap_allocator) :
    ∀ (calls : List Pool_Call) (w w1 : World), w.pool_inv pool →
      pool_calls procs pool calls w = Outcome.ok () w1 → w1.pool_inv pool := by
  intro calls
  induction calls with
  | nil =>
    intro w w1 hJ h
    unfold pool_calls at h
    rw [(Exec.pure_ok_inv _ _ _ _ h).2]
    exact hJ
  | cons c rest ih =>
    intro w w1 hJ h
    unfold pool_calls at h
    replace h := Exec.bind_ok_inv _ _ _ _ _ h
    obtain ⟨_, wa, hc, h⟩ := h
    refine ih _ _ ?_ h
    cases c with
    | get n =>
      unfold pool_call at hc
      replace hc := Exec.bind_ok_inv _ _ _ _ _ hc
      obtain ⟨ref, wb, hg, hc⟩ := hc
      rw [(Exec.pure_ok_inv _ _ _ _ hc).2]
      exact pool_get_inv procs pool n _ _ ref hprocs hJ hg
    | reset => exact pool_reset_inv procs pool _ _ hprocs hJ hc
    | release => exact pool_release_inv procs pool _ _ hprocs hJ hc

/-- C16: in every state reached from `pool_init` by a sequence of `pool_get`, `pool_reset`
and `pool_release` calls (the allocator behind the pool is `heap_allocator`, as `pool_init`
sets it), the pool satisfies: whenever `current_memblock` is not null,
`bytes_left == memblock_size - (current_pos - current_memblock)`. -/
theorem pool_block_invariant (procs : Procs) (pool : Nat) (block_size alignment : Int)
    (calls : List Pool_Call) (w w1 : World)
    (hprocs : procs Proc_Ptr.heap_allocator = heap_allocator)
    (h : (pool_init pool block_size alignment >>= fun _ => pool_calls procs pool calls) w =
      Outcome.ok () w1) :
    ∃ p, w1.pools pool = some p ∧
      (p.current_memblock ≠ null →
        p.bytes_left = p.memblock_size - ((p.current_pos : Int) - (p.current_memblock : Int))) := by
  replace h := Exec.bind_ok_inv _ _ _ _ _ h
  obtain ⟨_, wa, hi, h⟩ := h
  obtain ⟨p, hp, _, hinv⟩ :=
    pool_calls_inv procs pool hprocs calls _ _ (pool_init_inv pool block_size alignment _ _ hi) h
  exact ⟨p, hp, hinv⟩

/-! ## The pool at concrete inputs -/

/-- The example of C14: block size 64, alignment 8, the first `pool_get(10)` consumes 16
bytes and leaves `bytes_left == 48`. -/
theorem pool_get_consumes_witness :
    (∃ w1 p1, pool_get (linked_procs 1) 1000 10 (pool_example_start Assert_Mode.terminate) =
        Outcome.ok 1 w1 ∧ w1.pools 1000 = some p1 ∧ pool_rounded 8 10 = 16 ∧
        p1.bytes_left = 48 ∧ p1.current_pos = 17 ∧ p1.current_memblock = 1) ∧
    Cycle_served 1000
      (pool_cycle_new_block (linked_procs 1) 1000 (pool_example_start Assert_Mode.terminate)) ∧
    ((8 : Int) ∣ pool_rounded 8 10 ∧ 10 ≤ pool_rounded 8 10 ∧
      ∀ m, (8 : Int) ∣ m → 10 ≤ m → pool_rounded 8 10 ≤ m) ∧
    ∃ ref w1 p1, pool_get (linked_procs 1) 1000 10 (pool_example_start Assert_Mode.terminate) =
        Outcome.ok ref w1 ∧ w1.pools 1000 = some p1 ∧
      (p1.current_pos : Int) = (ref : Int) + pool_rounded 8 10 ∧
      (¬ (0 : Int) < pool_rounded 8 10 →
        ref = null ∧ p1.current_memblock = null ∧ p1.bytes_left = 0 - pool_rounded 8 10) ∧
      ((0 : Int) < pool_rounded 8 10 →
        ref = p1.current_memblock ∧ p1.bytes_left = p1.memblock_size - pool_rounded 8 10) :=
  ⟨⟨_, _, rfl, rfl, by decide, by decide, by decide, by decide⟩, by decide,
    (pool_get_consumes (linked_procs 1) 1000 10 (pool_example_start Assert_Mode.terminate)
      { memblock_size := 64, alignment := 8 } rfl (by decide) (by decide) (by decide)).1,
    (pool_get_consumes (linked_procs 1) 1000 10 (pool_example_start Assert_Mode.terminate)
      { memblock_size := 64, alignment := 8 } rfl (by decide) (by decide) (by decide)).2.1
      (fun _ => by decide)⟩

/-- C14 as stated fails: with block size 64 and alignment 8 on a process heap that cannot
supply another byte, `pool_get(pool, 10)` cycles, the Allocate request for the block is
answered with null, and `pool_get` returns null: `bytes_left` is `memblock_size = 64`, not
`64 - 16`, and `current_pos` is null, not advanced by 16. -/
theorem pool_get_null_consumes_nothing :
    ∃ w1 p1, pool_get (linked_procs 1) 1000 10 starved_pool_world = Outcome.ok null w1 ∧
      w1.pools 1000 = some p1 ∧ pool_rounded 8 10 = 16 ∧
      (w1.requests.map fun r => (r.mode, r.size)) = [(Allocator_Mode.ALLOCATOR_ALLOCATE, 64)] ∧
      p1.memblock_size = 64 ∧ p1.bytes_left = 64 ∧ p1.current_pos = null ∧
      p1.bytes_left ≠ p1.memblock_size - pool_rounded 8 10 :=
  ⟨_, _, rfl, rfl, by decide, by decide, by decide, by decide, by decide, by decide⟩

/-- The example of C15: block size 64, alignment 8; after `pool_get(10)`, 48 bytes are left
and `pool_get(50)`, rounded to 56, cycles to a new block, at address 66. -/
theorem pool_get_cycles_witness :
    (pool_example_second.pools 1000 = some pool_example_pool ∧
      pool_rounded pool_example_pool.alignment 50 = 56 ∧
      (pool_get (linked_procs 1) 1000 50 pool_example_second).val? = some 66) ∧
    (¬ pool_example_pool.bytes_left < pool_rounded pool_example_pool.alignment 40 →
      pool_get (linked_procs 1) 1000 40 pool_example_second =
        Outcome.ok pool_example_pool.current_pos (pool_example_second.set_pool 1000
          { pool_example_pool with
            current_pos := ((pool_example_pool.current_pos : Int) +
              pool_rounded pool_example_pool.alignment 40).toNat,
            bytes_left := pool_example_pool.bytes_left -
              pool_rounded pool_example_pool.alignment 40 })) ∧
    (∀ wc, pool_cycle_new_block (linked_procs 1) 1000 pool_example_second = Outcome.ok () wc →
      ∃ q, wc.pools 1000 = some q ∧ q.current_pos = q.current_memblock ∧
        q.bytes_left = q.memblock_size ∧
        pool_get (linked_procs 1) 1000 50 pool_example_second = Outcome.ok q.current_memblock
          (if q.current_memblock = null then wc
           else wc.set_pool 1000
            { q with
              current_pos := ((q.current_pos : Int) +
                pool_rounded pool_example_pool.alignment 50).toNat,
              bytes_left := q.bytes_left - pool_rounded pool_example_pool.alignment 50 })) :=
  ⟨⟨rfl, by decide, rfl⟩,
    (pool_get_cycles (linked_procs 1) 1000 40 pool_example_second pool_example_pool rfl
      (by decide) (by decide) (by decide)).1,
    ((pool_get_cycles (linked_procs 1) 1000 50 pool_example_second pool_example_pool rfl
      (by decide) (by decide) (by decide)).2 (by decide)).1⟩

/-! ## What a Resize of `heap_allocator` leaves alone -/

theorem heap_resized_frame (w : World) (size old_size : Int) (old_memory : Nat) :
    (w.heap_resized size old_size old_memory).pools = w.pools ∧
    (w.heap_resized size old_size old_memory).asserts = w.asserts ∧
    (w.heap_resized size old_size old_memory).output = w.output ∧
    (w.heap_resized size old_size old_memory).heap_next = w.heap_next + 1 + size.toNat ∧
    (∀ a, a ≤ w.heap_next →
      (∀ n, w.heap_size old_memory = some n → a < old_memory ∨ old_memory + n ≤ a) →
      (w.heap_resized size old_size old_memory).mem a = w.mem a) ∧
    (∀ b, b ≤ w.heap_next → b ≠ old_memory →
      (w.heap_resized size old_size old_memory).heap_size b = w.heap_size b) := by
  unfold World.heap_resized
  split
  · refine ⟨rfl, rfl, rfl, rfl, fun a ha hout => ?_, fun b hb hne => ?_⟩
    · simp only [World.heap_remove, World.write, World.heap_add]
      have hno : ¬ (old_memory ≤ a ∧ a < old_memory + (w.heap_size old_memory).getD 0) := by
        cases hs : w.heap_size old_memory with
        | none => simp
        | some n =>
          have := hout n hs
          simp only [Option.getD_some]
          omega
      rw [if_neg hno, if_neg (by omega), if_neg (by omega)]
    · simp only [World.heap_remove, World.write, World.heap_add]
      rw [if_neg hne, if_neg (by omega)]
  · refine ⟨rfl, rfl, rfl, rfl, fun a ha _ => ?_, fun b hb _ => ?_⟩
    · simp only [World.heap_add]
      rw [if_neg (by omega)]
    · simp only [World.heap_add]
      rw [if_neg (by omega)]

/-- The state a Resize request through `a` leaves when `heap_allocator` serves it. -/
theorem heap_call_resize_eq (procs : Procs) (a : Allocator) (w : World) (size old_size : Int)
    (old_memory : Nat) (hprocs : procs Proc_Ptr.heap_allocator = heap_allocator)
    (ha : a.proc = some Proc_Ptr.heap_allocator)
    (hok : w.heap_ok) (hav : w.heap_avail = none) (hle : old_size ≤ size)
    (hblock : w.heap_block old_memory old_size) :
    a.call procs Allocator_Mode.ALLOCATOR_RESIZE size old_size old_memory w =
      Outcome.ok (w.heap_next + 1)
        ((w.request ⟨Proc_Ptr.heap_allocator, Allocator_Mode.ALLOCATOR_RESIZE, size, old_size,
          old_memory, a.data⟩).heap_resized size old_size old_memory) := by
  have hcall : a.call procs Allocator_Mode.ALLOCATOR_RESIZE size old_size old_memory w =
      heap_allocator Allocator_Mode.ALLOCATOR_RESIZE size old_size old_memory a.data
        (w.request ⟨Proc_Ptr.heap_allocator, Allocator_Mode.ALLOCATOR_RESIZE, size, old_size,
          old_memory, a.data⟩) := by
    unfold Allocator.call
    rw [ha]
    simp only [hprocs]
  rw [hcall, heap_allocator_resize (w.request _) size old_size old_memory a.data hok hav hle hblock]
  rfl

/-! ## Appending to a heap-backed array: what else is left alone -/

theorem grown_from_refl {T : Type} [Layout T] (arr : Array T) (w : World)
    (hb : arr.heap_backed w) : arr.grown_from w arr w :=
  ⟨hb, rfl, le_refl _, ⟨[], by simp, by simp⟩, fun _ _ _ => rfl, fun _ _ _ => rfl,
    Or.inl ⟨rfl, rfl⟩⟩

theorem grown_from_trans {T : Type} [Layout T] (a0 a1 a2 : Array T) (w0 w1 w2 : World)
    (h01 : a0.grown_from w0 a1 w1)
    (h12 : a1.grown_from w1 a2 w2) : a0.grown_from w0 a2 w2 := by
  obtain ⟨_, has1, hn1, ⟨rs1, hr1, hm1⟩, hmem1, hheap1, hloc1⟩ := h01
  obtain ⟨hb2, has2, hn2, ⟨rs2, hr2, hm2⟩, hmem2, hheap2, hloc2⟩ := h12
  refine ⟨hb2, by rw [has2, has1], by omega, ⟨rs1 ++ rs2, by rw [hr2, hr1, List.append_assoc], ?_⟩,
    fun a ha hoff => ?_, fun b hb hne => ?_, ?_⟩
  · intro r hr
    rcases List.mem_append.mp hr with h | h
    · exact hm1 r h
    · exact hm2 r h
  · rw [← hmem1 a ha hoff]
    apply hmem2 a (by omega)
    rcases hloc1 with ⟨hd, hs⟩ | hlt
    · intro n hn
      rw [hd] at hn ⊢
      rw [hd] at hs
      rw [hs] at hn
      exact hoff n hn
    · intro n _
      left
      omega
  · rw [← hheap1 b hb hne]
    apply hheap2 b (by omega)
    rcases hloc1 with ⟨hd, _⟩ | hlt
    · rw [hd]; exact hne
    · omega
  · rcases hloc2 with ⟨hd2, hs2⟩ | hlt2
    · rcases hloc1 with ⟨hd1, hs1⟩ | hlt1
      · exact Or.inl ⟨by rw [hd2, hd1], by rw [hs2, hs1]⟩
      · exact Or.inr (by rw [hd2]; exact hlt1)
    · exact Or.inr (by omega)

/-- One `array_add` on a heap-backed array: it completes, the item is the new last element,
the elements before it are kept, and outside the array's own storage nothing below the old
top of the heap changes. -/
theorem array_add_heap_frame {T : Type} [Layout T] (procs : Procs) (arr : Array T) (v : T)
    (w : World) (hprocs : procs Proc_Ptr.heap_allocator = heap_allocator)
    (hb : arr.heap_backed w) :
    ∃ arr1 w1, array_add procs arr v w = Outcome.ok arr1 w1 ∧ arr.grown_from w arr1 w1 ∧
      w1.pools = w.pools ∧ arr1.count = arr.count + 1 ∧ arr1.get? w1 arr.count = some v ∧
      ∀ i, 0 ≤ i → i < arr.count → arr1.get? w1 i = arr.get? w i := by
  obtain ⟨hok, hheap, hav, hproc, hlive⟩ := hb
  have h0 := hok.1
  have hca := hok.2.1
  by_cases hlt : arr.count < arr.allocated
  · obtain ⟨hadd, _, hok1, hv, hbelow⟩ := array_add_room procs arr v w hok hlt
    refine ⟨_, _, hadd, ⟨⟨hok1, hheap, hav, hproc, hlive⟩, rfl, le_refl _,
      ⟨[], by rw [List.append_nil]; rfl, by simp⟩,
      fun a _ hoff => ?_, fun _ _ _ => rfl, Or.inl ⟨rfl, rfl⟩⟩, rfl, rfl, hv, hbelow⟩
    obtain ⟨n, hn, hnle⟩ := hlive (by omega)
    have hlen : (Layout.encode v).length = Layout.size_of T := Layout.encode_length v
    have hsl : arr.count.toNat * Layout.size_of T + Layout.size_of T ≤
        (arr.allocated * (Layout.size_of T : Int)).toNat := by
      rw [toNat_mul_size _ _ (by omega)]
      have h2 : arr.count.toNat + 1 ≤ arr.allocated.toNat := by omega
      calc arr.count.toNat * Layout.size_of T + Layout.size_of T
          = (arr.count.toNat + 1) * Layout.size_of T := by ring
        _ ≤ arr.allocated.toNat * Layout.size_of T := Nat.mul_le_mul_right _ h2
    apply write_mem_outside
    rw [hlen]
    rcases hoff n hn with h | h
    · left; omega
    · right; omega
  · have heq : arr.count = arr.allocated := by omega
    have hrc := reserve_count_eq arr.allocated
    have hgrow : arr.allocated < reserve_count arr.allocated := by omega
    have hle : arr.count * (Layout.size_of T : Int) ≤
        reserve_count arr.allocated * (Layout.size_of T : Int) :=
      Int.mul_le_mul_of_nonneg_right (by omega) (Int.natCast_nonneg _)
    have hsz : (0 : Int) < (Layout.size_of T : Int) := by
      exact_mod_cast (Layout.size_of_pos : 0 < Layout.size_of T)
    have hblock : w.heap_block arr.data (arr.count * (Layout.size_of T : Int)) := by
      by_cases hc0 : arr.count = 0
      · left; rw [hc0]; simp
      · right
        have hcpos : 0 < arr.count := by omega
        obtain ⟨n, hn, hnle⟩ := hlive (by omega)
        refine ⟨Int.mul_pos hcpos hsz, hok.2.2.1 (by omega), ?_, n, hn, ?_⟩
        · rw [heq]; exact hok.2.2.2
        · rw [heq]; exact hnle
    have hcall := heap_call_resize_eq procs arr.allocator.or_heap w _ _ arr.data hprocs
      (or_heap_proc _ hproc) hheap hav hle hblock
    obtain ⟨wh, hcall2, hconf, hheap1, hav1, hsize1⟩ :=
      heap_call_resize procs arr.allocator.or_heap w _ _ arr.data hprocs
        (or_heap_proc _ hproc) hheap hav hle hblock
    obtain ⟨arr1, w1, hres, hc, ha, hal, hcall1, hok1, hget⟩ :=
      array_reserve_grows procs arr (reserve_count arr.allocated) w hok hgrow
        (by rw [hcall2]; exact hconf)
    have hwh : wh = (w.request ⟨Proc_Ptr.heap_allocator, Allocator_Mode.ALLOCATOR_RESIZE,
        reserve_count arr.allocated * (Layout.size_of T : Int),
        arr.count * (Layout.size_of T : Int), arr.data, arr.allocator.or_heap.data⟩).heap_resized
          (reserve_count arr.allocated * (Layout.size_of T : Int))
          (arr.count * (Layout.size_of T : Int)) arr.data := by
      rw [hcall] at hcall2
      injection hcall2 with _ h2
      exact h2.symm
    rw [hcall2] at hcall1
    have hd1 : arr1.data = w.heap_next + 1 := by
      injection hcall1 with h1 h2
      exact h1.symm
    have hw1 : w1 = wh := by
      injection hcall1 with h1 h2
      exact h2.symm
    subst hw1
    obtain ⟨hfp, hfa, _, hfn, hfmem, hfheap⟩ := heap_resized_frame
      (w.request ⟨Proc_Ptr.heap_allocator, Allocator_Mode.ALLOCATOR_RESIZE,
        reserve_count arr.allocated * (Layout.size_of T : Int),
        arr.count * (Layout.size_of T : Int), arr.data, arr.allocator.or_heap.data⟩)
      (reserve_count arr.allocated * (Layout.size_of T : Int))
      (arr.count * (Layout.size_of T : Int)) arr.data
    obtain ⟨_, _, _, _, _, hfreq⟩ := heap_resized_facts
      (w.request ⟨Proc_Ptr.heap_allocator, Allocator_Mode.ALLOCATOR_RESIZE,
        reserve_count arr.allocated * (Layout.size_of T : Int),
        arr.count * (Layout.size_of T : Int), arr.data, arr.allocator.or_heap.data⟩)
      (reserve_count arr.allocated * (Layout.size_of T : Int))
      (arr.count * (Layout.size_of T : Int)) arr.data hheap hav hle hblock
    rw [← hwh] at hfp hfa hfn hfmem hfheap hfreq
    obtain ⟨hadd, _, hok2, hv, hbelow⟩ := array_add_room procs arr1 v w1 hok1 (by omega)
    have hlen : (Layout.encode v).length = Layout.size_of T := Layout.encode_length v
    refine ⟨{ arr1 with count := arr1.count + 1 },
      w1.write (arr1.data + arr1.count.toNat * Layout.size_of T) (Layout.encode v), ?_,
      ⟨⟨hok2, hheap1, hav1, ?_,
        fun _ => ⟨(reserve_count arr.allocated * (Layout.size_of T : Int)).toNat, ?_, ?_⟩⟩,
        hfa, ?_, ⟨[_], hfreq, ?_⟩, fun a ha hoff => ?_, fun b hb hne => hfheap b hb hne,
        Or.inr ?_⟩, hfp, ?_, ?_, fun i hi hic => ?_⟩
    · unfold array_add
      rw [if_pos (by omega), Exec.bind_ok _ _ w w1 _ hres]
      unfold array_add at hadd
      rw [if_neg (by omega), Exec.bind_ok (pure arr1) _ w1 w1 _ rfl] at hadd
      exact hadd
    · right
      show arr1.allocator.proc = _
      rw [hal]
      exact or_heap_proc _ hproc
    · show w1.heap_size arr1.data = _
      rw [hd1]
      exact hsize1
    · show (arr1.allocated * (Layout.size_of T : Int)).toNat ≤ _
      rw [ha]
    · show w.heap_next ≤ w1.heap_next
      rw [hfn]
      show w.heap_next ≤ w.heap_next + 1 + _
      omega
    · intro r hr
      rw [List.mem_singleton] at hr
      rw [hr]
    · show (w1.write (arr1.data + arr1.count.toNat * Layout.size_of T) (Layout.encode v)).mem a = _
      rw [write_mem_outside _ _ _ _ (by left; omega)]
      exact hfmem a ha hoff
    · show w.heap_next < arr1.data
      omega
    · show arr1.count + 1 = arr.count + 1
      rw [hc]
    · rw [← hc]
      exact hv
    · rw [hbelow i hi (by omega)]
      exact hget i hi hic

/-! ## The elements of an array as a list -/

theorem get?_of_mem_eq {T : Type} [Layout T] (arr : Array T) (w w1 : World) (i : Int)
    (h : w1.mem = w.mem) : arr.get? w1 i = arr.get? w i := by
  unfold Array.get? load_elem
  by_cases hd : arr.data = null
  · simp only [if_pos hd, Outcome.val?]
  · rw [if_neg hd]
    cases elem_ptr T arr.data i with
    | none => simp only [Outcome.val?]
    | some p =>
      simp only [Exec.bind_apply, Exec.bind, load, World.mapped, World.bytes, h]
      by_cases hm : ∀ i < Layout.size_of T, (w.mem (p + i)).isSome = true
      · simp only [if_pos hm, Exec.pure_apply, Outcome.val?]
      · simp only [if_neg hm, Outcome.val?]

theorem elems_of_mem_eq {T : Type} [Layout T] (arr : Array T) (w w1 : World)
    (h : w1.mem = w.mem) : arr.elems w1 = arr.elems w := by
  unfold Array.elems
  apply List.map_congr_left
  intro k _
  exact get?_of_mem_eq arr w w1 _ h

theorem elems_length {T : Type} [Layout T] (arr : Array T) (w : World) :
    (arr.elems w).length = arr.count.toNat := by
  simp [Array.elems]

theorem elems_snoc {T : Type} [Layout T] (arr arr1 : Array T) (w w1 : World) (v : T)
    (h0 : 0 ≤ arr.count) (hc : arr1.count = arr.count + 1)
    (hv : arr1.get? w1 arr.count = some v)
    (hbelow : ∀ i, 0 ≤ i → i < arr.count → arr1.get? w1 i = arr.get? w i) :
    arr1.elems w1 = arr.elems w ++ [some v] := by
  unfold Array.elems
  have hn : arr1.count.toNat = arr.count.toNat + 1 := by omega
  rw [hn, List.range_succ, List.map_append, List.map_singleton]
  congr 1
  · apply List.map_congr_left
    intro k hk
    have hk2 := List.mem_range.mp hk
    exact hbelow k (by omega) (by omega)
  · rw [Int.toNat_of_nonneg h0, hv]

theorem elems_drop {T : Type} [Layout T] (arr : Array T) (w : World) (i : Int)
    (hi : 0 ≤ i) (hlt : i < arr.count) :
    (arr.elems w).drop i.toNat = arr.get? w i :: (arr.elems w).drop (i + 1).toNat := by
  have hlen : i.toNat < (arr.elems w).length := by rw [elems_length]; omega
  rw [List.drop_eq_getElem_cons hlen]
  have h1 : (i + 1).toNat = i.toNat + 1 := by omega
  rw [h1]
  congr 1
  simp only [Array.elems, List.getElem_map, List.getElem_range]
  rw [Int.toNat_of_nonneg hi]

theorem elems_drop_all {T : Type} [Layout T] (arr : Array T) (w : World) :
    (arr.elems w).drop arr.count.toNat = [] := by
  apply List.drop_of_length_le
  rw [elems_length]

/-! ## Reading through `operator[]` -/

theorem operator_index_eq {T : Type} [Layout T] (arr : Array T) (i : Int) (w : World)
    (hi : 0 ≤ i) (hlt : i < arr.count) (hd : arr.data ≠ null) :
    arr.operator_index i w = Outcome.ok (arr.data + i.toNat * Layout.size_of T) w := by
  unfold Array.operator_index
  have h1 : decide (i ≥ 0) = true := by simpa using hi
  have h2 : decide (i < arr.count) = true := by simpa using hlt
  have h3 : decide (arr.data ≠ null) = true := by simpa using hd
  rw [h1, h2, h3, Exec.bind_ok _ _ w w () (assert_true _ _ w),
    Exec.bind_ok _ _ w w () (assert_true _ _ w), Exec.bind_ok _ _ w w () (assert_true _ _ w),
    elem_ptr_nonneg T arr.data i hi]
  rfl

theorem load_ref_get? {T : Type} [Layout T] (arr : Array T) (i : Int) (w : World) (x : T)
    (hi : 0 ≤ i) (hd : arr.data ≠ null) (hx : arr.get? w i = some x) :
    (load_ref (arr.data + i.toNat * Layout.size_of T) : Exec T) w = Outcome.ok x w := by
  rw [get?_eq arr w i hd hi] at hx
  unfold load_ref
  have hnn : ¬ (arr.data + i.toNat * Layout.size_of T = null) := by
    unfold null at *
    omega
  rw [if_neg hnn]
  split at hx
  · rename_i hm
    injection hx with hx
    simp only [Exec.bind_apply, Exec.bind, load, if_pos hm, Exec.pure_apply, hx]
  · cases hx

/-! ## pool_reset on the process heap -/

theorem used_get?_stable (p : Pool) (w0 w : World) (arr : Array u8_ptr)
    (hk : p.heap_kept w0) (hg : p.unused_memblocks.grown_from w0 arr w)
    (i : Int) (hi : 0 ≤ i) (hlt : i < p.used_memblocks.count) :
    p.used_memblocks.get? w i = p.used_memblocks.get? w0 i := by
  obtain ⟨_, hok, hsep⟩ := hk
  obtain ⟨_, _, _, _, hmem, _, _⟩ := hg
  have hd : p.used_memblocks.data ≠ null := hok.2.2.1 (by have := hok.2.1; omega)
  obtain ⟨hbelow, hoff⟩ := hsep (by omega)
  rw [toNat_mul_size _ _ (by omega)] at hbelow hoff
  apply get?_congr p.used_memblocks p.used_memblocks w0 w i hd hd hi
  intro k hk8
  have h2 : i.toNat + 1 ≤ p.used_memblocks.count.toNat := by omega
  have h3 : (i.toNat + 1) * Layout.size_of u8_ptr ≤
      p.used_memblocks.count.toNat * Layout.size_of u8_ptr := Nat.mul_le_mul_right _ h2
  have h4 : (i.toNat + 1) * Layout.size_of u8_ptr =
      i.toNat * Layout.size_of u8_ptr + Layout.size_of u8_ptr := by ring
  apply hmem _ (by omega)
  intro n hn
  rcases hoff n hn with h | h
  · left; omega
  · right; omega

theorem pool_reset_loop_heap (procs : Procs) (pool : Nat)
    (hprocs : procs Proc_Ptr.heap_allocator = heap_allocator) (p0 : Pool) (w0 : World)
    (hk : p0.heap_kept w0) :
    ∀ (k : Nat) (i : Int) (arr : Array u8_ptr) (w : World) (pc : Pool),
      0 ≤ i → i + k = p0.used_memblocks.count →
      p0.unused_memblocks.grown_from w0 arr w →
      w.pools pool = some pc → pc.used_memblocks = p0.used_memblocks →
      pc.unused_memblocks = arr →
      ∃ arr1 w1, pool_reset_loop procs pool k i w = Outcome.ok () w1 ∧
        p0.unused_memblocks.grown_from w0 arr1 w1 ∧
        w1.pools pool = some { pc with unused_memblocks := arr1 } ∧
        arr1.elems w1 = arr.elems w ++ (p0.used_memblocks.elems w0).drop i.toNat := by
  intro k
  induction k with
  | zero =>
    intro i arr w pc hi hik hg hp hused hunused
    refine ⟨arr, w, rfl, hg, ?_, ?_⟩
    · rw [hp, ← hunused]
    · have : i = p0.used_memblocks.count := by omega
      rw [this, elems_drop_all, List.append_nil]
  | succ k ih =>
    intro i arr w pc hi hik hg hp hused hunused
    have hlt : i < p0.used_memblocks.count := by omega
    have hok := hk.2.1
    have hd : p0.used_memblocks.data ≠ null := hok.2.2.1 (by have := hok.2.1; omega)
    have hstable := used_get?_stable p0 w0 w arr hk hg i hi hlt
    have hx := storage_ok_get? p0.used_memblocks w0 hok i hi (by have := hok.2.1; omega)
    rw [← hstable] at hx
    obtain ⟨arr1, w1, hadd, hg1, hpools1, hc1, hv1, hbelow1⟩ :=
      array_add_heap_frame procs arr
        (Layout.decode (w0.bytes (p0.used_memblocks.data + i.toNat * Layout.size_of u8_ptr)
          (Layout.size_of u8_ptr)) : u8_ptr) w hprocs hg.1
    have hg01 := grown_from_trans _ _ _ _ _ _ hg hg1
    have hp1 : w1.pools pool = some pc := by rw [hpools1]; exact hp
    obtain ⟨arr2, w2, hloop, hg2, hp2, hel2⟩ :=
      ih (i + 1) arr1 (w1.set_pool pool { pc with unused_memblocks := arr1 })
        { pc with unused_memblocks := arr1 } (by omega) (by omega) hg01
        (set_pool_pools _ _ _) hused rfl
    refine ⟨arr2, w2, ?_, hg2, hp2, ?_⟩
    · unfold pool_reset_loop
      rw [Exec.bind_ok _ _ w w pc (deref_eq pool w pc hp)]
      rw [hused, if_pos hlt]
      rw [Exec.bind_ok _ _ w w _ (operator_index_eq p0.used_memblocks i w hi hlt hd)]
      rw [Exec.bind_ok _ _ w w _ (load_ref_get? p0.used_memblocks i w _ hi hd hx)]
      rw [Exec.bind_ok _ _ w w pc (deref_eq pool w pc hp)]
      rw [hunused, Exec.bind_ok _ _ w w1 _ hadd]
      rw [Exec.bind_ok _ _ w1 _ () (modify_eq pool _ w1 pc hp1)]
      exact hloop
    · rw [hel2]
      have hsn := elems_snoc arr arr1 w w1 _ hg.1.1.1 hc1 hv1 hbelow1
      have hsame : arr1.elems (w1.set_pool pool { pc with unused_memblocks := arr1 }) =
          arr1.elems w1 := elems_of_mem_eq _ _ _ rfl
      rw [hsame, hsn, elems_drop p0.used_memblocks w0 i hi hlt, ← hstable, hx]
      simp

/-- What `pool_reset` does to a pool whose arrays are kept on the process heap: it
completes, `unused_memblocks` then holds every block of the pool, and only Resize requests
(for the storage of `unused_memblocks`) have been made. -/
theorem pool_reset_heap (procs : Procs) (pool : Nat)
    (hprocs : procs Proc_Ptr.heap_allocator = heap_allocator) (w : World) (p : Pool)
    (hp : w.pools pool = some p) (hk : p.heap_kept w) :
    ∃ arr1 w1, pool_reset procs pool w = Outcome.ok () w1 ∧
      p.unused_memblocks.grown_from w arr1 w1 ∧
      w1.pools pool = some { p with unused_memblocks := arr1, current_memblock := null,
                                    used_memblocks := { p.used_memblocks with count := 0 } } ∧
      arr1.elems w1 = p.blocks w := by
  have hrest : ∀ (arr : Array u8_ptr) (wy : World) (pc : Pool),
      p.unused_memblocks.grown_from w arr wy → wy.pools pool = some pc →
      pc.used_memblocks = p.used_memblocks → pc.unused_memblocks = arr →
      ∃ arr1 w1,
        (do
          let p ← Pool.deref pool
          pool_reset_loop procs pool p.used_memblocks.count.toNat 0
          Pool.modify pool fun q =>
            { q with used_memblocks := { q.used_memblocks with count := 0 } }) wy =
          Outcome.ok () w1 ∧
        p.unused_memblocks.grown_from w arr1 w1 ∧
        w1.pools pool = some { pc with unused_memblocks := arr1,
                                       used_memblocks := { p.used_memblocks with count := 0 } } ∧
        arr1.elems w1 = arr.elems wy ++ p.used_memblocks.elems w := by
    intro arr wy pc hg hpy hused hunused
    have h0 := hk.2.1.1
    obtain ⟨arr2, w2, hloop, hg2, hp2, hel2⟩ :=
      pool_reset_loop_heap procs pool hprocs p w hk p.used_memblocks.count.toNat 0 arr wy pc
        (le_refl _) (by omega) hg hpy hused hunused
    refine ⟨arr2,
      w2.set_pool pool
        { pc with unused_memblocks := arr2, used_memblocks := { p.used_memblocks with count := 0 } },
      ?_, hg2, set_pool_pools _ _ _, ?_⟩
    · rw [Exec.bind_ok _ _ wy wy pc (deref_eq pool wy pc hpy)]
      rw [hused, Exec.bind_ok _ _ wy w2 () hloop]
      rw [modify_eq pool _ w2 _ hp2, hused]
    · rw [elems_of_mem_eq arr2 w2 (w2.set_pool pool _) rfl, hel2]
      rfl
  unfold pool_reset
  rw [Exec.bind_ok _ _ w w p (deref_eq pool w p hp)]
  simp only []
  by_cases hc : p.current_memblock ≠ null
  · rw [if_pos hc]
    obtain ⟨arr1, w1, hadd, hg1, hpools1, hc1, hv1, hbelow1⟩ :=
      array_add_heap_frame procs p.unused_memblocks (Fin.ofNat p.current_memblock : u8_ptr) w
        hprocs hk.1
    have hp1 : w1.pools pool = some p := by rw [hpools1]; exact hp
    obtain ⟨arr2, w2, hrun, hg2, hp2, hel2⟩ :=
      hrest arr1 (w1.set_pool pool { p with unused_memblocks := arr1, current_memblock := null })
        { p with unused_memblocks := arr1, current_memblock := null } hg1 (set_pool_pools _ _ _)
        rfl rfl
    refine ⟨arr2, w2, ?_, hg2, hp2, ?_⟩
    · rw [Exec.bind_ok _ _ w w1 _ hadd, Exec.bind_ok _ _ w1 _ () (modify_eq pool _ w1 p hp1)]
      exact hrun
    · rw [hel2, elems_of_mem_eq arr1 w1 (w1.set_pool pool _) rfl,
        elems_snoc p.unused_memblocks arr1 w w1 _ hk.1.1.1 hc1 hv1 hbelow1]
      unfold Pool.blocks
      rw [if_neg hc]
  · rw [if_neg hc]
    have hnull : p.current_memblock = null := by
      by_contra h
      exact hc h
    obtain ⟨arr2, w2, hrun, hg2, hp2, hel2⟩ :=
      hrest p.unused_memblocks w p (grown_from_refl _ _ hk.1) hp rfl rfl
    refine ⟨arr2, w2, ?_, hg2, ?_, ?_⟩
    · rw [Exec.bind_ok (pure PUnit.unit) _ w w _ rfl]
      exact hrun
    · rw [hp2, ← hnull]
    · rw [hel2]
      unfold Pool.blocks
      rw [if_pos hnull, List.append_nil]

/-! ## pool_release on the process heap -/

/-- A Free request that reaches `heap_allocator` for null or for a live block. -/
theorem heap_call_free (procs : Procs) (a : Allocator) (w : World) (x : Nat)
    (hprocs : procs Proc_Ptr.heap_allocator = heap_allocator)
    (ha : a.proc = some Proc_Ptr.heap_allocator)
    (hlive : ∃ n, w.heap_size x = some n) :
    ∃ w1, a.call procs Allocator_Mode.ALLOCATOR_FREE 0 0 x w = Outcome.ok null w1 ∧
      w1.pools = w.pools ∧
      w1.requests = w.requests ++
        [⟨Proc_Ptr.heap_allocator, Allocator_Mode.ALLOCATOR_FREE, 0, 0, x, a.data⟩] ∧
      (∀ c, (∀ n, w.heap_size x = some n → c < x ∨ x + n ≤ c) → w1.mem c = w.mem c) ∧
      (∀ b, b ≠ x → w1.heap_size b = w.heap_size b) := by
  obtain ⟨n, hn⟩ := hlive
  have hcall : a.call procs Allocator_Mode.ALLOCATOR_FREE 0 0 x w =
      heap_allocator Allocator_Mode.ALLOCATOR_FREE 0 0 x a.data
        (w.request ⟨Proc_Ptr.heap_allocator, Allocator_Mode.ALLOCATOR_FREE, 0, 0, x, a.data⟩) := by
    unfold Allocator.call
    rw [ha]
    simp only [hprocs]
  rw [hcall]
  unfold heap_allocator
  simp only []
  by_cases hx : x = null
  · have hf : HeapFree x (w.request
        ⟨Proc_Ptr.heap_allocator, Allocator_Mode.ALLOCATOR_FREE, 0, 0, x, a.data⟩) =
        Outcome.ok () (w.request
          ⟨Proc_Ptr.heap_allocator, Allocator_Mode.ALLOCATOR_FREE, 0, 0, x, a.data⟩) := by
      unfold HeapFree
      rw [if_pos hx]
    rw [Exec.bind_ok _ _ _ _ () hf]
    exact ⟨_, rfl, rfl, rfl, fun _ _ => rfl, fun _ _ => rfl⟩
  · have hf : HeapFree x (w.request
        ⟨Proc_Ptr.heap_allocator, Allocator_Mode.ALLOCATOR_FREE, 0, 0, x, a.data⟩) =
        Outcome.ok () ((w.request
          ⟨Proc_Ptr.heap_allocator, Allocator_Mode.ALLOCATOR_FREE, 0, 0, x, a.data⟩).heap_remove
            x n) := by
      unfold HeapFree
      rw [if_neg hx]
      have : (w.request
          ⟨Proc_Ptr.heap_allocator, Allocator_Mode.ALLOCATOR_FREE, 0, 0, x, a.data⟩).heap_size x =
          some n := hn
      rw [this]
    rw [Exec.bind_ok _ _ _ _ () hf]
    refine ⟨_, rfl, rfl, rfl, fun c hc => ?_, fun b hb => ?_⟩
    · have := hc n hn
      simp only [World.heap_remove, World.request]
      rw [if_neg (by omega)]
    · simp only [World.heap_remove, World.request]
      rw [if_neg hb]

theorem get?_of_elems_drop {T : Type} [Layout T] (arr : Array T) (w : World) (i : Int)
    (hi : 0 ≤ i) (hlt : i < arr.count) :
    arr.get? w i ∈ (arr.elems w).drop i.toNat := by
  rw [elems_drop arr w i hi hlt]
  exact List.mem_cons_self _ _

theorem pool_release_loop_heap (procs : Procs) (pool : Nat)
    (hprocs : procs Proc_Ptr.heap_allocator = heap_allocator) (pc : Pool) (w0 : World)
    (hproc : pc.block_allocator.proc = some Proc_Ptr.heap_allocator)
    (hok : pc.unused_memblocks.storage_ok w0) (L : List u8_ptr)
    (hL : pc.unused_memblocks.elems w0 = L.map some)
    (hlive : ∀ y ∈ L, ∃ n, w0.heap_size y.val = some n ∧
      (y.val + n ≤ pc.unused_memblocks.data ∨
        pc.unused_memblocks.data +
          (pc.unused_memblocks.count * (Layout.size_of u8_ptr : Int)).toNat ≤ y.val)) :
    ∀ (k : Nat) (i : Int) (w : World),
      0 ≤ i → i + k = pc.unused_memblocks.count →
      ((L.drop i.toNat).map Fin.val).Nodup →
      w.pools pool = some pc →
      (∀ c, pc.unused_memblocks.data ≤ c →
        c < pc.unused_memblocks.data +
          (pc.unused_memblocks.count * (Layout.size_of u8_ptr : Int)).toNat →
        w.mem c = w0.mem c) →
      (∀ y ∈ L.drop i.toNat, w.heap_size y.val = w0.heap_size y.val) →
      ∃ w1, pool_release_loop procs pool k i w = Outcome.ok () w1 ∧
        w1.pools = w.pools ∧
        w1.requests = w.requests ++ (L.drop i.toNat).map fun y =>
          ⟨Proc_Ptr.heap_allocator, Allocator_Mode.ALLOCATOR_FREE, 0, 0, y.val,
            pc.block_allocator.data⟩ := by
  have hlen : L.length = pc.unused_memblocks.count.toNat := by
    have := congrArg List.length hL
    rw [elems_length, List.length_map] at this
    exact this.symm
  intro k
  induction k with
  | zero =>
    intro i w hi hik _ hp _ _
    have hi2 : i.toNat = L.length := by omega
    refine ⟨w, rfl, rfl, ?_⟩
    rw [hi2, List.drop_length]
    simp
  | succ k ih =>
    intro i w hi hik hnd hp hmem hheap
    have hlt : i < pc.unused_memblocks.count := by omega
    have hd : pc.unused_memblocks.data ≠ null := hok.2.2.1 (by have := hok.2.1; omega)
    have hilt : i.toNat < L.length := by omega
    have hdrop : L.drop i.toNat = L[i.toNat] :: L.drop (i + 1).toNat := by
      rw [List.drop_eq_getElem_cons hilt]
      have h1 : (i + 1).toNat = i.toNat + 1 := by omega
      rw [h1]
    have hx0 : pc.unused_memblocks.get? w0 i = some L[i.toNat] := by
      have h1 := elems_drop pc.unused_memblocks w0 i hi hlt
      rw [hL, ← List.map_drop, hdrop, List.map_cons] at h1
      injection h1 with h2 _
      exact h2.symm
    have hx : pc.unused_memblocks.get? w i = some L[i.toNat] := by
      rw [← hx0]
      apply get?_congr pc.unused_memblocks pc.unused_memblocks w0 w i hd hd hi
      intro j hj
      have h2 : i.toNat + 1 ≤ pc.unused_memblocks.count.toNat := by omega
      have h3 : (i.toNat + 1) * Layout.size_of u8_ptr ≤
          pc.unused_memblocks.count.toNat * Layout.size_of u8_ptr := Nat.mul_le_mul_right _ h2
      have h4 : (i.toNat + 1) * Layout.size_of u8_ptr =
          i.toNat * Layout.size_of u8_ptr + Layout.size_of u8_ptr := by ring
      apply hmem
      · omega
      · rw [toNat_mul_size _ _ (by omega)]
        omega
    have hmemL : L[i.toNat] ∈ L := List.getElem_mem _
    have hmemD : L[i.toNat] ∈ L.drop i.toNat := by rw [hdrop]; exact List.mem_cons_self _ _
    obtain ⟨n, hn, hapart⟩ := hlive _ hmemL
    have hnw : w.heap_size (L[i.toNat]).val = some n := by rw [hheap _ hmemD]; exact hn
    obtain ⟨wf, hcall, hfp, hfr, hfmem, hfheap⟩ :=
      heap_call_free procs pc.block_allocator w (L[i.toNat]).val hprocs hproc ⟨n, hnw⟩
    rw [hdrop, List.map_cons, List.nodup_cons] at hnd
    obtain ⟨hnotin, hnd2⟩ := hnd
    obtain ⟨w2, hloop, hp2, hr2⟩ := ih (i + 1) wf (by omega) (by omega) hnd2
      (by rw [hfp]; exact hp)
      (fun c hc1 hc2 => by
        rw [← hmem c hc1 hc2]
        apply hfmem
        intro n2 hn2
        rw [hnw] at hn2
        injection hn2 with hn2
        subst hn2
        rcases hapart with h | h
        · right; omega
        · left; omega)
      (fun y hy => by
        have hyD : y ∈ L.drop i.toNat := by rw [hdrop]; exact List.mem_cons_of_mem _ hy
        rw [← hheap y hyD]
        apply hfheap
        intro heq
        apply hnotin
        rw [← heq]
        exact List.mem_map_of_mem _ hy)
    refine ⟨w2, ?_, by rw [hp2, hfp], ?_⟩
    · unfold pool_release_loop
      rw [Exec.bind_ok _ _ w w pc (deref_eq pool w pc hp)]
      rw [if_pos hlt]
      rw [Exec.bind_ok _ _ w w _ (operator_index_eq pc.unused_memblocks i w hi hlt hd)]
      rw [Exec.bind_ok _ _ w w _ (load_ref_get? pc.unused_memblocks i w _ hi hd hx)]
      rw [Exec.bind_ok _ _ w wf _ hcall]
      exact hloop
    · rw [hr2, hfr, hdrop, List.map_cons, List.append_assoc]
      rfl

/-- What `pool_release` does to a pool on the process heap whose blocks are live: after the
`pool_reset`, one Free request for each block, in the order of `unused_memblocks`. -/
theorem pool_release_heap (procs : Procs) (pool : Nat)
    (hprocs : procs Proc_Ptr.heap_allocator = heap_allocator) (w : World) (p : Pool)
    (L : List u8_ptr) (hp : w.pools pool = some p) (hk : p.heap_kept w)
    (hproc : p.block_allocator.proc = some Proc_Ptr.heap_allocator)
    (hlive : p.blocks_live w L) :
    ∃ arr1 w1 w2, pool_reset procs pool w = Outcome.ok () w1 ∧
      w1.pools pool = some { p with unused_memblocks := arr1, current_memblock := null,
                                    used_memblocks := { p.used_memblocks with count := 0 } } ∧
      arr1.elems w1 = L.map some ∧
      pool_release procs pool w = Outcome.ok () w2 ∧
      w2.requests = w1.requests ++ L.map (fun y =>
        ⟨Proc_Ptr.heap_allocator, Allocator_Mode.ALLOCATOR_FREE, 0, 0, y.val,
          p.block_allocator.data⟩) ∧
      w2.pools pool = some { p with unused_memblocks := { arr1 with count := 0 },
                                    current_memblock := null,
                                    used_memblocks := { p.used_memblocks with count := 0 } } := by
  obtain ⟨hLb, hnd, hblocks⟩ := hlive
  obtain ⟨arr1, w1, hreset, hg, hp1, hel⟩ := pool_reset_heap procs pool hprocs w p hp hk
  have hL1 : arr1.elems w1 = L.map some := by rw [hel, hLb]
  have hlen : L.length = arr1.count.toNat := by
    have := congrArg List.length hL1
    rw [elems_length, List.length_map] at this
    exact this.symm
  obtain ⟨hb1, _, _, _, _, hheapf, hloc⟩ := hg
  have hok1 := hb1.1
  have hlive1 : ∀ y ∈ L, ∃ n, w1.heap_size y.val = some n ∧
      (y.val + n ≤ arr1.data ∨
        arr1.data + (arr1.count * (Layout.size_of u8_ptr : Int)).toNat ≤ y.val) := by
    intro y hy
    obtain ⟨n, hn, hne, hapart⟩ := hblocks y hy
    have hbelow : y.val + n ≤ w.heap_next := hk.1.2.1 _ _ hn
    refine ⟨n, by rw [hheapf _ (by omega) hne]; exact hn, ?_⟩
    rcases hloc with ⟨hd, hs⟩ | hgt
    · have hpos : 0 < arr1.allocated := by
        have hL0 : 0 < L.length := List.length_pos_of_mem hy
        have := hok1.2.1
        omega
      obtain ⟨n1, hn1, hle1⟩ := hb1.2.2.2.2 hpos
      rw [hs] at hn1
      have hcnt := toNat_mul_size_le arr1.count arr1.allocated (Layout.size_of u8_ptr)
        hok1.1 hok1.2.1
      rcases hapart n1 hn1 with h | h
      · left; rw [hd]; exact h
      · right; rw [hd]; omega
    · left; omega
  obtain ⟨w2, hloop, hp2, hr2⟩ :=
    pool_release_loop_heap procs pool hprocs
      { p with unused_memblocks := arr1, current_memblock := null,
               used_memblocks := { p.used_memblocks with count := 0 } }
      w1 hproc hok1 L hL1 hlive1 arr1.count.toNat 0 w1 (le_refl _)
      (by have := hok1.1; show (0 : Int) + (arr1.count.toNat : Int) = arr1.count; omega)
      (by simpa using hnd) hp1 (fun _ _ _ => rfl) (fun _ _ => rfl)
  have hp2b : w2.pools pool =
      some { p with unused_memblocks := arr1, current_memblock := null,
                    used_memblocks := { p.used_memblocks with count := 0 } } := by
    rw [hp2]; exact hp1
  have hdec : decide (p.block_allocator.proc ≠ none) = true := by simp [hproc]
  refine ⟨arr1, w1,
    w2.set_pool pool
      { p with unused_memblocks := { arr1 with count := 0 }, current_memblock := null,
               used_memblocks := { p.used_memblocks with count := 0 } },
    hreset, hp1, hL1, ?_, ?_, set_pool_pools _ _ _⟩
  · unfold pool_release
    rw [Exec.bind_ok _ _ w w1 () hreset, Exec.bind_ok _ _ w1 w1 _ (deref_eq pool w1 _ hp1)]
    simp only []
    rw [hdec, Exec.bind_ok _ _ w1 w1 () (assert_true _ _ w1), Exec.bind_ok _ _ w1 w2 () hloop]
    exact modify_eq pool _ w2 _ hp2b
  · show w2.requests = _
    rw [hr2]
    simp

/-! ## Reuse of blocks -/

/-- The cycle of `pool_get` when `unused_memblocks` is not empty: the last element is
popped and becomes the current block; no request is made. -/
theorem pool_cycle_pop (procs : Procs) (pool : Nat) (w : World) (p : Pool) (x : u8_ptr)
    (hp : w.pools pool = some p) (hproc : p.block_allocator.proc ≠ none)
    (hc : p.unused_memblocks.count ≠ 0)
    (hx : p.unused_memblocks.get? w (p.unused_memblocks.count - 1) = some x) :
    pool_cycle_new_block procs pool w = Outcome.ok () (w.set_pool pool
      { p with unused_memblocks := { p.unused_memblocks with count := p.unused_memblocks.count - 1 },
               bytes_left := p.memblock_size, current_memblock := x.val,
               current_pos := x.val }) := by
  have hpop : array_pop p.unused_memblocks 0 w = Outcome.ok
      (true, x, { p.unused_memblocks with count := p.unused_memblocks.count - 1 }) w := by
    unfold array_pop
    rw [if_neg hc, Exec.bind_ok _ _ w w x (load_elem_of_get? _ _ _ _ hx)]
    rfl
  unfold pool_cycle_new_block
  rw [Exec.bind_ok _ _ w w p (deref_eq pool w p hp)]
  simp only []
  rw [if_neg hproc, Exec.bind_ok (pure PUnit.unit) _ w w _ rfl, if_pos hc]
  rw [Exec.bind_ok _ _ w w _ hpop]
  rw [Exec.bind_ok _ _ w _ () (modify_eq pool _ w p hp)]
  rw [Exec.bind_ok (pure _) _ _ _ _ rfl]
  rw [modify_eq pool _ _ _ (set_pool_pools _ _ _), set_pool_set_pool]

/-- C17: `pool_reset` on a pool whose arrays are kept on the process heap.  The call
returns; afterwards `current_memblock` is null, `used_memblocks` is empty, and
`unused_memblocks` holds its previous elements, then the previous current block if there
was one, then the previous elements of `used_memblocks` in order.  The only requests made
are Resize requests (of `unused_memblocks` for its storage): no Free and no FreeAll. -/
theorem pool_reset_spec (procs : Procs) (pool : Nat) (w : World) (p : Pool)
    (hprocs : procs Proc_Ptr.heap_allocator = heap_allocator)
    (hp : w.pools pool = some p) (hk : p.heap_kept w) :
    ∃ w1 p1, pool_reset procs pool w = Outcome.ok () w1 ∧ w1.pools pool = some p1 ∧
      p1.current_memblock = null ∧ p1.used_memblocks.count = 0 ∧
      p1.used_memblocks.elems w1 = [] ∧
      p1.unused_memblocks.elems w1 =
        p.unused_memblocks.elems w ++
          (if p.current_memblock = null then []
           else [some (Fin.ofNat p.current_memblock : u8_ptr)]) ++
          p.used_memblocks.elems w ∧
      (p.current_memblock < 18446744073709551616 →
        (Fin.ofNat p.current_memblock : u8_ptr).val = p.current_memblock) ∧
      ∃ rs, w1.requests = w.requests ++ rs ∧
        ∀ r ∈ rs, r.mode = Allocator_Mode.ALLOCATOR_RESIZE ∧
          r.mode ≠ Allocator_Mode.ALLOCATOR_FREE ∧ r.mode ≠ Allocator_Mode.ALLOCATOR_FREE_ALL := by
  obtain ⟨arr1, w1, hreset, hg, hp1, hel⟩ := pool_reset_heap procs pool hprocs w p hp hk
  obtain ⟨_, _, _, ⟨rs, hrs, hmode⟩, _, _, _⟩ := hg
  refine ⟨w1, _, hreset, hp1, rfl, rfl, rfl, hel, fun hlt => ?_, rs, hrs, fun r hr => ?_⟩
  · show p.current_memblock % 18446744073709551616 = p.current_memblock
    exact Nat.mod_eq_of_lt hlt
  · rw [hmode r hr]
    exact ⟨rfl, by decide, by decide⟩

/-- C18: `pool_release` on a pool on the process heap whose blocks `L` are live.  The call
returns, and it is `pool_reset` followed by one Free request to the block allocator for
each block then in `unused_memblocks`, each once and in order; afterwards
`unused_memblocks` and `used_memblocks` are empty and `current_memblock` is null. -/
theorem pool_release_spec (procs : Procs) (pool : Nat) (w : World) (p : Pool)
    (L : List u8_ptr) (hprocs : procs Proc_Ptr.heap_allocator = heap_allocator)
    (hp : w.pools pool = some p) (hk : p.heap_kept w)
    (hproc : p.block_allocator.proc = some Proc_Ptr.heap_allocator)
    (hlive : p.blocks_live w L) :
    ∃ w1 p1 w2 p2, pool_reset procs pool w = Outcome.ok () w1 ∧ w1.pools pool = some p1 ∧
      p1.unused_memblocks.elems w1 = L.map some ∧
      pool_release procs pool w = Outcome.ok () w2 ∧
      w2.requests = w1.requests ++ L.map (fun y =>
        ⟨Proc_Ptr.heap_allocator, Allocator_Mode.ALLOCATOR_FREE, 0, 0, y.val,
          p.block_allocator.data⟩) ∧
      w2.pools pool = some p2 ∧ p2.unused_memblocks.count = 0 ∧
      p2.used_memblocks.count = 0 ∧ p2.current_memblock = null ∧
      p2.unused_memblocks.elems w2 = [] ∧ p2.used_memblocks.elems w2 = [] := by
  obtain ⟨arr1, w1, w2, hreset, hp1, hL1, hrel, hreq, hp2⟩ :=
    pool_release_heap procs pool hprocs w p L hp hk hproc hlive
  exact ⟨w1, _, w2, _, hreset, hp1, hL1, hrel, hreq, hp2, rfl, rfl, rfl, rfl, rfl⟩

/-- C19: a `pool_get` that needs a new block (`bytes_left` below the rounded size) on a
pool whose `unused_memblocks` is not empty makes no request at all, so no Allocate request:
the new current block, which is the reference returned, is the last element of
`unused_memblocks`, and `unused_memblocks` loses exactly that element.  In particular,
after a `pool_reset` of a pool on the process heap that held at least one block, such a
`pool_get` returns one of the blocks held before, and the requests made by the two calls
are Resize requests only. -/
theorem pool_get_reuses (procs : Procs) (pool : Nat) (n : Int) (w : World) (p : Pool)
    (hp : w.pools pool = some p) (hpool : pool ≠ null) (ha : p.alignment ≠ 0)
    (hr : 0 ≤ pool_rounded p.alignment n) (hproc : p.block_allocator.proc ≠ none)
    (hlt : p.bytes_left < pool_rounded p.alignment n) :
    (∀ x, p.unused_memblocks.count ≠ 0 →
      p.unused_memblocks.get? w (p.unused_memblocks.count - 1) = some x →
      ∃ w1 p1, pool_get procs pool n w = Outcome.ok x.val w1 ∧ w1.requests = w.requests ∧
        w1.mem = w.mem ∧ w1.pools pool = some p1 ∧ p1.current_memblock = x.val ∧
        p1.unused_memblocks =
          { p.unused_memblocks with count := p.unused_memblocks.count - 1 } ∧
        p1.used_memblocks = p.used_memblocks) ∧
    (procs Proc_Ptr.heap_allocator = heap_allocator → p.heap_kept w → p.blocks w ≠ [] →
      ∃ w1 x w2, pool_reset procs pool w = Outcome.ok () w1 ∧ some x ∈ p.blocks w ∧
        pool_get procs pool n w1 = Outcome.ok x.val w2 ∧
        ∃ rs, w2.requests = w.requests ++ rs ∧
          ∀ r ∈ rs, r.mode = Allocator_Mode.ALLOCATOR_RESIZE) := by
  have hpop : ∀ (wy : World) (q : Pool) (x : u8_ptr), wy.pools pool = some q →
      q.alignment = p.alignment → q.bytes_left = p.bytes_left →
      q.block_allocator = p.block_allocator →
      q.unused_memblocks.count ≠ 0 →
      q.unused_memblocks.get? wy (q.unused_memblocks.count - 1) = some x →
      pool_get procs pool n wy = Outcome.ok x.val
        (if x.val = null then
          wy.set_pool pool
            { q with unused_memblocks :=
                       { q.unused_memblocks with count := q.unused_memblocks.count - 1 },
                     bytes_left := q.memblock_size, current_memblock := x.val,
                     current_pos := x.val }
         else
          wy.set_pool pool
            { q with unused_memblocks :=
                       { q.unused_memblocks with count := q.unused_memblocks.count - 1 },
                     bytes_left := q.memblock_size - pool_rounded p.alignment n,
                     current_memblock := x.val,
                     current_pos := ((x.val : Int) + pool_rounded p.alignment n).toNat }) := by
    intro wy q x hq hqa hqb hqp hc hx
    have hcyc := pool_cycle_pop procs pool wy q x hq (by rw [hqp]; exact hproc) hc hx
    rw [pool_get_cycled procs pool n wy _ q _ hq hpool (by rw [hqa]; exact ha)
      (by rw [hqa, hqb]; exact hlt) hcyc (set_pool_pools _ _ _), hqa]
    by_cases hnull : x.val = null
    · rw [if_pos hnull, if_pos hnull, hnull]
    · rw [if_neg hnull, if_neg hnull,
        pool_get_bump_eq pool _ _ _ (set_pool_pools _ _ _) (by show 0 ≤ (x.val : Int) + _; omega),
        set_pool_set_pool]
  refine ⟨fun x hc hx => ?_, fun hprocs hk hheld => ?_⟩
  · have hget := hpop w p x hp rfl rfl rfl hc hx
    by_cases hnull : x.val = null
    · rw [if_pos hnull] at hget
      exact ⟨_, _, hget, rfl, rfl, set_pool_pools _ _ _, rfl, rfl, rfl⟩
    · rw [if_neg hnull] at hget
      exact ⟨_, _, hget, rfl, rfl, set_pool_pools _ _ _, rfl, rfl, rfl⟩
  · obtain ⟨arr1, w1, hreset, hg, hp1, hel⟩ := pool_reset_heap procs pool hprocs w p hp hk
    obtain ⟨hb1, _, _, ⟨rs, hrs, hmode⟩, _, _, _⟩ := hg
    have hok1 := hb1.1
    have hlen : 0 < arr1.count.toNat := by
      rw [← elems_length arr1 w1, hel]
      exact List.length_pos.mpr hheld
    have hx := storage_ok_get? arr1 w1 hok1 (arr1.count - 1) (by omega)
      (by have := hok1.2.1; omega)
    have hmem : some (Layout.decode (w1.bytes (arr1.data +
        (arr1.count - 1).toNat * Layout.size_of u8_ptr) (Layout.size_of u8_ptr)) : u8_ptr) ∈
        p.blocks w := by
      rw [← hel, ← hx]
      exact List.mem_of_mem_drop (get?_of_elems_drop arr1 w1 (arr1.count - 1) (by omega) (by omega))
    have hget := hpop w1 _ _ hp1 rfl rfl rfl (by show arr1.count ≠ 0; omega) hx
    refine ⟨w1, _, _, hreset, hmem, hget, rs, ?_, hmode⟩
    split <;> exact hrs

/-! ## Example states of the pool -/

theorem Outcome.check_ok {α : Type} (o : Outcome α) (P : α → World → Bool)
    (h : o.check P = true) : ∃ a w, o = Outcome.ok a w ∧ P a w = true := by
  cases o with
  | ok a w => exact ⟨a, w, rfl, h⟩
  | fatal w => cases h
  | undefined => cases h

theorem heap_ok_start (asserts : Assert_Mode) : (World.start asserts).heap_ok :=
  fun _ _ h => by cases h

theorem heap_ok_heap_add (w : World) (p n : Nat) (h : w.heap_ok) (hp : w.heap_next ≤ p) :
    (w.heap_add p n).heap_ok := by
  intro b m hb
  simp only [World.heap_add] at hb ⊢
  split at hb
  · rename_i hbp
    cases hb
    omega
  · have := h b m hb
    omega

theorem recycle_example_heap_ok : recycle_example_world.heap_ok := by
  show (((((World.start Assert_Mode.terminate).heap_add 1 64).heap_add 66 64).heap_add
    131 64).heap_add 196 8).heap_add 205 64 |>.heap_ok
  refine heap_ok_heap_add _ _ _ (heap_ok_heap_add _ _ _ (heap_ok_heap_add _ _ _
    (heap_ok_heap_add _ _ _ (heap_ok_heap_add _ _ _ (heap_ok_start _) ?_) ?_) ?_) ?_) ?_ <;>
    decide

theorem recycle_example_kept : recycle_example_pool.heap_kept recycle_example_world := by
  have h66 : recycle_example_world.heap_size 66 = some 64 := rfl
  refine ⟨⟨by decide, recycle_example_heap_ok, rfl, Or.inr rfl, fun _ => ⟨64, h66, by decide⟩⟩,
    by decide, fun _ => ⟨by decide, fun n hn => ?_⟩⟩
  have hn64 : n = 64 := by
    have h2 : recycle_example_world.heap_size 66 = some n := hn
    rw [h66] at h2
    injection h2 with h2
    exact h2.symm
  subst hn64
  decide

theorem recycle_example_blocks :
    recycle_example_pool.blocks recycle_example_world = [some 131, some 1, some 205] := by
  decide

theorem recycle_example_live :
    recycle_example_pool.blocks_live recycle_example_world [131, 1, 205] := by
  have h66 : recycle_example_world.heap_size 66 = some 64 := rfl
  refine ⟨recycle_example_blocks, by decide, fun y hy => ?_⟩
  have hcase : y = 131 ∨ y = 1 ∨ y = 205 := by simpa using hy
  have hn0 : ∀ n0, recycle_example_world.heap_size 66 = some n0 → n0 = 64 := by
    intro n0 h
    rw [h66] at h
    injection h with h
    exact h.symm
  rcases hcase with h | h | h <;> subst h <;>
    refine ⟨64, rfl, by decide, fun n0 h0 => ?_⟩ <;>
    rw [hn0 n0 h0] <;> decide

/-! ## The pool at concrete inputs, continued -/

/-- The invariant of C16 at a concrete run: `pool_init(pool, 64, 8)`, then `pool_get(10)`,
`pool_get(50)`, `pool_reset`, `pool_get(50)`; the pool then has the block at 66 as current
block, with 56 of its 64 bytes consumed. -/
theorem pool_block_invariant_witness :
    ∃ w1, (pool_init 1000 64 8 >>= fun _ => pool_calls (linked_procs 1) 1000
        [Pool_Call.get 10, Pool_Call.get 50, Pool_Call.reset, Pool_Call.get 50])
          (pool_example_start Assert_Mode.terminate) = Outcome.ok () w1 ∧
      (w1.pools 1000).map (fun p => (p.current_memblock, p.current_pos, p.bytes_left)) =
        some (66, 122, 8) ∧
      ∃ p, w1.pools 1000 = some p ∧
        (p.current_memblock ≠ null →
          p.bytes_left =
            p.memblock_size - ((p.current_pos : Int) - (p.current_memblock : Int))) := by
  obtain ⟨_, w1, hrun, hP⟩ := Outcome.check_ok
    ((pool_init 1000 64 8 >>= fun _ => pool_calls (linked_procs 1) 1000
        [Pool_Call.get 10, Pool_Call.get 50, Pool_Call.reset, Pool_Call.get 50])
          (pool_example_start Assert_Mode.terminate))
    (fun _ w1 => decide ((w1.pools 1000).map
      (fun p => (p.current_memblock, p.current_pos, p.bytes_left)) = some (66, 122, 8)))
    (by decide!)
  exact ⟨w1, hrun, of_decide_eq_true hP,
    pool_block_invariant (linked_procs 1) 1000 64 8 _ _ w1 rfl hrun⟩

/-- C17 at `recycle_example_world`: after `pool_reset` the blocks at 131 (unused before),
1 (current before) and 205 (used before) are the elements of `unused_memblocks`. -/
theorem pool_reset_spec_witness :
    recycle_example_pool.heap_kept recycle_example_world ∧
    ∃ w1 p1, pool_reset (linked_procs 1) 1000 recycle_example_world = Outcome.ok () w1 ∧
      w1.pools 1000 = some p1 ∧ p1.current_memblock = null ∧ p1.used_memblocks.count = 0 ∧
      p1.unused_memblocks.elems w1 = [some 131, some 1, some 205] ∧
      ∃ rs, w1.requests = recycle_example_world.requests ++ rs ∧
        ∀ r ∈ rs, r.mode = Allocator_Mode.ALLOCATOR_RESIZE ∧
          r.mode ≠ Allocator_Mode.ALLOCATOR_FREE ∧
          r.mode ≠ Allocator_Mode.ALLOCATOR_FREE_ALL := by
  refine ⟨recycle_example_kept, ?_⟩
  obtain ⟨w1, p1, hreset, hp1, hcur, hused, _, hel, _, hreq⟩ :=
    pool_reset_spec (linked_procs 1) 1000 recycle_example_world recycle_example_pool rfl rfl
      recycle_example_kept
  refine ⟨w1, p1, hreset, hp1, hcur, hused, ?_, hreq⟩
  rw [hel]
  exact recycle_example_blocks

/-- C18 at `recycle_example_world`: `pool_release` makes three Free requests, for the
blocks at 131, 1 and 205 in this order, after the requests of the `pool_reset`. -/
theorem pool_release_spec_witness :
    recycle_example_pool.heap_kept recycle_example_world ∧
    recycle_example_pool.blocks_live recycle_example_world [131, 1, 205] ∧
    ∃ w1 p1 w2 p2, pool_reset (linked_procs 1) 1000 recycle_example_world = Outcome.ok () w1 ∧
      w1.pools 1000 = some p1 ∧
      p1.unused_memblocks.elems w1 = [some 131, some 1, some 205] ∧
      pool_release (linked_procs 1) 1000 recycle_example_world = Outcome.ok () w2 ∧
      w2.requests = w1.requests ++
        [⟨Proc_Ptr.heap_allocator, Allocator_Mode.ALLOCATOR_FREE, 0, 0, 131, null⟩,
         ⟨Proc_Ptr.heap_allocator, Allocator_Mode.ALLOCATOR_FREE, 0, 0, 1, null⟩,
         ⟨Proc_Ptr.heap_allocator, Allocator_Mode.ALLOCATOR_FREE, 0, 0, 205, null⟩] ∧
      w2.pools 1000 = some p2 ∧ p2.unused_memblocks.count = 0 ∧
      p2.used_memblocks.count = 0 ∧ p2.current_memblock = null := by
  refine ⟨recycle_example_kept, recycle_example_live, ?_⟩
  obtain ⟨w1, p1, w2, p2, hreset, hp1, hel, hrel, hreq, hp2, h1, h2, h3, _, _⟩ :=
    pool_release_spec (linked_procs 1) 1000 recycle_example_world recycle_example_pool
      [131, 1, 205] rfl rfl recycle_example_kept rfl recycle_example_live
  exact ⟨w1, p1, w2, p2, hreset, hp1, hel, hrel, hreq, hp2, h1, h2, h3⟩

/-- C19 at `recycle_example_world`, whose current block is used up: `pool_get(10)` returns
the block at 131, the last element of `unused_memblocks`, without a request; after a
`pool_reset` it returns one of the three blocks held before. -/
theorem pool_get_reuses_witness :
    recycle_example_pool.heap_kept recycle_example_world ∧
    recycle_example_pool.bytes_left < pool_rounded recycle_example_pool.alignment 10 ∧
    recycle_example_pool.unused_memblocks.get? recycle_example_world 0 = some 131 ∧
    (∃ w1 p1, pool_get (linked_procs 1) 1000 10 recycle_example_world =
        Outcome.ok (131 : u8_ptr).val w1 ∧
      w1.requests = recycle_example_world.requests ∧ w1.mem = recycle_example_world.mem ∧
      w1.pools 1000 = some p1 ∧ p1.current_memblock = (131 : u8_ptr).val ∧
      p1.unused_memblocks = { recycle_example_pool.unused_memblocks with count := 1 - 1 } ∧
      p1.used_memblocks = recycle_example_pool.used_memblocks) ∧
    ∃ w1 x w2, pool_reset (linked_procs 1) 1000 recycle_example_world = Outcome.ok () w1 ∧
      some x ∈ [some (131 : u8_ptr), some 1, some 205] ∧
      pool_get (linked_procs 1) 1000 10 w1 = Outcome.ok x.val w2 ∧
      ∃ rs, w2.requests = recycle_example_world.requests ++ rs ∧
        ∀ r ∈ rs, r.mode = Allocator_Mode.ALLOCATOR_RESIZE := by
  have h := pool_get_reuses (linked_procs 1) 1000 10 recycle_example_world recycle_example_pool
    rfl (by decide) (by decide) (by decide) (by decide) (by decide)
  refine ⟨recycle_example_kept, by decide, rfl, h.1 131 (by decide) rfl, ?_⟩
  obtain ⟨w1, x, w2, hreset, hmem, hget, hreq⟩ := h.2 rfl recycle_example_kept (by decide)
  rw [recycle_example_blocks] at hmem
  exact ⟨w1, x, w2, hreset, hmem, hget, hreq⟩

/-- C20 fails in the code.  After `pool_init(pool, 64, 8)`, `pool_get(10)` and `pool_get(50)`
two blocks have been obtained from `heap_allocator`, at 1 and at 66, and neither has been
returned; the block at 66 is the current block, and the block at 1, which the cycle of the
second `pool_get` replaced, is neither in `used_memblocks` nor in `unused_memblocks`: both
are empty.  A `pool_release` then makes one Free request, for the block at 66, and the block
at 1 is still a live block of the heap. -/
theorem pool_cycle_leaks :
    ∃ w1 w2, (pool_init 1000 64 8 >>= fun _ => pool_calls (linked_procs 1) 1000
        [Pool_Call.get 10, Pool_Call.get 50]) (pool_example_start Assert_Mode.terminate) =
          Outcome.ok () w1 ∧
      w1.requests =
        [⟨Proc_Ptr.heap_allocator, Allocator_Mode.ALLOCATOR_ALLOCATE, 64, 0, null, null⟩,
         ⟨Proc_Ptr.heap_allocator, Allocator_Mode.ALLOCATOR_ALLOCATE, 64, 0, null, null⟩] ∧
      w1.heap_size 1 = some 64 ∧ w1.heap_size 66 = some 64 ∧
      (w1.pools 1000).map (fun p => (p.current_memblock, p.used_memblocks.count,
        p.unused_memblocks.count)) = some (66, 0, 0) ∧
      pool_release (linked_procs 1) 1000 w1 = Outcome.ok () w2 ∧
      (w2.pools 1000).map (fun p => (p.current_memblock, p.used_memblocks.count,
        p.unused_memblocks.count)) = some (null, 0, 0) ∧
      (w2.requests.filter fun r => decide (r.mode = Allocator_Mode.ALLOCATOR_FREE)) =
        [⟨Proc_Ptr.heap_allocator, Allocator_Mode.ALLOCATOR_FREE, 0, 0, 66, null⟩] ∧
      w2.heap_size 66 = none ∧ w2.heap_size 1 = some 64 := by
  obtain ⟨_, w1, hrun, hP⟩ := Outcome.check_ok
    ((pool_init 1000 64 8 >>= fun _ => pool_calls (linked_procs 1) 1000
        [Pool_Call.get 10, Pool_Call.get 50]) (pool_example_start Assert_Mode.terminate))
    (fun _ w1 =>
      decide (w1.requests =
        [⟨Proc_Ptr.heap_allocator, Allocator_Mode.ALLOCATOR_ALLOCATE, 64, 0, null, null⟩,
         ⟨Proc_Ptr.heap_allocator, Allocator_Mode.ALLOCATOR_ALLOCATE, 64, 0, null, null⟩]) &&
      decide (w1.heap_size 1 = some 64) && decide (w1.heap_size 66 = some 64) &&
      decide ((w1.pools 1000).map (fun p => (p.current_memblock, p.used_memblocks.count,
        p.unused_memblocks.count)) = some (66, 0, 0)) &&
      (pool_release (linked_procs 1) 1000 w1).check (fun _ w2 =>
        decide ((w2.pools 1000).map (fun p => (p.current_memblock, p.used_memblocks.count,
          p.unused_memblocks.count)) = some (null, 0, 0)) &&
        decide ((w2.requests.filter fun r => decide (r.mode = Allocator_Mode.ALLOCATOR_FREE)) =
          [⟨Proc_Ptr.heap_allocator, Allocator_Mode.ALLOCATOR_FREE, 0, 0, 66, null⟩]) &&
        decide (w2.heap_size 66 = none) && decide (w2.heap_size 1 = some 64)))
    (by decide!)
  simp only [Bool.and_eq_true, decide_eq_true_eq] at hP
  obtain ⟨⟨⟨⟨h1, h2⟩, h3⟩, h4⟩, h5⟩ := hP
  obtain ⟨_, w2, hrel, hQ⟩ := Outcome.check_ok _ _ h5
  simp only [Bool.and_eq_true, decide_eq_true_eq] at hQ
  obtain ⟨⟨⟨h6, h7⟩, h8⟩, h9⟩ := hQ
  exact ⟨w1, w2, hrun, h1, h2, h3, h4, hrel, h6, h7, h8, h9⟩

/-! ## pool_allocator_proc -/

/-- A Free request to `pool_allocator_proc` with a pool that is not null: the failed
`assert(false)`, then null. -/
theorem pool_allocator_proc_free (procs1 : Procs) (size old_size : Int) (old_memory pool : Nat)
    (w : World) (hpool : pool ≠ null) :
    pool_allocator_proc procs1 Allocator_Mode.ALLOCATOR_FREE size old_size old_memory pool w =
      match w.asserts with
      | Assert_Mode.compiled_out => Outcome.ok null w
      | Assert_Mode.terminate => Outcome.fatal (w.put (assert_text "false" "pool.h:162") false)
      | Assert_Mode.dismiss => Outcome.ok null (w.put (assert_text "false" "pool.h:162") false) := by
  have hdec : decide (pool ≠ null) = true := by simpa using hpool
  unfold pool_allocator_proc
  simp only []
  rw [hdec, Exec.bind_ok _ _ w w () (assert_true _ _ w)]
  simp only [Exec.bind_apply, Exec.bind, assert]
  cases w.asserts <;> rfl

/-- C21.  For a pool that is not null and every argument tuple, with `assert` in force
(general.h line 14), `pool_allocator_proc` in mode Allocate is `pool_get(pool, size)`: same
result, same effect; in mode FreeAll it is `pool_release(pool)`, then null.  In the modes
Resize and Free it always fails `assert(false)`: the diagnostic is written and the
message box put up, which ends the process (Abort, Retry) or is dismissed (Ignore), and
then null is returned.  Either way the pool and the memory are as they were, and the call is
never silent. -/
theorem pool_allocator_proc_dispatch (procs : Procs) (size old_size : Int)
    (old_memory pool : Nat) (w : World) (hpool : pool ≠ null)
    (hasserts : w.asserts ≠ Assert_Mode.compiled_out) :
    pool_allocator_proc procs Allocator_Mode.ALLOCATOR_ALLOCATE size old_size old_memory pool w =
      pool_get procs pool size w ∧
    pool_allocator_proc procs Allocator_Mode.ALLOCATOR_FREE_ALL size old_size old_memory pool w =
      (pool_release procs pool >>= fun _ => pure null) w ∧
    (∀ mode, mode = Allocator_Mode.ALLOCATOR_RESIZE ∨ mode = Allocator_Mode.ALLOCATOR_FREE →
      ∃ site w1, w1 = w.put (assert_text "false" site) false ∧
        w1.pools = w.pools ∧ w1.mem = w.mem ∧ w1.heap_size = w.heap_size ∧
        w1.requests = w.requests ∧ w1.output ≠ w.output ∧
        (w.asserts = Assert_Mode.terminate →
          pool_allocator_proc procs mode size old_size old_memory pool w = Outcome.fatal w1) ∧
        (w.asserts = Assert_Mode.dismiss →
          pool_allocator_proc procs mode size old_size old_memory pool w =
            Outcome.ok null w1) ∧
        (pool_allocator_proc procs mode size old_size old_memory pool w = Outcome.fatal w1 ∨
          pool_allocator_proc procs mode size old_size old_memory pool w =
            Outcome.ok null w1)) := by
  have hdec : decide (pool ≠ null) = true := by simpa using hpool
  have hput : ∀ (t : String), (w.put t false).output ≠ w.output := by
    intro t h
    have hlen := congrArg List.length h
    simp [World.put] at hlen
  refine ⟨?_, ?_, ?_⟩
  · unfold pool_allocator_proc
    simp only []
    rw [hdec, Exec.bind_ok _ _ w w () (assert_true _ _ w)]
  · unfold pool_allocator_proc
    simp only []
    rw [hdec, Exec.bind_ok _ _ w w () (assert_true _ _ w)]
  · intro mode hmode
    rcases hmode with h | h
    · subst h
      refine ⟨"pool.h:157", _, rfl, rfl, rfl, rfl, rfl, hput _, ?_, ?_, ?_⟩ <;>
        rw [pool_allocator_proc_resize procs size old_size old_memory pool w hpool]
      · intro ha; rw [ha]
      · intro ha; rw [ha]
      · cases ha : w.asserts
        · exact absurd ha hasserts
        · exact Or.inl rfl
        · exact Or.inr rfl
    · subst h
      refine ⟨"pool.h:162", _, rfl, rfl, rfl, rfl, rfl, hput _, ?_, ?_, ?_⟩ <;>
        rw [pool_allocator_proc_free procs size old_size old_memory pool w hpool]
      · intro ha; rw [ha]
      · intro ha; rw [ha]
      · cases ha : w.asserts
        · exact absurd ha hasserts
        · exact Or.inl rfl
        · exact Or.inr rfl

/-- C21 at the pool of `pool_example_start`: a Resize request ends in the failed assertion
where that ends the process, and returns null after the diagnostic where it is dismissed. -/
theorem pool_allocator_proc_dispatch_witness :
    (1000 : Nat) ≠ null ∧
    (pool_example_start Assert_Mode.dismiss).asserts ≠ Assert_Mode.compiled_out ∧
    ∃ site w1, w1 = (pool_example_start Assert_Mode.dismiss).put (assert_text "false" site) false ∧
      w1.pools = (pool_example_start Assert_Mode.dismiss).pools ∧
      w1.output ≠ (pool_example_start Assert_Mode.dismiss).output ∧
      pool_allocator_proc (linked_procs 1) Allocator_Mode.ALLOCATOR_RESIZE 16 8 1 1000
        (pool_example_start Assert_Mode.dismiss) = Outcome.ok null w1 := by
  obtain ⟨site, w1, h1, h2, _, _, _, h3, _, h4, _⟩ :=
    (pool_allocator_proc_dispatch (linked_procs 1) 16 8 1 1000
      (pool_example_start Assert_Mode.dismiss) (by decide) (by decide)).2.2
        Allocator_Mode.ALLOCATOR_RESIZE (Or.inl rfl)
  exact ⟨by decide, by decide, site, w1, h1, h2, h3, h4 rfl⟩

/-! ## Requests the pool cannot serve -/

/-- C22 fails in the code.  With block size 64 and alignment 8, `pool_get(pool, 100)` rounds
the request to 104 bytes, more than a block holds, and makes no check of that
(`pool.h:108`): it takes a fresh block of 64 bytes at address 1, returns its start as if
the request had been served, leaves `bytes_left == -40` and `current_pos` 40 bytes past
the end of the block, and writes no diagnostic. -/
theorem pool_get_oversized :
    ∃ w1 p1, pool_get (linked_procs 1) 1000 100 (pool_example_start Assert_Mode.terminate) =
        Outcome.ok 1 w1 ∧ w1.pools 1000 = some p1 ∧
      pool_rounded 8 100 = 104 ∧ p1.memblock_size = 64 ∧ w1.heap_size 1 = some 64 ∧
      p1.current_memblock = 1 ∧ p1.bytes_left = -40 ∧ p1.current_pos = 105 ∧
      w1.mem 65 = none ∧ w1.output = [] :=
  ⟨_, _, rfl, rfl, by decide, by decide, by decide, by decide, by decide, by decide,
    by decide, by decide⟩

/-! ## A null answer to a Resize request -/

/-- C24 fails in the code.  `pop_example_array` has `count = 3`, `allocated = 8` and
storage at address 1; the process heap cannot supply another byte, so the Resize request
for 16 elements is answered with null.  When the message box of the failed assertion is
answered Ignore, `array_resize(array, 16)` goes on after its diagnostic and stores the null
pointer and the new capacity (`array.h:169-171`): the array is left with `count = 3`,
`allocated = 16` and null storage, a partially updated container.  `array_reserve(arr, 16)`
at the same input returns with the array as it was, through the guard
`if (!new_memory) return;` (`array.h:107`) that `array_resize` lacks.  Where the failed
assertion ends the process both end there. -/
theorem array_resize_stores_null :
    (pop_example_array.count, pop_example_array.allocated, pop_example_array.data) = (3, 8, 1) ∧
    (pop_example_array.allocator.or_heap.call (linked_procs 1) Allocator_Mode.ALLOCATOR_RESIZE
      (16 * (Layout.size_of u8 : Int)) (pop_example_array.allocated * (Layout.size_of u8 : Int))
      pop_example_array.data ignored_example_world).val? = some null ∧
    (array_resize (linked_procs 1) pop_example_array 16 ignored_example_world).val? =
      some { allocated := 16, count := 3, data := null } ∧
    (array_resize (linked_procs 1) pop_example_array 16 ignored_example_world).world.output =
      [(assert_text "new_memory != 0" "array.h:167", false)] ∧
    (array_reserve (linked_procs 1) pop_example_array 16 ignored_example_world).val? =
      some pop_example_array ∧
    (array_reserve (linked_procs 1) pop_example_array 16 ignored_example_world).world.output =
      [(assert_text "new_memory != 0" "array.h:105", false)] ∧
    (array_resize (linked_procs 1) pop_example_array 16 starved_example_world).is_fatal = true ∧
    (array_reserve (linked_procs 1) pop_example_array 16 starved_example_world).is_fatal = true :=
  ⟨rfl, rfl, rfl, rfl, rfl, rfl, rfl, rfl⟩

/-! ## Resize of `heap_allocator` when the block shrinks or is empty -/

/-- C25 fails in the code.  In `pop_example_world` the block at address 1 has 8 bytes.  A
Resize of it to 2 bytes, `heap_allocator(ALLOCATOR_RESIZE, 2, 8, 1, null)`, copies
`old_size = 8` bytes into the new block of 2 bytes (`general.h:951`): a write past the end
of the new block, undefined behaviour, where the claim has a copy of `min(8, 2)` bytes.  A
Resize of an old block of 0 bytes (here the block `HeapAlloc` gives at 10 for a size of 0),
`heap_allocator(ALLOCATOR_RESIZE, 16, 0, 10, null)`, returns the new block at 11 and does
not release the old block: the block at 10 is still live. -/
theorem heap_resize_shrink_overruns :
    pop_example_world.heap_size 1 = some 8 ∧ pop_example_world.mapped 1 8 ∧
    heap_allocator Allocator_Mode.ALLOCATOR_RESIZE 2 8 1 null pop_example_world =
      Outcome.undefined ∧
    (∃ w1, HeapAlloc 2 pop_example_world = Outcome.ok 10 w1 ∧ w1.mapped 10 2 ∧
      w1.mem 12 = none ∧ memcpy 10 1 8 w1 = Outcome.undefined) ∧
    ∃ w0 w2, HeapAlloc 0 pop_example_world = Outcome.ok 10 w0 ∧ w0.heap_size 10 = some 0 ∧
      heap_allocator Allocator_Mode.ALLOCATOR_RESIZE 16 0 10 null w0 = Outcome.ok 11 w2 ∧
      w2.heap_size 10 = some 0 ∧ w2.heap_size 11 = some 16 :=
  ⟨rfl, by decide, rfl, ⟨_, rfl, by decide, by decide, rfl⟩,
    _, _, rfl, by decide, rfl, by decide, by decide⟩

/-! ## Array::operator[] -/

/-- A use of `assert` whose message box is answered Ignore: it returns, having written its
diagnostic and nothing else when the condition is false, and having done nothing when the
condition is true. -/
theorem assert_dismiss (cond : Bool) (expression site : String) (w : World)
    (ha : w.asserts = Assert_Mode.dismiss) :
    ∃ w1 rest, assert cond expression site w = Outcome.ok () w1 ∧
      w1.output = w.output ++ rest ∧ w1.mem = w.mem ∧ w1.asserts = Assert_Mode.dismiss ∧
      (cond = false → rest = [(assert_text expression site, false)]) ∧ (cond = true → w1 = w) := by
  cases cond
  · refine ⟨w.put (assert_text expression site) false, [(assert_text expression site, false)],
      ?_, rfl, rfl, ha, fun _ => rfl, fun h => by cases h⟩
    rw [assert_false_eq, ha]
  · exact ⟨w, [], assert_true _ _ w, by simp, rfl, ha, fun h => Bool.noConfusion h, fun _ => rfl⟩

/-- C26.  With `assert` in force (general.h line 14), `Array::operator[](i)` returns the
reference to `data[i]` with no assertion failing and nothing written exactly when
`0 <= i < count` and the storage is not null.  For every other index (those in
`[count, allocated)` included) it takes the path of the failed assertion: the diagnostic of
the first check that fails is written and the message box put up; the process ends there
(Abort, Retry), or, when the box is dismissed (Ignore), the reference to `data[i]` is formed
only after that diagnostic. -/
theorem operator_index_checked {T : Type} [Layout T] (arr : Array T) (i : Int) (w : World)
    (hasserts : w.asserts ≠ Assert_Mode.compiled_out) :
    ((∃ p, arr.operator_index i w = Outcome.ok p w) ↔
      (0 ≤ i ∧ i < arr.count ∧ arr.data ≠ null)) ∧
    ((0 ≤ i ∧ i < arr.count ∧ arr.data ≠ null) →
      arr.operator_index i w = Outcome.ok (arr.data + i.toNat * Layout.size_of T) w) ∧
    (¬ (0 ≤ i ∧ i < arr.count ∧ arr.data ≠ null) →
      ∃ expression site,
        (w.asserts = Assert_Mode.terminate →
          arr.operator_index i w =
            Outcome.fatal (w.put (assert_text expression site) false)) ∧
        (w.asserts = Assert_Mode.dismiss →
          ∃ w1 rest, w1.output = w.output ++ (assert_text expression site, false) :: rest ∧
            w1.mem = w.mem ∧
            arr.operator_index i w =
              match elem_ptr T arr.data i with
              | none => Outcome.undefined
              | some p => Outcome.ok p w1)) := by
  have hfail : ¬ (0 ≤ i ∧ i < arr.count ∧ arr.data ≠ null) →
      ∃ expression site,
        (w.asserts = Assert_Mode.terminate →
          arr.operator_index i w =
            Outcome.fatal (w.put (assert_text expression site) false)) ∧
        (w.asserts = Assert_Mode.dismiss →
          ∃ w1 rest, w1.output = w.output ++ (assert_text expression site, false) :: rest ∧
            w1.mem = w.mem ∧
            arr.operator_index i w =
              match elem_ptr T arr.data i with
              | none => Outcome.undefined
              | some p => Outcome.ok p w1) := by
    intro h
    have hf : w.asserts = Assert_Mode.terminate →
        ∀ (expression site : String), assert false expression site w =
          Outcome.fatal (w.put (assert_text expression site) false) := by
      intro ha e s
      rw [assert_false_eq, ha]
    have hrun : w.asserts = Assert_Mode.dismiss →
        ∃ r1 r2 r3 w3, w3.output = ((w.output ++ r1) ++ r2) ++ r3 ∧ w3.mem = w.mem ∧
          (decide (i ≥ 0) = false → r1 = [(assert_text "index >= 0" "array.h:15", false)]) ∧
          (decide (i ≥ 0) = true → r1 = []) ∧
          (decide (i < arr.count) = false →
            r2 = [(assert_text "index < this->count" "array.h:16", false)]) ∧
          (decide (i < arr.count) = true → r2 = []) ∧
          (decide (arr.data ≠ null) = false →
            r3 = [(assert_text "this->data != 0" "array.h:17", false)]) ∧
          arr.operator_index i w =
            match elem_ptr T arr.data i with
            | none => Outcome.undefined
            | some p => Outcome.ok p w3 := by
      intro ha
      obtain ⟨w1, r1, e1, o1, m1, a1, f1, t1⟩ :=
        assert_dismiss (decide (i ≥ 0)) "index >= 0" "array.h:15" w ha
      obtain ⟨w2, r2, e2, o2, m2, a2, f2, t2⟩ :=
        assert_dismiss (decide (i < arr.count)) "index < this->count" "array.h:16" w1 a1
      obtain ⟨w3, r3, e3, o3, m3, a3, f3, t3⟩ :=
        assert_dismiss (decide (arr.data ≠ null)) "this->data != 0" "array.h:17" w2 a2
      refine ⟨r1, r2, r3, w3, by rw [o3, o2, o1], by rw [m3, m2, m1], f1, ?_, f2, ?_, f3, ?_⟩
      · intro hc
        have hw := t1 hc
        rw [hw] at o1
        simpa using o1
      · intro hc
        have hw := t2 hc
        rw [hw] at o2
        simpa using o2
      · unfold Array.operator_index
        rw [Exec.bind_ok _ _ w w1 () e1, Exec.bind_ok _ _ w1 w2 () e2,
          Exec.bind_ok _ _ w2 w3 () e3]
        cases elem_ptr T arr.data i <;> rfl
    by_cases h1 : 0 ≤ i
    · have d1 : decide (i ≥ 0) = true := by simpa using h1
      by_cases h2 : i < arr.count
      · have d2 : decide (i < arr.count) = true := by simpa using h2
        have h3 : arr.data = null := by
          by_contra hne
          exact h ⟨h1, h2, hne⟩
        have d3 : decide (arr.data ≠ null) = false := by simpa using h3
        refine ⟨"this->data != 0", "array.h:17", fun ha => ?_, fun ha => ?_⟩
        · unfold Array.operator_index
          rw [d1, Exec.bind_ok _ _ w w () (assert_true _ _ w), d2,
            Exec.bind_ok _ _ w w () (assert_true _ _ w), d3]
          simp only [Exec.bind_apply, Exec.bind, hf ha]
        · obtain ⟨r1, r2, r3, w3, ho, hm, _, g1, _, g2, g3, hrun3⟩ := hrun ha
          refine ⟨w3, [], ?_, hm, hrun3⟩
          rw [ho, g1 d1, g2 d2, g3 d3]
          simp
      · have d2 : decide (i < arr.count) = false := by simpa using h2
        refine ⟨"index < this->count", "array.h:16", fun ha => ?_, fun ha => ?_⟩
        · unfold Array.operator_index
          rw [d1, Exec.bind_ok _ _ w w () (assert_true _ _ w), d2]
          simp only [Exec.bind_apply, Exec.bind, hf ha]
        · obtain ⟨r1, r2, r3, w3, ho, hm, _, g1, f2, _, _, hrun3⟩ := hrun ha
          refine ⟨w3, r3, ?_, hm, hrun3⟩
          rw [ho, g1 d1, f2 d2]
          simp
    · have d1 : decide (i ≥ 0) = false := by simpa using h1
      refine ⟨"index >= 0", "array.h:15", fun ha => ?_, fun ha => ?_⟩
      · unfold Array.operator_index
        rw [d1]
        simp only [Exec.bind_apply, Exec.bind, hf ha]
      · obtain ⟨r1, r2, r3, w3, ho, hm, f1, _, _, _, _, hrun3⟩ := hrun ha
        refine ⟨w3, r2 ++ r3, ?_, hm, hrun3⟩
        rw [ho, f1 d1]
        simp
  refine ⟨⟨fun hret => ?_, fun h => ⟨_, operator_index_eq arr i w h.1 h.2.1 h.2.2⟩⟩,
    fun h => operator_index_eq arr i w h.1 h.2.1 h.2.2, hfail⟩
  by_contra hnot
  obtain ⟨p, hp⟩ := hret
  obtain ⟨expression, site, hterm, hdis⟩ := hfail hnot
  cases ha : w.asserts with
  | compiled_out => exact hasserts ha
  | terminate =>
    rw [hterm ha] at hp
    cases hp
  | dismiss =>
    obtain ⟨w1, rest, ho, _, hrun⟩ := hdis ha
    rw [hrun] at hp
    cases he : elem_ptr T arr.data i with
    | none => rw [he] at hp; cases hp
    | some q =>
      rw [he] at hp
      injection hp with _ hw
      rw [hw] at ho
      have hlen := congrArg List.length ho
      simp at hlen

/-- C26 at `pop_example_array` (three elements, room for eight), where a failed assertion
ends the process: index 1 gives the reference to the second element, index 5 ends in a
failed assertion. -/
theorem operator_index_checked_witness :
    pop_example_world.asserts ≠ Assert_Mode.compiled_out ∧
    pop_example_array.operator_index 1 pop_example_world = Outcome.ok 2 pop_example_world ∧
    (pop_example_array.operator_index 5 pop_example_world).is_fatal = true ∧
    ∃ expression site, pop_example_array.operator_index 5 pop_example_world =
      Outcome.fatal (pop_example_world.put (assert_text expression site) false) := by
  have h := operator_index_checked pop_example_array 5 pop_example_world (by decide)
  obtain ⟨expression, site, hterm, _⟩ := h.2.2 (by decide)
  exact ⟨by decide,
    (operator_index_checked pop_example_array 1 pop_example_world (by decide)).2.1
      ⟨by decide, by decide, by decide⟩,
    rfl, expression, site, hterm rfl⟩

/-! ## The memory `pool_get` hands out -/

/-- The cycle of `pool_get` when `unused_memblocks` is empty and the process heap serves the
Allocate request: a fresh, zeroed block becomes the current block. -/
theorem pool_cycle_fresh (procs : Procs) (pool : Nat) (w : World) (p : Pool)
    (hprocs : procs Proc_Ptr.heap_allocator = heap_allocator)
    (hp : w.pools pool = some p)
    (hproc : p.block_allocator.proc = some Proc_Ptr.heap_allocator)
    (hc : p.unused_memblocks.count = 0) (hav : w.heap_avail = none)
    (hms : 0 ≤ p.memblock_size) :
    pool_cycle_new_block procs pool w = Outcome.ok ()
      (((w.request ⟨Proc_Ptr.heap_allocator, Allocator_Mode.ALLOCATOR_ALLOCATE, p.memblock_size,
          0, null, p.block_allocator.data⟩).heap_add (w.heap_next + 1)
            p.memblock_size.toNat).set_pool pool
        { p with bytes_left := p.memblock_size, current_memblock := w.heap_next + 1,
                 current_pos := w.heap_next + 1 }) := by
  have hne : ¬ (p.block_allocator.proc = none) := by rw [hproc]; simp
  have hdec : decide (p.block_allocator.proc ≠ none) = true := by simp [hproc]
  have hcall : p.block_allocator.call procs Allocator_Mode.ALLOCATOR_ALLOCATE p.memblock_size 0
      null w = Outcome.ok (w.heap_next + 1)
        ((w.request ⟨Proc_Ptr.heap_allocator, Allocator_Mode.ALLOCATOR_ALLOCATE, p.memblock_size,
          0, null, p.block_allocator.data⟩).heap_add (w.heap_next + 1) p.memblock_size.toNat) := by
    unfold Allocator.call
    rw [hproc]
    simp only [hprocs]
    unfold heap_allocator
    simp only []
    exact HeapAlloc_ok p.memblock_size (w.request _) hms hav
  unfold pool_cycle_new_block
  rw [Exec.bind_ok _ _ w w p (deref_eq pool w p hp)]
  simp only []
  rw [if_neg hne, Exec.bind_ok (pure PUnit.unit) _ w w _ rfl, if_neg (by simp [hc])]
  rw [hdec, Exec.bind_ok _ _ w w () (assert_true _ _ w)]
  rw [Exec.bind_ok _ _ w _ _ hcall]
  exact modify_eq pool _ _ p hp

/-- C23, as the code has it.  `pool_allocator_proc` in mode Allocate, for a pool with
alignment `a > 0` and a size `n >= 0`: when the request fits the current block, and when
the new current block is taken from `unused_memblocks`, the call returns and the store is
byte for byte what it was, so the bytes handed out are whatever was there; when the new
current block is requested from `heap_allocator` (nothing in `unused_memblocks`, heap not
exhausted), every byte of the block is zero, and with it the `n` bytes handed out when the
rounded size is at most `memblock_size`. -/
theorem pool_allocate_memory (procs : Procs) (pool : Nat) (n old_size : Int) (old_memory : Nat)
    (w : World) (p : Pool) (hp : w.pools pool = some p) (hpool : pool ≠ null)
    (ha : 0 < p.alignment) (hn : 0 ≤ n) :
    (¬ p.bytes_left < pool_rounded p.alignment n →
      ∃ w1, pool_allocator_proc procs Allocator_Mode.ALLOCATOR_ALLOCATE n old_size old_memory
          pool w = Outcome.ok p.current_pos w1 ∧ w1.mem = w.mem) ∧
    (p.bytes_left < pool_rounded p.alignment n → p.block_allocator.proc ≠ none →
      p.unused_memblocks.count ≠ 0 →
      ∀ x, p.unused_memblocks.get? w (p.unused_memblocks.count - 1) = some x →
      ∃ w1, pool_allocator_proc procs Allocator_Mode.ALLOCATOR_ALLOCATE n old_size old_memory
          pool w = Outcome.ok x.val w1 ∧ w1.mem = w.mem) ∧
    (p.bytes_left < pool_rounded p.alignment n →
      procs Proc_Ptr.heap_allocator = heap_allocator →
      p.block_allocator.proc = some Proc_Ptr.heap_allocator →
      p.unused_memblocks.count = 0 → w.heap_avail = none → 0 ≤ p.memblock_size →
      ∃ w1, pool_allocator_proc procs Allocator_Mode.ALLOCATOR_ALLOCATE n old_size old_memory
          pool w = Outcome.ok (w.heap_next + 1) w1 ∧
        (∀ j, j < p.memblock_size.toNat → w1.mem (w.heap_next + 1 + j) = some 0) ∧
        (pool_rounded p.alignment n ≤ p.memblock_size →
          Allocate_served n (Outcome.ok (w.heap_next + 1) w1))) := by
  have hdec : decide (pool ≠ null) = true := by simpa using hpool
  have hproc_eq : pool_allocator_proc procs Allocator_Mode.ALLOCATOR_ALLOCATE n old_size
      old_memory pool w = pool_get procs pool n w := by
    unfold pool_allocator_proc
    simp only []
    rw [hdec, Exec.bind_ok _ _ w w () (assert_true _ _ w)]
  have hr := pool_rounded_nonneg p.alignment n ha hn
  have hle := (pool_rounded_least p.alignment n ha hn).2.1
  have ha0 : p.alignment ≠ 0 := by omega
  rw [hproc_eq]
  refine ⟨fun hlt => ?_, fun hlt hproc hc x hx => ?_, fun hlt hprocs hproc hc hav hms => ?_⟩
  · rw [pool_get_eq procs pool n w p hp hpool ha0, if_neg hlt,
      pool_get_bump_eq pool _ w p hp (by omega)]
    exact ⟨_, rfl, rfl⟩
  · rw [pool_get_cycled procs pool n w _ _ _ hp hpool ha0 hlt
      (pool_cycle_pop procs pool w p x hp hproc hc hx) (set_pool_pools _ _ _)]
    by_cases hnull : x.val = null
    · rw [if_pos hnull, hnull]
      exact ⟨_, rfl, rfl⟩
    · rw [if_neg hnull, pool_get_bump_eq pool _ _ _ (set_pool_pools _ _ _)
        (by show 0 ≤ (x.val : Int) + _; omega)]
      exact ⟨_, rfl, rfl⟩
  · have hnn : ¬ (w.heap_next + 1 = null) := by unfold null; omega
    rw [pool_get_cycled procs pool n w _ _ _ hp hpool ha0 hlt
      (pool_cycle_fresh procs pool w p hprocs hp hproc hc hav hms) (set_pool_pools _ _ _),
      if_neg hnn, pool_get_bump_eq pool _ _ _ (set_pool_pools _ _ _)
        (by show 0 ≤ ((w.heap_next + 1 : Nat) : Int) + _; omega)]
    have hzero : ∀ j, j < p.memblock_size.toNat →
        ((w.request ⟨Proc_Ptr.heap_allocator, Allocator_Mode.ALLOCATOR_ALLOCATE,
          p.memblock_size, 0, null, p.block_allocator.data⟩).heap_add (w.heap_next + 1)
            p.memblock_size.toNat).mem (w.heap_next + 1 + j) = some 0 :=
      fun j hj => heap_add_mem_new _ _ _ j hj
    refine ⟨_, rfl, hzero, fun hfit => ⟨hnn, fun j hj => hzero j (by omega)⟩⟩

/-! ## The memory `pool_get` hands out, at concrete inputs -/

/-- C23 at three states: a request that fits the current block (`pool_example_second`), a
request served from `unused_memblocks` (`recycle_example_world`) and a request served by a
fresh block of the heap (`pool_example_start`). -/
theorem pool_allocate_memory_witness :
    (∃ w1, pool_allocator_proc (linked_procs 1) Allocator_Mode.ALLOCATOR_ALLOCATE 10 0 null 1000
        pool_example_second = Outcome.ok 17 w1 ∧ w1.mem = pool_example_second.mem) ∧
    (∃ w1, pool_allocator_proc (linked_procs 1) Allocator_Mode.ALLOCATOR_ALLOCATE 10 0 null 1000
        recycle_example_world = Outcome.ok 131 w1 ∧ w1.mem = recycle_example_world.mem) ∧
    ∃ w1, pool_allocator_proc (linked_procs 1) Allocator_Mode.ALLOCATOR_ALLOCATE 10 0 null 1000
        (pool_example_start Assert_Mode.terminate) = Outcome.ok 1 w1 ∧
      (∀ j, j < 64 → w1.mem (1 + j) = some 0) ∧
      Allocate_served 10 (Outcome.ok 1 w1) := by
  refine ⟨?_, ?_, ?_⟩
  · exact (pool_allocate_memory (linked_procs 1) 1000 10 0 null pool_example_second
      pool_example_pool rfl (by decide) (by decide) (by decide)).1 (by decide)
  · exact (pool_allocate_memory (linked_procs 1) 1000 10 0 null recycle_example_world
      recycle_example_pool rfl (by decide) (by decide) (by decide)).2.1 (by decide) (by decide)
      (by decide) 131 rfl
  · obtain ⟨w1, hrun, hzero, hserved⟩ :=
      (pool_allocate_memory (linked_procs 1) 1000 10 0 null
        (pool_example_start Assert_Mode.terminate) { memblock_size := 64, alignment := 8 } rfl
        (by decide) (by decide) (by decide)).2.2 (by decide) rfl rfl rfl rfl (by decide)
    exact ⟨w1, hrun, hzero, hserved (by decide)⟩

/-- C23 as stated fails: after `pool_get(pool, 10)` gave the block at 1, the client wrote
the byte 7 there and `pool_reset` recycled the block, an Allocate request of 50 bytes
returns the block at 1 again, from `unused_memblocks`, with the 7 still in its first byte:
the bytes handed out are not all zero. -/
theorem pool_allocate_recycled_not_zero :
    (recycled_example_run (pool_example_start Assert_Mode.terminate)).val? = some 1 ∧
    (recycled_example_run (pool_example_start Assert_Mode.terminate)).check
      (fun p w1 => decide (w1.mem p = some 7)) = true ∧
    ¬ Allocate_served 50 (recycled_example_run (pool_example_start Assert_Mode.terminate)) := by
  decide!

/-- C27 fails in the code.  `pool_reset` and `pool_release` set `current_memblock` to null
and leave `bytes_left` and `current_pos` as they were (`pool.h:133-136`).  After
`pool_init(pool, 64, 8)`, `pool_get(pool, 10)` and `pool_reset(pool)`, the next
`pool_get(pool, 10)` finds `bytes_left == 48`, does not cycle and returns 17, an address
inside the block at 1, which now is an element of `unused_memblocks`; `current_memblock` is
still null.  With `pool_release` in place of `pool_reset` it returns 17 as well, inside the
block that was returned to the heap: the address is not mapped any more. -/
theorem pool_get_after_reset_is_stale :
    (∃ w1, stale_reset_run (pool_example_start Assert_Mode.terminate) = Outcome.ok 17 w1 ∧
      (w1.pools 1000).map (fun p => (p.current_memblock, p.bytes_left, p.current_pos)) =
        some (null, 32, 33) ∧
      (w1.pools 1000).map (fun p => p.unused_memblocks.elems w1) = some [some 1] ∧
      w1.heap_size 1 = some 64) ∧
    ∃ w2, stale_release_run (pool_example_start Assert_Mode.terminate) = Outcome.ok 17 w2 ∧
      (w2.pools 1000).map (fun p => (p.current_memblock, p.bytes_left, p.current_pos)) =
        some (null, 32, 33) ∧
      w2.heap_size 1 = none ∧ w2.mem 17 = none := by
  obtain ⟨r1, w1, hrun1, hP1⟩ := Outcome.check_ok
    (stale_reset_run (pool_example_start Assert_Mode.terminate))
    (fun r w1 => decide (r = 17) &&
      decide ((w1.pools 1000).map (fun p => (p.current_memblock, p.bytes_left, p.current_pos)) =
        some (null, 32, 33)) &&
      decide ((w1.pools 1000).map (fun p => p.unused_memblocks.elems w1) = some [some 1]) &&
      decide (w1.heap_size 1 = some 64))
    (by decide!)
  obtain ⟨r2, w2, hrun2, hP2⟩ := Outcome.check_ok
    (stale_release_run (pool_example_start Assert_Mode.terminate))
    (fun r w2 => decide (r = 17) &&
      decide ((w2.pools 1000).map (fun p => (p.current_memblock, p.bytes_left, p.current_pos)) =
        some (null, 32, 33)) &&
      decide (w2.heap_size 1 = none) && decide (w2.mem 17 = none))
    (by decide!)
  simp only [Bool.and_eq_true, decide_eq_true_eq] at hP1 hP2
  obtain ⟨⟨⟨h1, h2⟩, h3⟩, h4⟩ := hP1
  obtain ⟨⟨⟨g1, g2⟩, g3⟩, g4⟩ := hP2
  subst h1
  subst g1
  exact ⟨⟨w1, hrun1, h2, h3, h4⟩, w2, hrun2, g2, g3, g4⟩

end General
